import Mathlib

/-!
# vibe_annotation.js: annotation geometry, selection and editing

A shallow embedding of the state of `vibe_annotation.js` and of the handlers
that change it.  JavaScript numbers are modelled by exact rationals `ℚ`
(no rounding, no NaN, no Infinity; `x / 0 = 0` as in Lean).  The DOM is
reduced to the values the handlers read from it (container sizes, the colour
picker, the line-width slider) and drawing calls, which do not change the
state, are left out of the state transformers.  The export, copy and description
functions read the state and leave it as it was (the PDF export restores
`activeImageIndex` before it returns), so they have no event of their own beyond
the notice dialog they may open.
-/

namespace VibeAnnotation

/-! ## Data model -/

/-- A point `{x, y}`. -/
structure Point where
  x : ℚ
  y : ℚ
deriving DecidableEq

/-- A rectangle `{x, y, width, height}`, the shape of `ann.source`. -/
structure Rect where
  x : ℚ
  y : ℚ
  width : ℚ
  height : ℚ
deriving DecidableEq

/-- The two strings `displayUnit` and `originalUnit` take: `'cm'` and `'mm'`. -/
inductive LengthUnit where
  | cm
  | mm
deriving DecidableEq

/-- The unit as the string the code stores. -/
def LengthUnit.str : LengthUnit → String
  | .cm => "cm"
  | .mm => "mm"

/-- The values of `currentTool` passed to `setActiveTool`. -/
inductive Tool where
  | measure
  | arrow
  | text
  | zoom_annotation
deriving DecidableEq

/-- The four object shapes pushed onto an annotation list, one constructor per
`type` string, with exactly the properties each object literal carries.
`source = none` stands for the empty object `{}` a pinned zoom is created with. -/
inductive Annotation where
  | measure (start endPos : Point) (color : String) (width : ℚ) (value : ℚ)
      (originalUnit : LengthUnit)
  | arrow (start endPos : Point) (color : String) (width : ℚ) (text : String)
  | text (text : String) (pos : Point) (color : String) (width : ℚ)
  | pinned_zoom (text : String) (pos : Point) (size : ℚ) (zoom : ℚ) (color : String)
      (source : Option Rect)
deriving DecidableEq

/-- The fields of an `Image` element the code reads. -/
structure Image where
  naturalWidth : ℚ
  naturalHeight : ℚ
  complete : Bool
deriving DecidableEq

/-- One entry of `imagesData`: `{ id, image, annotations }`. -/
structure ImageData where
  id : ℚ
  image : Image
  annotations : List Annotation
deriving DecidableEq

/-- The closure stored in `currentModalCallback`, with the variables it captured. -/
inductive ModalCallback where
  | zoomText (pos : Point)
  | textTool (pos : Point)
  | measureValue (start endPos : Point) (color : String) (width : ℚ)
  | arrowText (start endPos : Point) (color : String) (width : ℚ)
deriving DecidableEq

/-- The closure stored in `currentConfirmCallback`. -/
inductive ConfirmCallback where
  | deleteImage (index : ℕ)
  | clearCanvas
  | restart
  | noop
deriving DecidableEq

/-- The state variables of the script together with the DOM values its handlers read. -/
structure State where
  imagesData : List ImageData
  activeImageIndex : ℤ
  currentTool : Tool
  isDrawing : Bool
  startPos : Point
  lastMousePos : Point
  displayUnit : LengthUnit
  selectedAnnotationIndex : ℤ
  isResizing : Bool
  currentModalCallback : Option ModalCallback
  currentConfirmCallback : Option ConfirmCallback
  canvasWidth : ℚ
  canvasHeight : ℚ
  previewMode : Bool
  containerWidth : ℚ
  containerHeight : ℚ
  overlayWidth : ℚ
  overlayHeight : ℚ
  colorPickerValue : String
  lineWidthValue : ℚ
deriving DecidableEq

/-- The functions of `Math` whose values are not rational: `Math.sqrt` and the
cosine and sine of `Math.PI / 4` used by `getResizeHandle`. -/
structure JsMath where
  sqrt : ℚ → ℚ
  cosQuarterPi : ℚ
  sinQuarterPi : ℚ

/-- A concrete `Math`: a square root that is exact on squares of rationals and
four-digit values of cos and sin of 45 degrees. -/
def refMath : JsMath :=
  { sqrt := Rat.sqrt, cosQuarterPi := 7071 / 10000, sinQuarterPi := 7071 / 10000 }

/-- How a handler ends: it returns, or a property read on `undefined`
throws a TypeError; either way the state reached so far stays. -/
inductive Outcome where
  | done (s : State)
  | typeError (s : State)
deriving DecidableEq

/-- The state a handler leaves behind. -/
def Outcome.state : Outcome → State
  | .done s => s
  | .typeError s => s

/-! ## Multi-image state management -/

/-- Array indexing `arr[i]` with a number: `undefined` (here `none`) off the array. -/
def jsIndex {α : Type} (arr : List α) (i : ℤ) : Option α :=
  if i < 0 then none else arr[i.toNat]?

/-- Source function `getActiveImageData`. -/
def getActiveImageData (st : State) : Option ImageData :=
  if st.activeImageIndex > -1 then jsIndex st.imagesData st.activeImageIndex else none

/-- Source function `getActiveImage`. -/
def getActiveImage (st : State) : Option Image :=
  match getActiveImageData st with
  | some data => some data.image
  | none => none

/-- Source function `getActiveAnnotations`. -/
def getActiveAnnotations (st : State) : List Annotation :=
  match getActiveImageData st with
  | some data => data.annotations
  | none => []

/-- In-place mutation of the array returned by `getActiveAnnotations()`: it is the
active entry's own array, or a fresh `[]` that is dropped when no entry is active. -/
def setActiveAnnotations (st : State) (anns : List Annotation) : State :=
  match getActiveImageData st with
  | some data =>
      { st with imagesData :=
          st.imagesData.set st.activeImageIndex.toNat { data with annotations := anns } }
  | none => st

/-! ## Coordinate transformation -/

/-- Source function `getCanvasPos`. -/
def getCanvasPos (st : State) (originalPos : Point) : Point :=
  match getActiveImage st with
  | none => originalPos
  | some activeImage =>
      let ratio := st.canvasWidth / activeImage.naturalWidth
      { x := originalPos.x * ratio, y := originalPos.y * ratio }

/-- Source function `getOriginalPos`. -/
def getOriginalPos (st : State) (canvasPos : Point) : Point :=
  match getActiveImage st with
  | none => canvasPos
  | some activeImage =>
      let ratio := st.canvasWidth / activeImage.naturalWidth
      { x := canvasPos.x / ratio, y := canvasPos.y / ratio }

/-! ## Rendering: the state effect of `redraw` -/

/-- The body of the `forEach` in `redraw`, as far as it changes the annotation:
a pinned zoom gets `ann.source` reassigned, the other kinds are only drawn. -/
def redrawForEach : Annotation → Annotation
  | .pinned_zoom text pos size zoom color _ =>
      let sourceWidth := size / zoom
      let sourceHeight := size / zoom
      .pinned_zoom text pos size zoom color
        (some { x := pos.x - sourceWidth / 2, y := pos.y - sourceHeight / 2,
                width := sourceWidth, height := sourceHeight })
  | ann => ann

/-- Source function `redraw`: nothing is touched when there is no active image
or it is not ready; otherwise every active annotation goes through the loop body. -/
def redraw (st : State) : State :=
  match getActiveImage st with
  | none => st
  | some activeImage =>
      if !activeImage.complete || activeImage.naturalWidth = 0 then st
      else setActiveAnnotations st ((getActiveAnnotations st).map redrawForEach)

/-- The `source` property of an annotation object, when it has one that was computed. -/
def Annotation.source? : Annotation → Option Rect
  | .pinned_zoom _ _ _ _ _ source => source
  | _ => none

/-! ## Number formatting and parsing -/

/-- The method `Number.prototype.toFixed(1)` on an exact number below 1e21:
the nearest tenth, a tie going to the larger magnitude, printed with one decimal
and a leading minus sign for a negative number. -/
def toFixed1 (x : ℚ) : String :=
  let a := if x < 0 then -x else x
  let n := (⌊a * 10 + 1 / 2⌋).toNat
  (if x < 0 then "-" else "") ++ toString (n / 10) ++ "." ++ toString (n % 10)

/-- The value of a run of decimal digits. -/
def digitsValue (ds : List Char) : ℕ :=
  ds.foldl (fun acc c => acc * 10 + (c.toNat - 48)) 0

/-- The global `parseFloat` on the decimal literals: leading white space, an
optional sign, digits with an optional fraction, an optional exponent; `none`
stands for NaN.  The literal `Infinity`, which has no rational value, is not read. -/
def parseFloat (s : String) : Option ℚ :=
  let cs := s.toList.dropWhile Char.isWhitespace
  let neg := cs.head? = some '-'
  let cs := if cs.head? = some '-' ∨ cs.head? = some '+' then cs.tail else cs
  let intDigits := cs.takeWhile Char.isDigit
  let cs := cs.dropWhile Char.isDigit
  let fracDigits := if cs.head? = some '.' then cs.tail.takeWhile Char.isDigit else []
  let cs := if cs.head? = some '.' then cs.tail.dropWhile Char.isDigit else cs
  if intDigits = [] ∧ fracDigits = [] then none
  else
    let mantissa : ℚ :=
      (digitsValue intDigits : ℚ) + (digitsValue fracDigits : ℚ) / (10 : ℚ) ^ fracDigits.length
    let expNeg := cs.tail.head? = some '-'
    let expCs :=
      if cs.tail.head? = some '-' ∨ cs.tail.head? = some '+' then cs.tail.tail else cs.tail
    let expDigits := expCs.takeWhile Char.isDigit
    let scaled : ℚ :=
      if (cs.head? = some 'e' ∨ cs.head? = some 'E') ∧ expDigits ≠ [] then
        if expNeg then mantissa / (10 : ℚ) ^ digitsValue expDigits
        else mantissa * (10 : ℚ) ^ digitsValue expDigits
      else mantissa
    some (if neg then -scaled else scaled)

/-! ## Annotation list -/

/-- The conversion shared by `getAnnotationText` and `drawDimension`:
`displayValue` after the two `if`s. -/
def displayValue (value : ℚ) (originalUnit displayUnit : LengthUnit) : ℚ :=
  if originalUnit = .cm ∧ displayUnit = .mm then value * 10
  else if originalUnit = .mm ∧ displayUnit = .cm then value / 10
  else value

/-- Source function `getAnnotationText`. -/
def getAnnotationText (st : State) : Annotation → String
  | .measure _ _ _ _ value originalUnit =>
      toFixed1 (displayValue value originalUnit st.displayUnit) ++ " " ++ st.displayUnit.str
  | .arrow _ _ _ _ text => text
  | .text text _ _ _ => text
  | .pinned_zoom text _ _ _ _ _ => text

/-- The string `text` that `drawDimension` builds and passes to `fillText`;
`drawDimension` is only called on a measure and draws nothing otherwise here. -/
def drawDimensionText (st : State) : Annotation → Option String
  | .measure _ _ _ _ value originalUnit =>
      some (toFixed1 (displayValue value originalUnit st.displayUnit) ++ " " ++
        st.displayUnit.str)
  | _ => none

/-- One row built by `renderAnnotationList`: the number in the circle, the text
of the input and the `data-index` carried by the input and the delete button. -/
structure ListItem where
  number : ℕ
  textContent : String
  dataIndex : ℕ
deriving DecidableEq

/-- Source function `renderAnnotationList`, as the rows it builds (none for an empty list). -/
def renderAnnotationList (st : State) : List ListItem :=
  (getActiveAnnotations st).enum.map fun (index, ann) =>
    { number := index + 1, textContent := getAnnotationText st ann, dataIndex := index }

/-! ## Tools, units, canvas size and active image -/

/-- Source function `setActiveTool`. -/
def setActiveTool (st : State) (tool : Tool) : State :=
  redraw { st with currentTool := tool, selectedAnnotationIndex := -1 }

/-- Source function `setDisplayUnit`. -/
def setDisplayUnit (st : State) (unit : LengthUnit) : State :=
  redraw { st with displayUnit := unit }

/-- Source function `resizeCanvas`; the target container is the preview overlay in
preview mode and the canvas container otherwise. -/
def resizeCanvas (st : State) : State :=
  let containerWidth := if st.previewMode then st.overlayWidth else st.containerWidth
  let containerHeight := if st.previewMode then st.overlayHeight else st.containerHeight
  match getActiveImage st with
  | none => redraw { st with canvasWidth := containerWidth, canvasHeight := containerHeight }
  | some activeImage =>
      let imageAspectRatio := activeImage.naturalWidth / activeImage.naturalHeight
      let containerAspectRatio := containerWidth / containerHeight
      if imageAspectRatio > containerAspectRatio then
        redraw { st with canvasWidth := containerWidth,
                         canvasHeight := containerWidth / imageAspectRatio }
      else
        redraw { st with canvasHeight := containerHeight,
                         canvasWidth := containerHeight * imageAspectRatio }

/-- Source function `setActiveImage`. -/
def setActiveImage (st : State) (index : ℤ) : State :=
  if index = st.activeImageIndex then st
  else resizeCanvas { st with activeImageIndex := index }

/-- Source function `togglePreviewMode`. -/
def togglePreviewMode (st : State) : State :=
  resizeCanvas { st with previewMode := !st.previewMode }

/-- The callback `deleteImage` hands to the confirm dialog. -/
def deleteImageConfirmed (st : State) (index : ℕ) : State :=
  let st := { st with imagesData := st.imagesData.eraseIdx index }
  let st := if st.activeImageIndex ≥ (index : ℤ)
    then { st with activeImageIndex := st.activeImageIndex - 1 } else st
  let st := if st.activeImageIndex < 0 ∧ st.imagesData.length > 0
    then { st with activeImageIndex := 0 } else st
  let st := if st.imagesData.length = 0 then { st with activeImageIndex := -1 } else st
  resizeCanvas (setActiveImage st st.activeImageIndex)

/-- The `img.onload` callback of `handleImageUpload` for one decoded file. -/
def imageLoaded (st : State) (id : ℚ) (img : Image) : State :=
  let st := { st with imagesData :=
    st.imagesData ++ [{ id := id, image := img, annotations := [] }] }
  setActiveImage st ((st.imagesData.length : ℤ) - 1)

/-! ## Modal dialogs -/

/-- Source function `showInputModal`, as far as the state goes: the callback is stored. -/
def showInputModal (st : State) (callback : ModalCallback) : State :=
  { st with currentModalCallback := some callback }

/-- Source function `hideInputModal`. -/
def hideInputModal (st : State) : State :=
  { st with currentModalCallback := none }

/-- Source function `showConfirmModal`. -/
def showConfirmModal (st : State) (callback : ConfirmCallback) : State :=
  { st with currentConfirmCallback := some callback }

/-- Source function `hideConfirmModal`. -/
def hideConfirmModal (st : State) : State :=
  { st with currentConfirmCallback := none }

/-- Source function `createZoomAnnotation`: the click position is converted at
once and captured by the callback. -/
def createZoomAnnotation (st : State) (canvasClickPos : Point) : State :=
  match getActiveImage st with
  | none => st
  | some _ => showInputModal st (.zoomText (getOriginalPos st canvasClickPos))

/-- The body of a stored input callback, run on the submitted string. -/
def runModalCallback (st : State) (value : String) : ModalCallback → State
  | .zoomText pos =>
      let st := setActiveAnnotations st (getActiveAnnotations st ++
        [ Annotation.pinned_zoom (if value = "" then "放大細節" else value) pos 150 3
            st.colorPickerValue none])
      setActiveTool (redraw st) .arrow
  | .textTool pos =>
      if value ≠ "" then
        redraw (setActiveAnnotations st (getActiveAnnotations st ++
          [ Annotation.text value (getOriginalPos st pos) st.colorPickerValue
              st.lineWidthValue]))
      else st
  | .measureValue start endPos color width =>
      match parseFloat value with
      | some v =>
          if value ≠ "" then
            redraw (setActiveAnnotations st (getActiveAnnotations st ++
              [ Annotation.measure start endPos color width v st.displayUnit]))
          else redraw st
      | none => redraw st
  | .arrowText start endPos color width =>
      if value ≠ "" then
        redraw (setActiveAnnotations st (getActiveAnnotations st ++
          [ Annotation.arrow start endPos color width value]))
      else redraw st

/-- The click handler of `modalOkBtn`. -/
def modalOk (st : State) (value : String) : State :=
  match st.currentModalCallback with
  | some callback => hideInputModal (runModalCallback st value callback)
  | none => hideInputModal st

/-- The body of a stored confirm callback.  Clearing reads
`imagesData[activeImageIndex].annotations`, which throws when that entry is missing. -/
def runConfirmCallback (st : State) : ConfirmCallback → Outcome
  | .deleteImage index => .done (deleteImageConfirmed st index)
  | .clearCanvas =>
      match jsIndex st.imagesData st.activeImageIndex with
      | some data =>
          let cleared : ImageData := { data with annotations := [] }
          .done (redraw
            { st with imagesData := st.imagesData.set st.activeImageIndex.toNat cleared })
      | none => .typeError st
  | .restart => .done (resizeCanvas { st with imagesData := [], activeImageIndex := -1 })
  | .noop => .done st

/-- The click handler of `confirmModalOkBtn`. -/
def confirmOk (st : State) : Outcome :=
  match st.currentConfirmCallback with
  | some callback =>
      match runConfirmCallback st callback with
      | .done s => .done (hideConfirmModal s)
      | .typeError s => .typeError s
  | none => .done (hideConfirmModal st)

/-! ## Annotation list handlers, undo, clear -/

/-- The `change` handler of a list input with `data-index = index`. -/
def listInputChange (st : State) (index : ℕ) (value : String) : Outcome :=
  match (getActiveAnnotations st)[index]? with
  | none => .typeError st
  | some (.measure start endPos color width v originalUnit) =>
      match parseFloat value with
      | some val =>
          .done (redraw (setActiveAnnotations st ((getActiveAnnotations st).set index
            (.measure start endPos color width val originalUnit))))
      | none =>
          .done (redraw (setActiveAnnotations st ((getActiveAnnotations st).set index
            (.measure start endPos color width v originalUnit))))
  | some (.arrow start endPos color width _) =>
      .done (redraw (setActiveAnnotations st ((getActiveAnnotations st).set index
        (.arrow start endPos color width value))))
  | some (.text _ pos color width) =>
      .done (redraw (setActiveAnnotations st ((getActiveAnnotations st).set index
        (.text value pos color width))))
  | some (.pinned_zoom _ pos size zoom color source) =>
      .done (redraw (setActiveAnnotations st ((getActiveAnnotations st).set index
        (.pinned_zoom value pos size zoom color source))))

/-- The `click` handler of the delete button with `data-index = index`:
`splice(index, 1)` then `redraw`. -/
def listDelete (st : State) (index : ℕ) : State :=
  redraw (setActiveAnnotations st ((getActiveAnnotations st).eraseIdx index))

/-- The click handler of `undoTool`. -/
def undo (st : State) : State :=
  if (getActiveAnnotations st).length > 0 then
    redraw (setActiveAnnotations st (getActiveAnnotations st).dropLast)
  else st

/-- The click handler of `clearButton`. -/
def clearClick (st : State) : State :=
  if st.activeImageIndex = -1 then st else showConfirmModal st .clearCanvas

/-! ## Canvas pointer handlers -/

/-- Source function `getResizeHandle`, on the `pos` and `size` of the annotation. -/
def getResizeHandle (M : JsMath) (pos : Point) (size : ℚ) (ratio : ℚ) : Point :=
  let canvasPos : Point := { x := pos.x * ratio, y := pos.y * ratio }
  let canvasRadius := (size / 2) * ratio
  { x := canvasPos.x + canvasRadius * M.cosQuarterPi,
    y := canvasPos.y + canvasRadius * M.sinQuarterPi }

/-- The selection loop of the `mousedown` handler, `hitLoop … n` running the
indices `n - 1, …, 0`: the first pinned zoom whose circle holds `pos`. -/
def hitLoop (M : JsMath) (annotations : List Annotation) (ratio : ℚ) (pos : Point) :
    ℕ → Option ℕ
  | 0 => none
  | i + 1 =>
      match annotations[i]? with
      | some (.pinned_zoom _ annPos size _ _ _) =>
          let canvasPos : Point := { x := annPos.x * ratio, y := annPos.y * ratio }
          let canvasSize := size * ratio
          let dx := pos.x - canvasPos.x
          let dy := pos.y - canvasPos.y
          if M.sqrt (dx * dx + dy * dy) < canvasSize / 2 then some i
          else hitLoop M annotations ratio pos i
      | _ => hitLoop M annotations ratio pos i

/-- The `mousedown` handler from the selection loop on. -/
def mousedownSelect (M : JsMath) (st : State) (pos : Point) (ratio : ℚ) : State :=
  match hitLoop M (getActiveAnnotations st) ratio pos (getActiveAnnotations st).length with
  | some i => redraw { st with selectedAnnotationIndex := (i : ℤ) }
  | none =>
      let st := { st with selectedAnnotationIndex := -1 }
      if st.currentTool = .measure ∨ st.currentTool = .arrow then
        redraw { st with isDrawing := true, startPos := getOriginalPos st pos }
      else st

/-- The `mousedown` handler of the canvas for a left click at canvas point `pos`. -/
def mousedown (M : JsMath) (st : State) (pos : Point) : Outcome :=
  if st.previewMode then .done (togglePreviewMode st)
  else if st.activeImageIndex = -1 then .done st
  else if st.currentTool = Tool.zoom_annotation then .done ( createZoomAnnotation st pos)
  else if st.currentTool = .text then
    .done (showInputModal { st with isDrawing := false } (.textTool pos))
  else
    let ratio : ℚ := match getActiveImage st with
      | some activeImage => st.canvasWidth / activeImage.naturalWidth
      | none => 1
    if st.selectedAnnotationIndex ≠ -1 then
      match jsIndex (getActiveAnnotations st) st.selectedAnnotationIndex with
      | none => .typeError st
      | some (.pinned_zoom _ annPos size _ _ _) =>
          let handlePos := getResizeHandle M annPos size ratio
          let dx := pos.x - handlePos.x
          let dy := pos.y - handlePos.y
          if M.sqrt (dx * dx + dy * dy) < 8 * ratio then .done { st with isResizing := true }
          else .done (mousedownSelect M st pos ratio)
      | some _ => .done (mousedownSelect M st pos ratio)
    else .done (mousedownSelect M st pos ratio)

/-- The `mousemove` handler of the canvas with the pointer at canvas point `pos`.
In the resizing branch a measure or an arrow has no `pos` and the read throws; a
text annotation would only gain a `size` property that nothing reads. -/
def mousemove (M : JsMath) (st : State) (pos : Point) : Outcome :=
  let st := { st with lastMousePos := pos }
  if st.isResizing = true ∧ st.selectedAnnotationIndex ≠ -1 then
    match jsIndex (getActiveAnnotations st) st.selectedAnnotationIndex, getActiveImage st with
    | none, _ => .typeError st
    | some (.measure ..), _ => .typeError st
    | some (.arrow ..), _ => .typeError st
    | some _, none => .typeError st
    | some (.text ..), some _ => .done (redraw st)
    | some (.pinned_zoom text annPos _ zoom color source), some activeImage =>
        let annCanvasPos : Point :=
          { x := annPos.x * (st.canvasWidth / activeImage.naturalWidth),
            y := annPos.y * (st.canvasWidth / activeImage.naturalWidth) }
        let dx := st.lastMousePos.x - annCanvasPos.x
        let dy := st.lastMousePos.y - annCanvasPos.y
        let newRadius := M.sqrt (dx * dx + dy * dy)
        let size := (newRadius * 2) / (st.canvasWidth / activeImage.naturalWidth)
        .done (redraw (setActiveAnnotations st ((getActiveAnnotations st).set
          st.selectedAnnotationIndex.toNat (.pinned_zoom text annPos size zoom color source))))
  else if st.isDrawing = false then .done st
  else .done (redraw st)

/-- The `mouseup` handler of the canvas with the pointer at canvas point `pos`. -/
def mouseup (st : State) (pos : Point) : State :=
  if st.isResizing = true then { st with isResizing := false }
  else if st.isDrawing = false then st
  else
    let st := { st with isDrawing := false }
    let endPos := getOriginalPos st pos
    match st.currentTool with
    | .measure =>
        showInputModal st (.measureValue st.startPos endPos st.colorPickerValue st.lineWidthValue)
    | .arrow =>
        showInputModal st (.arrowText st.startPos endPos st.colorPickerValue st.lineWidthValue)
    | _ => redraw st

/-- The `mouseleave` handler of the canvas. -/
def mouseleave (st : State) : State :=
  let st := if st.isDrawing = true then redraw { st with isDrawing := false } else st
  if st.isResizing = true then redraw { st with isResizing := false } else st

/-- The constant `zoomChange` of the `wheel` handler: `1 - (e.deltaY > 0 ? 0.1 : -0.1)`. -/
def zoomChange (deltaY : ℚ) : ℚ :=
  1 - (if deltaY > 0 then 1 / 10 else -(1 / 10))

/-- The `wheel` handler of the canvas for a wheel event with the given `deltaY`. -/
def wheel (st : State) (deltaY : ℚ) : Outcome :=
  if st.selectedAnnotationIndex ≠ -1 then
    match jsIndex (getActiveAnnotations st) st.selectedAnnotationIndex with
    | none => .typeError st
    | some (.pinned_zoom text pos size zoom color source) =>
        .done (redraw (setActiveAnnotations st ((getActiveAnnotations st).set
          st.selectedAnnotationIndex.toNat
          (.pinned_zoom text pos size (max 1 (min (zoom * zoomChange deltaY) 10)) color
            source))))
    | some _ => .done st
  else .done st

/-! ## Events and reachable states -/

/-- The user and browser events the script listens to (keyboard shortcuts are
the clicks they forward to). -/
inductive Event where
  | toolClick (tool : Tool)
  | unitClick (unit : LengthUnit)
  | windowResize (containerWidth containerHeight overlayWidth overlayHeight : ℚ)
  | previewToggle
  | colorInput (color : String)
  | lineWidthInput (width : ℚ)
  | imageLoaded (id naturalWidth naturalHeight : ℚ)
  | thumbClick (index : ℕ)
  | deleteImageClick (index : ℕ)
  | restartClick
  | clearClick
  | alert
  | confirmOk
  | confirmCancel
  | modalOk (value : String)
  | modalCancel
  | listInputChange (index : ℕ) (value : String)
  | listDelete (index : ℕ)
  | undo
  | mousedown (pos : Point)
  | mousemove (pos : Point)
  | mouseup (pos : Point)
  | mouseleave
  | wheel (deltaY : ℚ)

/-- The state after the listener of an event has run (to its end or to a throw). -/
def step (M : JsMath) (st : State) : Event → State
  | .toolClick tool => setActiveTool st tool
  | .unitClick unit => setDisplayUnit st unit
  | .windowResize cw ch ow oh =>
      resizeCanvas { st with containerWidth := cw, containerHeight := ch,
                             overlayWidth := ow, overlayHeight := oh }
  | .previewToggle => togglePreviewMode st
  | .colorInput color => { st with colorPickerValue := color }
  | .lineWidthInput width => { st with lineWidthValue := width }
  | .imageLoaded id naturalWidth naturalHeight =>
      imageLoaded st id
        { naturalWidth := naturalWidth, naturalHeight := naturalHeight, complete := true }
  | .thumbClick index => setActiveImage st (index : ℤ)
  | .deleteImageClick index => showConfirmModal st (.deleteImage index)
  | .restartClick => showConfirmModal st .restart
  | .clearClick => clearClick st
  | .alert => showConfirmModal st .noop
  | .confirmOk => (confirmOk st).state
  | .confirmCancel => hideConfirmModal st
  | .modalOk value => modalOk st value
  | .modalCancel => hideInputModal st
  | .listInputChange index value => (listInputChange st index value).state
  | .listDelete index => listDelete st index
  | .undo => undo st
  | .mousedown pos => (mousedown M st pos).state
  | .mousemove pos => (mousemove M st pos).state
  | .mouseup pos => mouseup st pos
  | .mouseleave => mouseleave st
  | .wheel deltaY => (wheel st deltaY).state

/-- The state once the script has loaded: the declared initial values, then
`setActiveTool('measure')` and `setDisplayUnit('cm')`; the sizes and input values
found in the page are parameters. -/
def initState (canvasWidth canvasHeight containerWidth containerHeight overlayWidth
    overlayHeight : ℚ) (color : String) (lineWidth : ℚ) : State :=
  setDisplayUnit (setActiveTool
    { imagesData := [], activeImageIndex := -1, currentTool := .measure, isDrawing := false,
      startPos := { x := 0, y := 0 }, lastMousePos := { x := 0, y := 0 },
      displayUnit := .cm, selectedAnnotationIndex := -1, isResizing := false,
      currentModalCallback := none, currentConfirmCallback := none,
      canvasWidth := canvasWidth, canvasHeight := canvasHeight, previewMode := false,
      containerWidth := containerWidth, containerHeight := containerHeight,
      overlayWidth := overlayWidth, overlayHeight := overlayHeight,
      colorPickerValue := color, lineWidthValue := lineWidth } .measure) .cm

/-- The state after a sequence of events. -/
def run (M : JsMath) (st : State) (events : List Event) : State :=
  events.foldl (step M) st

/-- The states the script can be in: an initial state followed by events. -/
inductive Reachable (M : JsMath) : State → Prop where
  | init (cw ch kw kh ow oh : ℚ) (color : String) (lw : ℚ) :
      Reachable M (initState cw ch kw kh ow oh color lw)
  | step {st : State} (e : Event) : Reachable M st → Reachable M (step M st e)

/-! ## Predicates used in the statements -/

/-- The lookup `annotations[selectedAnnotationIndex]` the mousedown, mousemove and
wheel handlers perform once they have seen `selectedAnnotationIndex !== -1`. -/
def selectedLookup (st : State) : Option Annotation :=
  jsIndex (getActiveAnnotations st) st.selectedAnnotationIndex

/-- The selection is none or an index of the active annotation list. -/
def SelectionValid (st : State) : Prop :=
  st.selectedAnnotationIndex = -1 ∨
    (0 ≤ st.selectedAnnotationIndex ∧
      st.selectedAnnotationIndex < ((getActiveAnnotations st).length : ℤ))

/-- The zoom of a pinned zoom lies in `[1, 10]`; other kinds have no zoom. -/
def ZoomInRange : Annotation → Prop
  | .pinned_zoom _ _ _ zoom _ _ => 1 ≤ zoom ∧ zoom ≤ 10
  | _ => True

/-- The `size` property of a pinned zoom. -/
def Annotation.size? : Annotation → Option ℚ
  | .pinned_zoom _ _ size _ _ _ => some size
  | _ => none

/-- The `zoom` property of a pinned zoom. -/
def Annotation.zoom? : Annotation → Option ℚ
  | .pinned_zoom _ _ _ zoom _ _ => some zoom
  | _ => none

/-- A creation gesture carried to its end: the input dialog opened with `callback`
is confirmed with the submitted string. -/
def commitOne (st : State) (c : ModalCallback × String) : State :=
  modalOk (showInputModal st c.1) c.2

/-- The submitted string passes the test of the callback, which then pushes. -/
def Commits : ModalCallback × String → Prop
  | (.zoomText _, _) => True
  | (.textTool _, value) => value ≠ ""
  | (.measureValue _ _ _ _, value) => value ≠ "" ∧ parseFloat value ≠ none
  | (.arrowText _ _ _ _, value) => value ≠ ""

/-- Every annotation of every image satisfies `P`. -/
def AllAnn (P : Annotation → Prop) (st : State) : Prop :=
  ∀ data ∈ st.imagesData, ∀ ann ∈ data.annotations, P ann

/-- A property of annotations that only looks at `zoom`, holds of the kinds
without a zoom and holds of the zoom 3 given at creation. -/
structure ZoomProperty (P : Annotation → Prop) : Prop where
  congr : ∀ a b : Annotation, a.zoom? = b.zoom? → P a → P b
  noZoom : ∀ a : Annotation, a.zoom? = none → P a
  created : ∀ a : Annotation, a.zoom? = some 3 → P a

/-- The events other than a wheel step. -/
def Event.isWheel : Event → Bool
  | .wheel _ => true
  | _ => false

/-- The zoom of the last annotation of the active list, when it is a pinned zoom. -/
def lastZoom (st : State) : Option ℚ :=
  (getActiveAnnotations st).getLast?.bind Annotation.zoom?

/-- The active image can be drawn: `redraw` gets past its early return. -/
def Renderable (st : State) : Prop :=
  ∃ img, getActiveImage st = some img ∧ img.complete = true ∧ img.naturalWidth ≠ 0

/-! ## Sample states -/

/-- A state with one decoded 200 by 100 image shown on a 100 by 50 canvas
(ratio 1/2), holding the given annotations and selection. -/
def sampleState (anns : List Annotation) (sel : ℤ) : State :=
  { imagesData :=
      [{ id := 1, image := { naturalWidth := 200, naturalHeight := 100, complete := true },
         annotations := anns }],
    activeImageIndex := 0, currentTool := .arrow, isDrawing := false,
    startPos := { x := 0, y := 0 }, lastMousePos := { x := 0, y := 0 },
    displayUnit := .cm, selectedAnnotationIndex := sel, isResizing := false,
    currentModalCallback := none, currentConfirmCallback := none,
    canvasWidth := 100, canvasHeight := 50, previewMode := false,
    containerWidth := 100, containerHeight := 100,
    overlayWidth := 100, overlayHeight := 100,
    colorPickerValue := "#ff0000", lineWidthValue := 3 }

/-- The image of `sampleState`. -/
def sampleImage : Image :=
  { naturalWidth := 200, naturalHeight := 100, complete := true }

/-- A pinned zoom whose stored source is the one `redraw` computes. -/
def sampleZoom : Annotation :=
  Annotation.pinned_zoom "z" ⟨40, 60⟩ 90 3 "c" (some ⟨25, 45, 30, 30⟩)

/-- A measure of 5 cm from (0, 0) to (100, 0). -/
def sampleMeasure : Annotation :=
  Annotation.measure ⟨0, 0⟩ ⟨100, 0⟩ "c" 3 5 .cm

/-- The pinned zoom created in the sample session: centre (40, 60), the initial
size 150 and zoom 3, source as computed by `redraw`. -/
def createdZoom : Annotation :=
  Annotation.pinned_zoom "z" ⟨40, 60⟩ 150 3 "#ff0000" (some ⟨15, 35, 50, 50⟩)

/-- A sample session: a 200 by 100 image is loaded into a 100 by 100 container,
a pinned zoom is created with the zoom tool at canvas point (20, 30) and then
selected by a click on its centre. -/
def selectSession : List Event :=
  [.imageLoaded 1 200 100, .toolClick Tool.zoom_annotation, .mousedown ⟨20, 30⟩,
   .modalOk "z", .mousedown ⟨20, 30⟩]

/-- The initial state of the sample session. -/
def sessionStart : State :=
  initState 300 150 100 100 100 100 "#ff0000" 3

/-- The sample state with the measure tool active. -/
def sessionLoaded : State :=
  { sampleState [] (-1) with currentTool := .measure }

/-- The sample state with the zoom tool active. -/
def sessionZoomTool : State :=
  { sampleState [] (-1) with currentTool := Tool.zoom_annotation }

/-- The sample state with the zoom tool active and its text dialog open. -/
def sessionDialog : State :=
  { sessionZoomTool with currentModalCallback := some (.zoomText ⟨40, 60⟩) }

/-- The sample session followed by a click on the delete button of the only row
of the annotation list. -/
def deleteSession : List Event :=
  selectSession ++ [.listDelete 0]

/-- The sample session followed by an undo. -/
def undoSession : List Event :=
  selectSession ++ [.undo]

/-- The sample session followed by a press on the resize handle of the selected
pinned zoom and a pointer move to its centre.  The handle of the displayed circle
(centre (20, 30), radius 37.5) is at about (46.5165, 56.5165); the press is at
(46.51625, 56.51625), well within the hit radius `8 * ratio = 4`. -/
def resizeSession : List Event :=
  selectSession ++ [.mousedown ⟨37213 / 800, 45213 / 800⟩, .mousemove ⟨20, 30⟩]

/-- The state of the sample session while the resize handle is held. -/
def sessionResizing : State :=
  { sampleState [createdZoom] 0 with isResizing := true }

/-- The pinned zoom of the sample session once resized to the pointer at its centre. -/
def collapsedZoom : Annotation :=
  Annotation.pinned_zoom "z" ⟨40, 60⟩ 0 3 "#ff0000" (some ⟨40, 60, 0, 0⟩)

/-- The state of the sample session after the pointer moved to the centre. -/
def sessionCollapsed : State :=
  { sampleState [collapsedZoom] 0 with isResizing := true, lastMousePos := ⟨20, 30⟩ }

/-! ## Selection by mousedown -/

/-- Annotation `i` is a pinned zoom and the display-space distance from `pos` to
its displayed centre `pos * ratio` is below its displayed radius `size / 2 * ratio`. -/
def HitsZoom (M : JsMath) (annotations : List Annotation) (ratio : ℚ) (pos : Point)
    (i : ℕ) : Prop :=
  ∃ (text : String) (annPos : Point) (size zoom : ℚ) (color : String) (source : Option Rect),
    annotations[i]? = some ( Annotation.pinned_zoom text annPos size zoom color source) ∧
      M.sqrt ((pos.x - annPos.x * ratio) * (pos.x - annPos.x * ratio) +
          (pos.y - annPos.y * ratio) * (pos.y - annPos.y * ratio)) < size / 2 * ratio

/-- The `ratio` the `mousedown` handler computes:
`getActiveImage() ? canvas.width / getActiveImage().naturalWidth : 1`. -/
def mousedownRatio (st : State) : ℚ :=
  match getActiveImage st with
  | some activeImage => st.canvasWidth / activeImage.naturalWidth
  | none => 1

/-- The resize-handle check of the `mousedown` handler runs to its end without a
hit: nothing is selected, or the selected annotation is found and is not a pinned
zoom, or it is one and `pos` is not within `8 * ratio` of its handle. -/
def NoHandleHit (M : JsMath) (st : State) (pos : Point) : Prop :=
  st.selectedAnnotationIndex = -1 ∨
    ∃ ann, selectedLookup st = some ann ∧
      ∀ (text : String) (annPos : Point) (size zoom : ℚ) (color : String)
          (source : Option Rect),
        ann = Annotation.pinned_zoom text annPos size zoom color source →
        ¬ M.sqrt
            ((pos.x - (getResizeHandle M annPos size (mousedownRatio st)).x) *
                (pos.x - (getResizeHandle M annPos size (mousedownRatio st)).x) +
              (pos.y - (getResizeHandle M annPos size (mousedownRatio st)).y) *
                (pos.y - (getResizeHandle M annPos size (mousedownRatio st)).y)) <
          8 * mousedownRatio st

/-- The display-space distance of the canvas point `q` from the displayed centre
`pos * ratio` of an annotation, as the pointer handlers compute it. -/
def displayDistance (M : JsMath) (q pos : Point) (ratio : ℚ) : ℚ :=
  M.sqrt ((q.x - pos.x * ratio) * (q.x - pos.x * ratio) +
    (q.y - pos.y * ratio) * (q.y - pos.y * ratio))

/-! ## Upload of a batch of files -/

/-- What becomes of one file handed to `handleImageUpload`: its type is not an
image type and the loop skips it, or its decoding fails and `img.onload` never
runs, or it is decoded and `img.onload` runs with a fresh id. -/
inductive UploadedFile where
  | notImage
  | failed
  | decoded (id naturalWidth naturalHeight : ℚ)
deriving DecidableEq

/-- Source function `handleImageUpload` over the outcomes of its files, the
`onload` callbacks running in the order of the files. -/
def handleImageUpload (st : State) (files : List UploadedFile) : State :=
  files.foldl (fun st file =>
    match file with
    | .decoded id naturalWidth naturalHeight =>
        imageLoaded st id
          { naturalWidth := naturalWidth, naturalHeight := naturalHeight, complete := true }
    | _ => st) st

/-- The id and image of every entry of `imagesData`, in order. -/
def imageEntries (st : State) : List (ℚ × Image) :=
  st.imagesData.map fun data => (data.id, data.image)

/-- The id and image of the files of a batch that are decoded, in order. -/
def decodedEntries (files : List UploadedFile) : List (ℚ × Image) :=
  files.filterMap fun file =>
    match file with
    | .decoded id naturalWidth naturalHeight =>
        some (id, { naturalWidth := naturalWidth, naturalHeight := naturalHeight,
                    complete := true })
    | _ => none

/-- A batch of three files of which the second fails to decode. -/
def sampleBatch : List UploadedFile :=
  [.decoded 1 200 100, .failed, .decoded 3 300 100]

/-! ## Drawing -/

/-- What the drawing code puts on a canvas, one constructor per group of context
calls: a filled rectangle; the whole image drawn into a rectangle; a pinned zoom
(circle filled white and stroked, then the source rect of the image drawn clipped
to it); the resize handle; a stroked line; an arrowhead (`drawArrowhead`); a number
badge (`drawAnnotationNumber`); a text label on its background patch; the rotated
dimension text of a measure on its patch; a plain `fillText`. -/
inductive DrawOp where
  | fillRect (x y width height : ℚ) (fillStyle : String)
  | drawImage (dx dy dWidth dHeight : ℚ)
  | magnifier (centre : Point) (radius : ℚ) (strokeStyle : String) (lineWidth : ℚ)
      (source : Option Rect) (dx dy dWidth dHeight : ℚ)
  | resizeHandle (centre : Point) (radius : ℚ)
  | segment (start endPos : Point) (strokeStyle : String) (lineWidth : ℚ)
  | arrowhead (start endPos : Point) (color : String) (width headlen : ℚ)
  | number (number : ℕ) (pos : Point) (radius fontSize : ℚ) (color : String)
  | label (text : String) (pos : Point) (fontSize padding : ℚ) (color : String)
  | dimension (text : String) (mid : Point) (dx dy : ℚ) (fontSize padding : ℚ)
      (color : String)
  | fillText (text : String) (x y : ℚ) (font fillStyle : String)
deriving DecidableEq

/-- The `color` property every annotation carries. -/
def Annotation.color : Annotation → String
  | .measure _ _ color _ _ _ => color
  | .arrow _ _ color _ _ => color
  | .text _ _ color _ => color
  | .pinned_zoom _ _ _ _ color _ => color

/-! ### Interactive canvas -/

/-- Source function `drawAnnotationNumber`. -/
def drawAnnotationNumber (number : ℕ) (pos : Point) (color : String) (ratio : ℚ) :
    List DrawOp :=
  let radius := 12 * ratio
  let fontSize := 16 * ratio
  [.number number pos radius fontSize color]

/-- Source function `drawAnnotationLabel`. -/
def drawAnnotationLabel (st : State) (ann : Annotation) (index : ℕ) (pos : Point)
    (color : String) (ratio : ℚ) : List DrawOp :=
  let number := index + 1
  let text := getAnnotationText st ann
  let labelFontSize := 48 * ratio
  match ann with
  | .pinned_zoom _ _ size _ _ _ =>
      let radius := (size / 2) * ratio
      let numberPos : Point := { x := pos.x, y := pos.y + (radius + 15 * ratio) }
      let labelPos : Point := { x := pos.x + (radius + 5 * ratio), y := pos.y }
      drawAnnotationNumber number numberPos color ratio ++
        (if text ≠ "" then [.label text labelPos labelFontSize (labelFontSize * (1 / 4)) color]
         else [])
  | .measure _ _ _ _ _ _ => drawAnnotationNumber number pos color ratio
  | _ =>
      let labelPos : Point := { x := pos.x + (12 * ratio + 5 * ratio), y := pos.y }
      drawAnnotationNumber number pos color ratio ++
        (if text ≠ "" then [.label text labelPos labelFontSize (labelFontSize * (1 / 4)) color]
         else [])

/-- Source function `drawArrowhead`. -/
def drawArrowhead (start endPos : Point) (color : String) (width : ℚ) : List DrawOp :=
  let headlen := 10 + width
  [.arrowhead start endPos color width headlen]

/-- Source function `drawDimension`, called on a measure with its scaled end points. -/
def drawDimension (st : State) (start endPos : Point) (ann : Annotation) (ratio : ℚ) :
    List DrawOp :=
  match ann with
  | .measure _ _ color width value originalUnit =>
      let text := toFixed1 (displayValue value originalUnit st.displayUnit) ++ " " ++
        st.displayUnit.str
      let dx := endPos.x - start.x
      let dy := endPos.y - start.y
      let mid : Point := { x := start.x + dx / 2, y := start.y + dy / 2 }
      let fontSize := 48 * ratio
      drawArrowhead endPos start color (width * ratio) ++
        drawArrowhead start endPos color (width * ratio) ++
        [.dimension text mid dx dy fontSize (fontSize * (1 / 4)) color]
  | _ => []

/-- The first half of the `forEach` body of `redraw`: the annotation itself; a
pinned zoom is drawn from the source rect just recomputed for it. -/
def redrawBody (M : JsMath) (st : State) (ratio : ℚ) (ann : Annotation) (index : ℕ) :
    List DrawOp :=
  match ann with
  | .pinned_zoom _ pos size zoom _ _ =>
      let source := (redrawForEach ann).source?
      let canvasPos : Point := { x := pos.x * ratio, y := pos.y * ratio }
      let canvasSize := size * ratio
      let selected := (index : ℤ) = st.selectedAnnotationIndex
      [.magnifier canvasPos (canvasSize / 2) (if selected then "#0ea5e9" else "#3b82f6")
          (if selected then 6 * ratio else 4 * ratio) source
          (canvasPos.x - canvasSize / 2) (canvasPos.y - canvasSize / 2)
          (canvasSize * zoom) (canvasSize * zoom)] ++
        (if selected then [.resizeHandle (getResizeHandle M pos size ratio) (8 * ratio)]
         else [])
  | .measure start endPos color width _ _ =>
      let start : Point := { x := start.x * ratio, y := start.y * ratio }
      let endPos' : Point := { x := endPos.x * ratio, y := endPos.y * ratio }
      let scaledWidth := width * ratio
      [.segment start endPos' color scaledWidth] ++ drawDimension st start endPos' ann ratio
  | .arrow start endPos color width _ =>
      let start : Point := { x := start.x * ratio, y := start.y * ratio }
      let endPos' : Point := { x := endPos.x * ratio, y := endPos.y * ratio }
      let scaledWidth := width * ratio
      [.segment start endPos' color scaledWidth] ++ drawArrowhead start endPos' color scaledWidth
  | .text _ _ _ _ => []

/-- The second half of the `forEach` body of `redraw`: number badge and label. -/
def redrawDecoration (M : JsMath) (st : State) (ratio : ℚ) (ann : Annotation) (index : ℕ) :
    List DrawOp :=
  match ann with
  | .pinned_zoom _ pos _ _ color _ =>
      let canvasPos : Point := { x := pos.x * ratio, y := pos.y * ratio }
      drawAnnotationLabel st ann index canvasPos color ratio
  | .text _ pos color _ =>
      let numberPos : Point := { x := pos.x * ratio, y := pos.y * ratio }
      drawAnnotationLabel st ann index numberPos color ratio
  | .measure start endPos color _ _ _ =>
      let start : Point := { x := start.x * ratio, y := start.y * ratio }
      let endPos' : Point := { x := endPos.x * ratio, y := endPos.y * ratio }
      let dx := endPos'.x - start.x
      let dy := endPos'.y - start.y
      let midX := start.x + dx / 2
      let midY := start.y + dy / 2
      let len := M.sqrt (dx * dx + dy * dy)
      let perpDx := if len > 0 then -dy / len else 0
      let perpDy := if len > 0 then dx / len else 0
      let offset := 30 * ratio
      let numberPos : Point := { x := midX + perpDx * offset, y := midY + perpDy * offset }
      drawAnnotationNumber (index + 1) numberPos color ratio
  | .arrow start _ color _ _ =>
      let numberPos : Point := { x := start.x * ratio, y := start.y * ratio }
      drawAnnotationLabel st ann index numberPos color ratio

/-- Source function `redraw`, as what it draws: nothing past the `clearRect` when
the image is not ready, else the image over the whole canvas and every annotation
in order. -/
def redrawOps (M : JsMath) (st : State) : List DrawOp :=
  match getActiveImage st with
  | none => []
  | some activeImage =>
      if !activeImage.complete || activeImage.naturalWidth = 0 then []
      else
        let ratio := st.canvasWidth / activeImage.naturalWidth
        [DrawOp.drawImage 0 0 st.canvasWidth st.canvasHeight] ++
          ((getActiveAnnotations st).enum.map fun (index, ann) =>
            redrawBody M st ratio ann index ++ redrawDecoration M st ratio ann index).flatten

/-! ### Export canvas -/

/-- Source function `drawAnnotationNumberOnCtx`. -/
def drawAnnotationNumberOnCtx (number : ℕ) (pos : Point) (color : String) : List DrawOp :=
  let radius := 12
  let fontSize := 16
  [.number number pos radius fontSize color]

/-- Source function `drawAnnotationLabelOnCtx`; `ann.text` is `undefined` on a measure. -/
def drawAnnotationLabelOnCtx (number : ℕ) (ann : Annotation) (pos : Point) (color : String) :
    List DrawOp :=
  let labelFontSize := 48
  match ann with
  | .pinned_zoom text _ size _ _ _ =>
      let radius := size / 2
      let numberPos : Point := { x := pos.x, y := pos.y + (radius + 15) }
      let labelPos : Point := { x := pos.x + (radius + 5), y := pos.y }
      drawAnnotationNumberOnCtx number numberPos color ++
        (if text ≠ "" then [.label text labelPos labelFontSize (labelFontSize * (1 / 4)) color]
         else [])
  | .measure _ _ _ _ _ _ => drawAnnotationNumberOnCtx number pos color
  | .arrow _ _ _ _ text =>
      let labelPos : Point := { x := pos.x + (12 + 5), y := pos.y }
      drawAnnotationNumberOnCtx number pos color ++
        (if text ≠ "" then [.label text labelPos labelFontSize (labelFontSize * (1 / 4)) color]
         else [])
  | .text text _ _ _ =>
      let labelPos : Point := { x := pos.x + (12 + 5), y := pos.y }
      drawAnnotationNumberOnCtx number pos color ++
        (if text ≠ "" then [.label text labelPos labelFontSize (labelFontSize * (1 / 4)) color]
         else [])

/-- Source function `drawArrowheadOnCtx`. -/
def drawArrowheadOnCtx (start endPos : Point) (color : String) (width : ℚ) : List DrawOp :=
  let headlen := 10 + width
  [.arrowhead start endPos color width headlen]

/-- Source function `drawDimensionOnCtx`. -/
def drawDimensionOnCtx (st : State) (ann : Annotation) : List DrawOp :=
  match ann with
  | .measure start endPos color width value originalUnit =>
      let text := toFixed1 (displayValue value originalUnit st.displayUnit) ++ " " ++
        st.displayUnit.str
      let dx := endPos.x - start.x
      let dy := endPos.y - start.y
      let mid : Point := { x := start.x + dx / 2, y := start.y + dy / 2 }
      let fontSize := 48
      drawArrowheadOnCtx endPos start color width ++
        drawArrowheadOnCtx start endPos color width ++
        [.dimension text mid dx dy fontSize (fontSize * (1 / 4)) color]
  | _ => []

/-- The first half of the first `forEach` body of `generateProductSheet`. -/
def sheetBody (st : State) (ann : Annotation) : List DrawOp :=
  match ann with
  | .pinned_zoom _ pos size zoom _ source =>
      [.magnifier pos (size / 2) "#3b82f6" 4 source (pos.x - size / 2) (pos.y - size / 2)
        (size * zoom) (size * zoom)]
  | .measure start endPos color width _ _ =>
      [.segment start endPos color width] ++ drawDimensionOnCtx st ann
  | .arrow start endPos color width _ =>
      [.segment start endPos color width] ++ drawArrowheadOnCtx start endPos color width
  | .text _ _ _ _ => []

/-- The second half of the first `forEach` body of `generateProductSheet`:
number badge and label. -/
def sheetDecoration (M : JsMath) (ann : Annotation) (index : ℕ) : List DrawOp :=
  match ann with
  | .text _ pos color _ => drawAnnotationLabelOnCtx (index + 1) ann pos color
  | .pinned_zoom _ pos _ _ color _ => drawAnnotationLabelOnCtx (index + 1) ann pos color
  | .measure start endPos color _ _ _ =>
      let dx := endPos.x - start.x
      let dy := endPos.y - start.y
      let midX := start.x + dx / 2
      let midY := start.y + dy / 2
      let len := M.sqrt (dx * dx + dy * dy)
      let numberPos : Point :=
        if len = 0 then { x := midX, y := midY }
        else
          let perpDx := -dy / len
          let perpDy := dx / len
          let offset := 30
          { x := midX + perpDx * offset, y := midY + perpDy * offset }
      drawAnnotationNumberOnCtx (index + 1) numberPos color
  | .arrow start _ color _ _ => drawAnnotationLabelOnCtx (index + 1) ann start color

/-- Source function `wrapText`: the lines it draws and the `y` it returns.  The
context is given by its current `font` and `fillStyle` and by `measureText`, the
width it measures for a string in that font. -/
def wrapText (measureText : String → ℚ) (font fillStyle : String) (text : String)
    (x y maxWidth lineHeight : ℚ) : List DrawOp × ℚ :=
  let words := text.splitOn " "
  let final := words.foldl
    (fun (acc : String × ℚ × List DrawOp × ℕ) word =>
      let line := acc.1
      let y := acc.2.1
      let testLine := line ++ word ++ " "
      if measureText testLine > maxWidth ∧ acc.2.2.2 > 0 then
        (word ++ " ", y + lineHeight,
          acc.2.2.1 ++ [DrawOp.fillText line x y font fillStyle], acc.2.2.2 + 1)
      else (testLine, y, acc.2.2.1, acc.2.2.2 + 1))
    ("", y, [], 0)
  (final.2.2.1 ++ [DrawOp.fillText final.1 x final.2.1 font fillStyle],
    final.2.1 + lineHeight)

/-- The second `forEach` of `generateProductSheet`, from row `index` on with the
running `currentY`: the rows of the list panel. -/
def sheetRows (measureText : String → ℚ) (st : State) (naturalWidth listWidth padding : ℚ) :
    List Annotation → ℕ → ℚ → List DrawOp
  | [], _, _ => []
  | ann :: rest, index, currentY =>
      let text := getAnnotationText st ann
      let numberText := toString (index + 1) ++ "."
      let wrapped := wrapText measureText "18px sans-serif" "#374151" text
        (naturalWidth + padding + 40) currentY (listWidth - padding * 2 - 50) 24
      [DrawOp.fillText numberText (naturalWidth + padding) currentY "bold 18px sans-serif"
          (if ann.color ≠ "" then ann.color else "#1f2937")] ++
        wrapped.1 ++
        sheetRows measureText st naturalWidth listWidth padding rest (index + 1)
          (wrapped.2 + 20)

/-- The canvas `generateProductSheet` hands to its callback: its size and what
was drawn on it. -/
structure Sheet where
  width : ℚ
  height : ℚ
  ops : List DrawOp
deriving DecidableEq

/-- Source function `generateProductSheet`; `none` when there is no active image
and only a notice is shown. -/
def generateProductSheet (M : JsMath) (measureText : String → ℚ) (st : State)
    (isExport : Bool) : Option Sheet :=
  match getActiveImage st with
  | none => none
  | some activeImage =>
      let annotations := getActiveAnnotations st
      let listWidth : ℚ := if isExport then 400 else 0
      let padding : ℚ := 20
      let width := activeImage.naturalWidth + listWidth
      let height := activeImage.naturalHeight
      some
        { width := width
          height := height
          ops :=
            [DrawOp.fillRect 0 0 width height "#FFFFFF",
             DrawOp.drawImage 0 0 activeImage.naturalWidth activeImage.naturalHeight] ++
            (annotations.enum.map fun (index, ann) =>
              sheetBody st ann ++ sheetDecoration M ann index).flatten ++
            (if isExport then
              [DrawOp.fillRect activeImage.naturalWidth 0 listWidth height "#FFFFFF",
               DrawOp.segment ⟨activeImage.naturalWidth, 0⟩ ⟨activeImage.naturalWidth, height⟩
                 "#e5e7eb" 1,
               DrawOp.fillText "註釋列表" (activeImage.naturalWidth + padding) (padding + 24)
                 "bold 24px sans-serif" "#1f2937"] ++
                sheetRows measureText st activeImage.naturalWidth listWidth padding
                  annotations 0 (padding + 70)
             else []) }

/-! ## Kinds of annotations and creation gestures -/

/-- The `type` property of an annotation object. -/
def Annotation.type : Annotation → String
  | .measure _ _ _ _ _ _ => "measure"
  | .arrow _ _ _ _ _ => "arrow"
  | .text _ _ _ _ => "text"
  | .pinned_zoom _ _ _ _ _ _ => "pinned_zoom"

/-- The `type` of the object the callback of a creation gesture pushes. -/
def ModalCallback.creates : ModalCallback → String
  | .zoomText _ => "pinned_zoom"
  | .textTool _ => "text"
  | .measureValue _ _ _ _ => "measure"
  | .arrowText _ _ _ _ => "arrow"

/-- The start of the sample session, up to the open text dialog of the zoom tool. -/
def dialogSession : List Event :=
  [.imageLoaded 1 200 100, .toolClick Tool.zoom_annotation, .mousedown ⟨20, 30⟩]

/-- The sample state with the text dialog of the arrow tool open. -/
def sessionArrowDialog : State :=
  { sampleState [sampleZoom, sampleMeasure] (-1) with
    currentModalCallback := some (.arrowText ⟨0, 0⟩ ⟨10, 0⟩ "c" 3) }

/-! ## Sample sessions with an image switch and with a tool switch -/

/-- The sample session followed by the load of a second 200 by 100 image, which
becomes the active one. -/
def switchSession : List Event :=
  selectSession ++ [.imageLoaded 2 200 100]

/-- The state `switchSession` ends in: two images, the second one active and
without annotations, the selection still on index 0. -/
def sessionSwitched : State :=
  { sampleState [createdZoom] 0 with
    imagesData := [{ id := 1, image := sampleImage, annotations := [createdZoom] },
      { id := 2, image := sampleImage, annotations := [] }],
    activeImageIndex := 1 }

/-- The start of a drag with the measure tool: an image is loaded and the button
is pressed at canvas point (20, 30), away from every annotation. -/
def dragSession : List Event :=
  [.imageLoaded 1 200 100, .mousedown ⟨20, 30⟩]

/-- The state `dragSession` ends in: a drawing gesture started at image point
(40, 60). -/
def sessionDrawing : State :=
  { sessionLoaded with isDrawing := true, startPos := ⟨40, 60⟩ }

/-! ## The canvas of `script.js` -/

/-- An annotation object of `script.js`, one constructor for each `type` that
`startNewAnnotation` creates; `endPos` is the property `end`. -/
inductive ScriptAnn where
  | measure (id : ℚ) (color : String) (lineWidth : ℚ) (start endPos : Point)
  | arrow (id : ℚ) (color : String) (lineWidth : ℚ) (start endPos : Point)
  | text (id : ℚ) (color : String) (lineWidth : ℚ) (x y : ℚ) (text : String)
  | zoom_annotation (id : ℚ) (color : String) (lineWidth : ℚ)
      (x y radius zoomX zoomY zoomRadius : ℚ)
  deriving DecidableEq

/-- The fields of a `CanvasManager` that the pointer handlers read: the list behind
the getter `annotations` and the pan and zoom state. -/
structure CanvasManager where
  annotations : List ScriptAnn
  zoomLevel : ℚ
  panX : ℚ
  panY : ℚ
  deriving DecidableEq

/-- The result of `canvas.getBoundingClientRect()`, as far as it is read. -/
structure ClientRect where
  left : ℚ
  top : ℚ
  deriving DecidableEq

/-- A mouse event, as far as it is read. -/
structure MouseEvent where
  clientX : ℚ
  clientY : ℚ
  deriving DecidableEq

/-- The coordinates `getCanvasCoords` returns; `none` stands for NaN. -/
structure Coords where
  x : Option ℚ
  y : Option ℚ
  deriving DecidableEq

/-- The expression `e.clientX || (e.touches && e.touches[0].clientX)` on a mouse
event, which has no `touches`: the coordinate when it is not 0, and `undefined`
(NaN in the arithmetic that follows) when it is 0. -/
def clientCoord (c : ℚ) : Option ℚ :=
  if c = 0 then none else some c

/-- Source method `CanvasManager.getCanvasCoords`, for `zoomLevel ≠ 0`. -/
def getCanvasCoords (cm : CanvasManager) (rect : ClientRect) (e : MouseEvent) : Coords :=
  let relativeX := (clientCoord e.clientX).map (fun clientX => clientX - rect.left)
  let relativeY := (clientCoord e.clientY).map (fun clientY => clientY - rect.top)
  { x := relativeX.map (fun r => (r - cm.panX) / cm.zoomLevel),
    y := relativeY.map (fun r => (r - cm.panY) / cm.zoomLevel) }

/-- Source method `CanvasManager.isPointNear`. -/
def isPointNear (M : JsMath) (x y cx cy tolerance : ℚ) : Bool :=
  decide (M.sqrt ((x - cx) ^ 2 + (y - cy) ^ 2) < tolerance)

/-- The test of one annotation in the loop of `getAnnotationAt`, for
`zoomLevel ≠ 0`. -/
def annotationHit (M : JsMath) (zoomLevel x y : ℚ) : ScriptAnn → Bool
  | .measure _ _ _ start endPos =>
      let tolerance := 10 / zoomLevel
      isPointNear M x y start.x start.y tolerance || isPointNear M x y endPos.x endPos.y tolerance
  | .arrow _ _ _ start endPos =>
      let tolerance := 10 / zoomLevel
      isPointNear M x y start.x start.y tolerance || isPointNear M x y endPos.x endPos.y tolerance
  | .text _ _ _ ax ay _ => isPointNear M x y ax ay (15 / zoomLevel)
  | ScriptAnn.zoom_annotation _ _ _ ax ay radius zoomX zoomY zoomRadius =>
      isPointNear M x y ax ay (radius / zoomLevel) ||
        isPointNear M x y zoomX zoomY (zoomRadius / zoomLevel)

/-- Source method `CanvasManager.getAnnotationAt` on a point with number
coordinates: the loop runs from the last annotation to the first and returns the
first one that passes the test; `none` is `null`. -/
def getAnnotationAt (M : JsMath) (cm : CanvasManager) (x y : ℚ) : Option ScriptAnn :=
  cm.annotations.reverse.find? (annotationHit M cm.zoomLevel x y)

/-- The `start` and `end` of a measure or an arrow. -/
def ScriptAnn.endpoints? : ScriptAnn → Option (Point × Point)
  | .measure _ _ _ start endPos => some (start, endPos)
  | .arrow _ _ _ start endPos => some (start, endPos)
  | _ => none

/-- The distance `Math.sqrt((x - p.x)^2 + (y - p.y)^2)` of `isPointNear`. -/
def pointDistance (M : JsMath) (x y : ℚ) (p : Point) : ℚ :=
  M.sqrt ((x - p.x) ^ 2 + (y - p.y) ^ 2)

/-- A measure from (0, 5) to (100, 5). -/
def scriptMeasure : ScriptAnn :=
  .measure 1 "#FF0000" 3 ⟨0, 5⟩ ⟨100, 5⟩

/-- A canvas holding `scriptMeasure` at the given zoom level, not panned. -/
def sampleCanvas (zoomLevel : ℚ) : CanvasManager :=
  { annotations := [scriptMeasure], zoomLevel := zoomLevel, panX := 0, panY := 0 }

/-! ## Target container of `resizeCanvas` -/

/-- The `clientWidth` of the container `resizeCanvas` fits the canvas into. -/
def targetWidth (st : State) : ℚ :=
  if st.previewMode then st.overlayWidth else st.containerWidth

/-- The `clientHeight` of the container `resizeCanvas` fits the canvas into. -/
def targetHeight (st : State) : ℚ :=
  if st.previewMode then st.overlayHeight else st.containerHeight

/-- The sample state with a second 200 by 100 image, the first image active. -/
def sessionTwoImages : State :=
  { sampleState [createdZoom] 0 with
    imagesData := [{ id := 1, image := sampleImage, annotations := [createdZoom] },
      { id := 2, image := sampleImage, annotations := [] }] }

/-! ## Lines of `wrapText` -/

/-- The words of a line, each followed by one space: the string the loop of
`wrapText` builds from them. -/
def lineOf (block : List String) : String :=
  block.foldl (fun line word => line ++ word ++ " ") ""

/-- The strings of a list joined in order. -/
def concatLines (lines : List String) : String :=
  lines.foldl (fun acc line => acc ++ line) ""

/-- The `fillText` calls that draw the given lines from `y` on, `lineHeight` apart. -/
def lineOps (font fillStyle : String) (x y lineHeight : ℚ) (blocks : List (List String)) :
    List DrawOp :=
  blocks.enum.map fun (i, block) =>
    DrawOp.fillText (lineOf block) x (y + lineHeight * i) font fillStyle

/-- The body of the loop of `wrapText` on the variables `line`, `y`, the calls
made so far and the loop counter `n`. -/
def wrapStep (measureText : String → ℚ) (font fillStyle : String) (x maxWidth lineHeight : ℚ)
    (acc : String × ℚ × List DrawOp × ℕ) (word : String) : String × ℚ × List DrawOp × ℕ :=
  let line := acc.1
  let y := acc.2.1
  let testLine := line ++ word ++ " "
  if measureText testLine > maxWidth ∧ acc.2.2.2 > 0 then
    (word ++ " ", y + lineHeight,
      acc.2.2.1 ++ [DrawOp.fillText line x y font fillStyle], acc.2.2.2 + 1)
  else (testLine, y, acc.2.2.1, acc.2.2.2 + 1)

/-- The state of the loop of `wrapText` after the words of the finished lines
`done` and of the current line `cur`. -/
structure WrapInv (measureText : String → ℚ) (font fillStyle : String)
    (x y maxWidth lineHeight : ℚ) (done : List (List String)) (cur : List String)
    (acc : String × ℚ × List DrawOp × ℕ) : Prop where
  line : acc.1 = lineOf cur
  pos : acc.2.1 = y + lineHeight * done.length
  ops : acc.2.2.1 = lineOps font fillStyle x y lineHeight done
  count : acc.2.2.2 = (done.flatten ++ cur).length
  fits : ∀ block ∈ done, 2 ≤ block.length → measureText (lineOf block) ≤ maxWidth
  fitsCur : 2 ≤ cur.length → measureText (lineOf cur) ≤ maxWidth

/-- The sample state holding the sample measure (5 cm), displayed in millimetres. -/
def sessionMm : State :=
  { sampleState [sampleMeasure] (-1) with displayUnit := .mm }

/-- A measure of -0.04 cm from (0, 0) to (100, 0). -/
def tinyMeasure : Annotation :=
  Annotation.measure ⟨0, 0⟩ ⟨100, 0⟩ "c" 3 (-(1 / 25)) .cm

/-- The state `sessionMm` with the value of its measure replaced by 50. -/
def sessionMmCommitted : State :=
  { sampleState [ Annotation.measure ⟨0, 0⟩ ⟨100, 0⟩ "c" 3 50 .cm] (-1) with
    displayUnit := .mm }

/-- An arrow of width 3 from (0, 0) to (100, 0). -/
def sampleArrow : Annotation :=
  Annotation.arrow ⟨0, 0⟩ ⟨100, 0⟩ "c" 3 "a"

/-! ## Stored source rects and the export of all images -/

/-- The rect `redraw` computes for a pinned zoom: the square of side `size / zoom`
centred at `pos`. -/
def sourceOf (pos : Point) (size zoom : ℚ) : Rect :=
  { x := pos.x - size / zoom / 2, y := pos.y - size / zoom / 2,
    width := size / zoom, height := size / zoom }

/-- The stored `source` of a pinned zoom is the rect computed from its `pos`, `size`
and `zoom`; the other kinds have no `source`. -/
def InSync : Annotation → Prop
  | .pinned_zoom _ pos size zoom _ source => source = some (sourceOf pos size zoom)
  | _ => True

/-- The image passes the test of `redraw`: it is complete and its natural width is
not 0. -/
def Drawable (img : Image) : Prop :=
  img.complete = true ∧ img.naturalWidth ≠ 0

/-- Every annotation of every image that `redraw` draws has its source in sync. -/
def Synced (st : State) : Prop :=
  ∀ data ∈ st.imagesData, Drawable data.image → ∀ ann ∈ data.annotations, InSync ann

/-- Source function `exportAllToPdf`, as the sheets it puts on the pages: for each
index in turn `activeImageIndex` is set to it and `generateProductSheet(true, …)` is
called; `none` when there is no image and only a notice is shown.  The index is
restored afterwards. -/
def exportAllToPdf (M : JsMath) (measureText : String → ℚ) (st : State) :
    Option (List (Option Sheet)) :=
  if st.imagesData.length = 0 then none
  else
    some ((List.range st.imagesData.length).map fun (i : ℕ) =>
      generateProductSheet M measureText { st with activeImageIndex := (i : ℤ) } true)

/-! ## Wheel zoom and the circles of a zoom annotation in `script.js` -/

/-- A wheel event, as far as it is read. -/
structure WheelEvent extends MouseEvent where
  deltaY : ℚ
  deriving DecidableEq

/-- Source method `CanvasManager.handleWheel`, for `zoomLevel ≠ 0`; the factor
`1.1` and the bound `0.1` are taken as exact. -/
def handleWheel (cm : CanvasManager) (rect : ClientRect) (e : WheelEvent) : CanvasManager :=
  let scaleFactor : ℚ := 11 / 10
  let oldZoom := cm.zoomLevel
  let zoomLevel := if e.deltaY < 0 then cm.zoomLevel * scaleFactor else cm.zoomLevel / scaleFactor
  let zoomLevel := max (1 / 10) zoomLevel
  let mouseX := e.clientX - rect.left
  let mouseY := e.clientY - rect.top
  let deltaRatio := 1 / oldZoom - 1 / zoomLevel
  { cm with zoomLevel := zoomLevel, panX := cm.panX + mouseX * deltaRatio,
            panY := cm.panY + mouseY * deltaRatio }

/-- The two circles `drawZoomAnnotation` strokes for a zoom annotation, as centre
and radius in image coordinates (the context is scaled by `zoomLevel` when they are
drawn); the other kinds are not drawn by it. -/
def zoomCircles : ScriptAnn → List (Point × ℚ)
  | ScriptAnn.zoom_annotation _ _ _ x y radius zoomX zoomY zoomRadius =>
      [(⟨x, y⟩, radius), (⟨zoomX, zoomY⟩, zoomRadius)]
  | _ => []

/-- The point lies strictly inside one of the circles drawn for the annotation. -/
def InsideCircles (M : JsMath) (x y : ℚ) (ann : ScriptAnn) : Prop :=
  ∃ c ∈ zoomCircles ann, pointDistance M x y c.1 < c.2

/-- A zoom annotation at (100, 100) with the initial radii and offset. -/
def scriptZoom : ScriptAnn :=
  ScriptAnn.zoom_annotation 2 "#FF0000" 3 100 100 50 200 200 40

/-- A canvas holding `scriptZoom` at the given zoom level, not panned. -/
def zoomCanvas (zoomLevel : ℚ) : CanvasManager :=
  { annotations := [scriptZoom], zoomLevel := zoomLevel, panX := 0, panY := 0 }

/-! ## Dragging a selected annotation in `script.js` -/

/-- The loop of `getAnnotationAt` from index `n - 1` down to 0, as the index of
the annotation it returns. -/
def annotationIndexLoop (M : JsMath) (annotations : List ScriptAnn) (zoomLevel x y : ℚ) :
    ℕ → Option ℕ
  | 0 => none
  | n + 1 =>
      match annotations[n]? with
      | some ann =>
          if annotationHit M zoomLevel x y ann = true then some n
          else annotationIndexLoop M annotations zoomLevel x y n
      | none => annotationIndexLoop M annotations zoomLevel x y n

/-- The index in the list of the object `getAnnotationAt` returns. -/
def getAnnotationIndexAt (M : JsMath) (cm : CanvasManager) (x y : ℚ) : Option ℕ :=
  annotationIndexLoop M cm.annotations cm.zoomLevel x y cm.annotations.length

/-- The fields of `state` and of the canvas manager that a drag with the select
tool uses.  The reference `state.selectedAnnotation` to an object of the list is
kept as the index of that object. -/
structure ScriptState where
  manager : CanvasManager
  currentTool : String
  selectedAnnotation : Option ℕ
  isDragging : Bool
  dragStart : Point
  dragOffset : Point
  drawing : Bool
  deriving DecidableEq

/-- Source method `CanvasManager.handleMouseDown` after
`const { x, y } = this.getCanvasCoords(e)`, for number coordinates and the tool
`select-tool`.  With another tool the handler starts a new annotation; that branch
is outside this model (`none`). -/
def handleMouseDown (M : JsMath) (s : ScriptState) (e : MouseEvent) (x y : ℚ) :
    Option ScriptState :=
  if s.currentTool = "select-tool" then
    match getAnnotationIndexAt M s.manager x y with
    | some clickedAnnotation =>
        some { s with drawing := false, selectedAnnotation := some clickedAnnotation,
                      isDragging := true, dragStart := ⟨x, y⟩ }
    | none =>
        some { s with drawing := false, selectedAnnotation := none, isDragging := true,
                      dragStart := ⟨e.clientX, e.clientY⟩,
                      dragOffset := ⟨s.manager.panX, s.manager.panY⟩ }
  else none

/-- The assignments of `moveSelectedAnnotation` to the selected annotation, by its
`type`. -/
def ScriptAnn.moveBy (dx dy : ℚ) : ScriptAnn → ScriptAnn
  | .measure id color lineWidth start endPos =>
      .measure id color lineWidth ⟨start.x + dx, start.y + dy⟩ ⟨endPos.x + dx, endPos.y + dy⟩
  | .arrow id color lineWidth start endPos =>
      .arrow id color lineWidth ⟨start.x + dx, start.y + dy⟩ ⟨endPos.x + dx, endPos.y + dy⟩
  | .text id color lineWidth x y content =>
      .text id color lineWidth (x + dx) (y + dy) content
  | ScriptAnn.zoom_annotation id color lineWidth x y radius zoomX zoomY zoomRadius =>
      ScriptAnn.zoom_annotation id color lineWidth (x + dx) (y + dy) radius (zoomX + dx)
        (zoomY + dy) zoomRadius

/-- Source method `CanvasManager.moveSelectedAnnotation`.  A selected object that
is no longer in the list is moved without any effect on the list. -/
def moveSelectedAnnotation (s : ScriptState) (x y : ℚ) : ScriptState :=
  match s.selectedAnnotation with
  | none => s
  | some index =>
      if s.isDragging = false then s
      else
        let dx := x - s.dragStart.x
        let dy := y - s.dragStart.y
        match s.manager.annotations[index]? with
        | some ann =>
            { s with
              manager := { s.manager with
                annotations := s.manager.annotations.set index (ScriptAnn.moveBy dx dy ann) },
              dragStart := ⟨x, y⟩ }
        | none => { s with dragStart := ⟨x, y⟩ }

/-- A drag through the given image points, one call of `moveSelectedAnnotation`
for each. -/
def dragThrough (s : ScriptState) (points : List Point) : ScriptState :=
  points.foldl (fun s p => moveSelectedAnnotation s p.x p.y) s

/-- A state of the select tool over the canvas holding `scriptMeasure`. -/
def sampleScriptState : ScriptState :=
  { manager := sampleCanvas 1, currentTool := "select-tool", selectedAnnotation := none,
    isDragging := false, dragStart := ⟨0, 0⟩, dragOffset := ⟨0, 0⟩, drawing := false }

/-! ## Upload of a batch of files in `script.js` -/

/-- An entry of `state.images`, as far as it is read: its `id`, the size of its
`img` and its annotations. -/
structure ScriptImage where
  id : ℚ
  width : ℚ
  height : ℚ
  annotations : List ScriptAnn
  deriving DecidableEq

/-- The fields of `state`, of the canvas and of the canvas manager that an upload
writes. -/
structure UploadState where
  images : List ScriptImage
  currentImageIndex : ℤ
  canvasWidth : ℚ
  canvasHeight : ℚ
  zoomLevel : ℚ
  panX : ℚ
  panY : ℚ
  deriving DecidableEq

/-- How a callback of an upload ends: it returns, or a property read on
`undefined` throws a TypeError; either way the state reached so far stays. -/
inductive UploadOutcome where
  | done (s : UploadState)
  | typeError (s : UploadState)
  deriving DecidableEq

/-- The method `Array.prototype.findIndex`: the first index whose element passes
the test, else `-1`. -/
def findIndex {α : Type} (arr : List α) (p : α → Bool) : ℤ :=
  match arr.findIdx? p with
  | some i => (i : ℤ)
  | none => -1

/-- Source method `CanvasManager.setCanvasImage`; `none` is the argument
`undefined`, on which the callback of `findIndex` throws at `imageObj.id` when the
array has an element, and the read of `imageObj.img` throws otherwise. -/
def setCanvasImage (s : UploadState) : Option ScriptImage → UploadOutcome
  | none =>
      if s.images = [] then .typeError { s with currentImageIndex := -1 } else .typeError s
  | some imageObj =>
      .done { s with
        currentImageIndex := findIndex s.images (fun img => decide (img.id = imageObj.id)),
        canvasWidth := imageObj.width, canvasHeight := imageObj.height,
        zoomLevel := 1, panX := 0, panY := 0 }

/-- Source function `handleFiles` over the outcomes of its files, the callbacks of
the image files running in the order of the files: a file that loads is pushed, and
every image file, loaded or failed, calls `checkCompletion`, whose body runs at the
last one. -/
def handleFiles (s : UploadState) (files : List UploadedFile) : UploadOutcome :=
  let imageFiles := files.filter (fun file => decide (file ≠ .notImage))
  let totalFilesToLoad := imageFiles.length
  if totalFilesToLoad = 0 then .done s
  else
    let s := imageFiles.foldl (fun s file =>
      match file with
      | .decoded id width height =>
          { s with images := s.images ++ [{ id := id, width := width, height := height,
                                            annotations := [] }] }
      | _ => s) s
    if s.images.length > 0 then
      setCanvasImage s (jsIndex s.images ((s.images.length : ℤ) - (totalFilesToLoad : ℤ)))
    else .done s

/-- The state of `script.js` before any upload. -/
def uploadStart : UploadState :=
  { images := [], currentImageIndex := -1, canvasWidth := 300, canvasHeight := 150,
    zoomLevel := 1, panX := 0, panY := 0 }

/-- A state with one image, of id 1, shown. -/
def uploadOne : UploadState :=
  { images := [{ id := 1, width := 200, height := 100, annotations := [] }],
    currentImageIndex := 0, canvasWidth := 200, canvasHeight := 100,
    zoomLevel := 1, panX := 0, panY := 0 }

/-! ## Basic facts about the active annotation list and `redraw` -/

theorem getActiveImageData_eq_some {st : State} {data : ImageData}
    (h : getActiveImageData st = some data) :
    0 ≤ st.activeImageIndex ∧ st.imagesData[st.activeImageIndex.toNat]? = some data := by
  unfold getActiveImageData jsIndex at h
  split_ifs at h with h1 h2
  exact ⟨by omega, h⟩

theorem getActiveImageData_of_getElem? {st : State} {data : ImageData}
    (h0 : 0 ≤ st.activeImageIndex)
    (h : st.imagesData[st.activeImageIndex.toNat]? = some data) :
    getActiveImageData st = some data := by
  unfold getActiveImageData jsIndex
  rw [if_pos (by omega), if_neg (by omega)]
  exact h

theorem setActiveAnnotations_of_some {st : State} {data : ImageData}
    (h : getActiveImageData st = some data) (anns : List Annotation) :
    setActiveAnnotations st anns =
      { st with imagesData :=
          st.imagesData.set st.activeImageIndex.toNat { data with annotations := anns } } := by
  simp [setActiveAnnotations, h]

theorem setActiveAnnotations_of_none {st : State} (h : getActiveImageData st = none)
    (anns : List Annotation) : setActiveAnnotations st anns = st := by
  simp [setActiveAnnotations, h]

theorem getActiveImageData_setActiveAnnotations (st : State) (anns : List Annotation) :
    getActiveImageData (setActiveAnnotations st anns) =
      (getActiveImageData st).map fun data => { data with annotations := anns } := by
  cases hd : getActiveImageData st with
  | none => simp [setActiveAnnotations_of_none hd, hd]
  | some data =>
      obtain ⟨h0, hget⟩ := getActiveImageData_eq_some hd
      have hlt : st.activeImageIndex.toNat < st.imagesData.length := by
        by_contra hcon
        rw [List.getElem?_eq_none (by omega)] at hget
        cases hget
      rw [setActiveAnnotations_of_some hd]
      rw [Option.map_some']
      apply getActiveImageData_of_getElem?
      · exact h0
      · simp only [List.getElem?_set, if_pos hlt, if_true]

theorem getActiveAnnotations_setActiveAnnotations (st : State) (anns : List Annotation) :
    getActiveAnnotations (setActiveAnnotations st anns) =
      if getActiveImageData st = none then [] else anns := by
  unfold getActiveAnnotations
  rw [getActiveImageData_setActiveAnnotations]
  cases getActiveImageData st <;> simp

theorem getActiveImage_setActiveAnnotations (st : State) (anns : List Annotation) :
    getActiveImage (setActiveAnnotations st anns) = getActiveImage st := by
  unfold getActiveImage
  rw [getActiveImageData_setActiveAnnotations]
  cases getActiveImageData st <;> simp

theorem getActiveImageData_ne_none_of_image {st : State} {img : Image}
    (h : getActiveImage st = some img) : getActiveImageData st ≠ none := by
  intro hn
  simp [getActiveImage, hn] at h

theorem setActiveAnnotations_self (st : State) :
    setActiveAnnotations st (getActiveAnnotations st) = st := by
  cases hd : getActiveImageData st with
  | none => exact setActiveAnnotations_of_none hd _
  | some data =>
      obtain ⟨h0, hget⟩ := getActiveImageData_eq_some hd
      rw [setActiveAnnotations_of_some hd]
      have hanns : getActiveAnnotations st = data.annotations := by
        simp [getActiveAnnotations, hd]
      have : st.imagesData.set st.activeImageIndex.toNat
          { data with annotations := getActiveAnnotations st } = st.imagesData := by
        rw [hanns]
        apply List.ext_getElem?
        intro j
        rw [List.getElem?_set]
        split_ifs with h1 h2
        · subst h1; exact hget.symm
        · subst h1; rw [List.getElem?_eq_none (by omega)]
        · rfl
      rw [this]

theorem setActiveAnnotations_twice (st : State) (a b : List Annotation) :
    setActiveAnnotations (setActiveAnnotations st a) b = setActiveAnnotations st b := by
  cases hd : getActiveImageData st with
  | none => rw [setActiveAnnotations_of_none hd, setActiveAnnotations_of_none hd]
  | some data =>
      have h2 := getActiveImageData_setActiveAnnotations st a
      rw [hd] at h2
      simp only [Option.map_some'] at h2
      rw [setActiveAnnotations_of_some h2, setActiveAnnotations_of_some hd,
        setActiveAnnotations_of_some hd]
      simp only [List.set_set]

theorem redraw_of_renderable {st : State} (h : Renderable st) :
    redraw st = setActiveAnnotations st ((getActiveAnnotations st).map redrawForEach) := by
  obtain ⟨img, hi, hc, hw⟩ := h
  simp [redraw, hi, hc, hw]

theorem redraw_of_not_renderable {st : State} (h : ¬ Renderable st) : redraw st = st := by
  unfold redraw
  cases hi : getActiveImage st with
  | none => rfl
  | some img =>
      simp only
      split_ifs with hc
      · rfl
      · exfalso
        apply h
        refine ⟨img, hi, ?_, ?_⟩
        · by_contra hcc
          simp [hcc] at hc
        · intro hw
          simp [hw] at hc

theorem renderable_setActiveAnnotations (st : State) (anns : List Annotation) :
    Renderable (setActiveAnnotations st anns) ↔ Renderable st := by
  unfold Renderable
  rw [getActiveImage_setActiveAnnotations]

theorem getActiveAnnotations_redraw_of_renderable {st : State} (h : Renderable st) :
    getActiveAnnotations (redraw st) = (getActiveAnnotations st).map redrawForEach := by
  rw [redraw_of_renderable h, getActiveAnnotations_setActiveAnnotations]
  obtain ⟨img, hi, _, _⟩ := h
  simp [getActiveImageData_ne_none_of_image hi]

theorem redrawForEach_idem (ann : Annotation) :
    redrawForEach (redrawForEach ann) = redrawForEach ann := by
  cases ann <;> rfl

theorem redraw_redraw (st : State) : redraw (redraw st) = redraw st := by
  by_cases h : Renderable st
  · have h2 : Renderable (redraw st) := by
      rw [redraw_of_renderable h]
      exact (renderable_setActiveAnnotations _ _).mpr h
    rw [redraw_of_renderable h2, getActiveAnnotations_redraw_of_renderable h,
      redraw_of_renderable h, setActiveAnnotations_twice, List.map_map]
    congr 1
    apply List.map_congr_left
    intro a _
    exact redrawForEach_idem a
  · rw [redraw_of_not_renderable h, redraw_of_not_renderable h]

/-! ## Fields that `redraw` and `setActiveAnnotations` leave alone -/

theorem setActiveAnnotations_fields (st : State) (anns : List Annotation) :
    ∃ l, setActiveAnnotations st anns = { st with imagesData := l } := by
  cases hd : getActiveImageData st with
  | none => exact ⟨st.imagesData, by rw [setActiveAnnotations_of_none hd]⟩
  | some data => exact ⟨_, setActiveAnnotations_of_some hd anns⟩

theorem redraw_fields (st : State) : ∃ l, redraw st = { st with imagesData := l } := by
  by_cases h : Renderable st
  · rw [redraw_of_renderable h]
    exact setActiveAnnotations_fields _ _
  · exact ⟨st.imagesData, by rw [redraw_of_not_renderable h]⟩

theorem redraw_displayUnit (st : State) : (redraw st).displayUnit = st.displayUnit := by
  obtain ⟨l, hl⟩ := redraw_fields st
  rw [hl]

theorem redraw_selectedAnnotationIndex (st : State) :
    (redraw st).selectedAnnotationIndex = st.selectedAnnotationIndex := by
  obtain ⟨l, hl⟩ := redraw_fields st
  rw [hl]

theorem redraw_activeImageIndex (st : State) :
    (redraw st).activeImageIndex = st.activeImageIndex := by
  obtain ⟨l, hl⟩ := redraw_fields st
  rw [hl]

theorem getActiveAnnotations_redraw_cases (st : State) :
    getActiveAnnotations (redraw st) = getActiveAnnotations st ∨
      getActiveAnnotations (redraw st) = (getActiveAnnotations st).map redrawForEach := by
  by_cases h : Renderable st
  · exact Or.inr (getActiveAnnotations_redraw_of_renderable h)
  · rw [redraw_of_not_renderable h]
    exact Or.inl rfl

theorem getElem?_redraw_of_fixed (st : State) (i : ℕ) (ann : Annotation)
    (hfix : redrawForEach ann = ann) (hget : (getActiveAnnotations st)[i]? = some ann) :
    (getActiveAnnotations (redraw st))[i]? = some ann := by
  rcases getActiveAnnotations_redraw_cases st with h | h
  · rw [h, hget]
  · rw [h, List.getElem?_map, hget, Option.map_some', hfix]

theorem toFixed1_fifty : toFixed1 50 = "50.0" := by
  simp [toFixed1]
  norm_num
  decide


theorem getActiveImage_sampleState (anns : List Annotation) (sel : ℤ) :
    getActiveImage (sampleState anns sel) = some sampleImage := rfl

theorem getActiveAnnotations_sampleState (anns : List Annotation) (sel : ℤ) :
    getActiveAnnotations (sampleState anns sel) = anns := rfl

theorem renderable_sampleState (anns : List Annotation) (sel : ℤ) :
    Renderable (sampleState anns sel) :=
  ⟨sampleImage, rfl, rfl, by norm_num [sampleImage]⟩

/-! ## Coordinate transformation (C1) -/

/-- C1: with an active image and a positive ratio `canvas.width / naturalWidth`,
`getOriginalPos` and `getCanvasPos` are inverse to each other on every point, in
both orders; with no active image both are the identity. -/
theorem transform_roundtrip (st : State) (p : Point) :
    (∀ img, getActiveImage st = some img → 0 < st.canvasWidth / img.naturalWidth →
      getOriginalPos st (getCanvasPos st p) = p ∧
        getCanvasPos st (getOriginalPos st p) = p) ∧
    (getActiveImage st = none → getCanvasPos st p = p ∧ getOriginalPos st p = p) := by
  refine ⟨fun img himg hr => ?_, fun hnone => ?_⟩
  · have hne : st.canvasWidth / img.naturalWidth ≠ 0 := ne_of_gt hr
    obtain ⟨x, y⟩ := p
    simp only [getOriginalPos, getCanvasPos, himg]
    constructor
    · congr 1
      · exact mul_div_cancel_right₀ x hne
      · exact mul_div_cancel_right₀ y hne
    · congr 1
      · exact div_mul_cancel₀ x hne
      · exact div_mul_cancel₀ y hne
  · simp [getCanvasPos, getOriginalPos, hnone]

/-- C1 at ratio 1/2 on the point (30, 70). -/
theorem transform_roundtrip_witness :
    getActiveImage (sampleState [] (-1)) = some sampleImage ∧
      (0 : ℚ) < (sampleState [] (-1)).canvasWidth / sampleImage.naturalWidth ∧
      getOriginalPos (sampleState [] (-1)) (getCanvasPos (sampleState [] (-1)) ⟨30, 70⟩)
        = ⟨30, 70⟩ ∧
      getCanvasPos (sampleState [] (-1)) (getOriginalPos (sampleState [] (-1)) ⟨30, 70⟩)
        = ⟨30, 70⟩ :=
  have hr : (0 : ℚ) < (sampleState [] (-1)).canvasWidth / sampleImage.naturalWidth := by
    norm_num [sampleState, sampleImage]
  ⟨rfl, hr, (transform_roundtrip (sampleState [] (-1)) ⟨30, 70⟩).1 sampleImage rfl hr⟩

/-! ## Source rect of a pinned zoom (C2, C3) -/

/-- C2: when `redraw` draws (ready active image), every pinned zoom of the active
list with `zoom ≠ 0` comes out with the source rect of side `size / zoom` centred
at `pos`; the rect depends on `pos`, `size` and `zoom` alone (not on the text, the
colour or the previous source, nor on the canvas size and the selection); and a
second `redraw` changes nothing. -/
theorem redraw_source_recomputed (st : State) (h : Renderable st) :
    (∀ (i : ℕ) (text : String) (pos : Point) (size zoom : ℚ) (color : String)
        (src : Option Rect),
      (getActiveAnnotations st)[i]? =
        some ( Annotation.pinned_zoom text pos size zoom color src) →
      zoom ≠ 0 →
      ∃ r : Rect,
        (getActiveAnnotations (redraw st))[i]? =
            some ( Annotation.pinned_zoom text pos size zoom color (some r)) ∧
          r.width = size / zoom ∧ r.height = size / zoom ∧
          r.x + r.width / 2 = pos.x ∧ r.y + r.height / 2 = pos.y) ∧
    (∀ (text text2 : String) (pos : Point) (size zoom : ℚ) (color color2 : String)
        (src src2 : Option Rect),
      (redrawForEach ( Annotation.pinned_zoom text pos size zoom color src)).source? =
        (redrawForEach ( Annotation.pinned_zoom text2 pos size zoom color2 src2)).source?) ∧
    (∀ cw ch sel,
      getActiveAnnotations
          (redraw { st with canvasWidth := cw, canvasHeight := ch,
                            selectedAnnotationIndex := sel }) =
        getActiveAnnotations (redraw st)) ∧
    redraw (redraw st) = redraw st := by
  refine ⟨?_, ?_, ?_, redraw_redraw st⟩
  · intro i text pos size zoom color src hget _
    refine ⟨{ x := pos.x - size / zoom / 2, y := pos.y - size / zoom / 2,
              width := size / zoom, height := size / zoom }, ?_, rfl, rfl, ?_, ?_⟩
    · rw [getActiveAnnotations_redraw_of_renderable h, List.getElem?_map, hget]
      rfl
    · simp only; ring
    · simp only; ring
  · intros
    rfl
  · intro cw ch sel
    have h2 : Renderable { st with canvasWidth := cw, canvasHeight := ch,
                                   selectedAnnotationIndex := sel } := h
    rw [getActiveAnnotations_redraw_of_renderable h,
      getActiveAnnotations_redraw_of_renderable h2]
    rfl

/-- C2 on a pinned zoom at (40, 60) of size 90 and zoom 3 with a stale source. -/
theorem redraw_source_recomputed_witness :
    Renderable (sampleState [ Annotation.pinned_zoom "a" ⟨40, 60⟩ 90 3 "c" none] (-1)) ∧
      redraw (redraw (sampleState [ Annotation.pinned_zoom "a" ⟨40, 60⟩ 90 3 "c" none] (-1))) =
        redraw (sampleState [ Annotation.pinned_zoom "a" ⟨40, 60⟩ 90 3 "c" none] (-1)) :=
  ⟨renderable_sampleState _ _,
    (redraw_source_recomputed _ (renderable_sampleState _ _)).2.2.2⟩

/-- C3 as stated fails: for `pos = (50, 50)`, `size = 100`, `zoom = 2` the rect
that `redraw` stores is not `x = 0, y = 0, width = 50, height = 50`. -/
theorem redraw_source_scenario_counterexample :
    (getActiveAnnotations (redraw
      (sampleState [ Annotation.pinned_zoom "t" ⟨50, 50⟩ 100 2 "c" none] (-1))))[0]? ≠
      some ( Annotation.pinned_zoom "t" ⟨50, 50⟩ 100 2 "c"
        (some { x := 0, y := 0, width := 50, height := 50 })) := by
  rw [getActiveAnnotations_redraw_of_renderable (renderable_sampleState _ _),
    getActiveAnnotations_sampleState]
  simp only [List.map_cons, List.map_nil, List.getElem?_cons_zero, redrawForEach]
  norm_num

/-- C3, amended: a pinned zoom with `pos = (50, 50)`, `size = 100` and `zoom = 2`
leaves `redraw` with the source rect `x = 25, y = 25, width = 50, height = 50`
(the square of side 50 centred at `pos`), whatever its text, colour and previous
source and wherever it stands in the active list. -/
theorem redraw_source_scenario (st : State) (h : Renderable st) (i : ℕ)
    (text color : String) (src : Option Rect)
    (hget : (getActiveAnnotations st)[i]? =
      some ( Annotation.pinned_zoom text ⟨50, 50⟩ 100 2 color src)) :
    (getActiveAnnotations (redraw st))[i]? =
      some ( Annotation.pinned_zoom text ⟨50, 50⟩ 100 2 color
        (some { x := 25, y := 25, width := 50, height := 50 })) := by
  rw [getActiveAnnotations_redraw_of_renderable h, List.getElem?_map, hget]
  simp only [Option.map_some', redrawForEach]
  norm_num

/-- C3, amended, on a freshly created pinned zoom (source still `{}`). -/
theorem redraw_source_scenario_witness :
    Renderable (sampleState [ Annotation.pinned_zoom "t" ⟨50, 50⟩ 100 2 "c" none] (-1)) ∧
      (getActiveAnnotations
        (sampleState [ Annotation.pinned_zoom "t" ⟨50, 50⟩ 100 2 "c" none] (-1)))[0]? =
        some ( Annotation.pinned_zoom "t" ⟨50, 50⟩ 100 2 "c" none) ∧
      (getActiveAnnotations (redraw
        (sampleState [ Annotation.pinned_zoom "t" ⟨50, 50⟩ 100 2 "c" none] (-1))))[0]? =
        some ( Annotation.pinned_zoom "t" ⟨50, 50⟩ 100 2 "c"
          (some { x := 25, y := 25, width := 50, height := 50 })) :=
  ⟨renderable_sampleState _ _, rfl,
    redraw_source_scenario _ (renderable_sampleState _ _) 0 "t" "c" none rfl⟩

/-! ## Display unit of a measure (C4) -/

/-- C4: after `setDisplayUnit(unit)` and a further `redraw`, every measure of the
active list still has the `value` and `originalUnit` it had, and the text built
for it by `getAnnotationText` and by `drawDimension` is its display value with one
decimal followed by the unit; the display value is `value * 10` for cm shown as mm,
`value / 10` for mm shown as cm and `value` for the same unit; for `value = 5` in
cm shown in mm both texts are "50.0 mm". -/
theorem setDisplayUnit_measure (st : State) (unit : LengthUnit) :
    (∀ (i : ℕ) (start endPos : Point) (color : String) (width value : ℚ)
        (originalUnit : LengthUnit),
      (getActiveAnnotations st)[i]? =
        some ( Annotation.measure start endPos color width value originalUnit) →
      (getActiveAnnotations (redraw (setDisplayUnit st unit)))[i]? =
          some ( Annotation.measure start endPos color width value originalUnit) ∧
        getAnnotationText (redraw (setDisplayUnit st unit))
            ( Annotation.measure start endPos color width value originalUnit) =
          toFixed1 (displayValue value originalUnit unit) ++ " " ++ unit.str ∧
        drawDimensionText (redraw (setDisplayUnit st unit))
            ( Annotation.measure start endPos color width value originalUnit) =
          some (toFixed1 (displayValue value originalUnit unit) ++ " " ++ unit.str)) ∧
    (∀ value : ℚ,
      displayValue value .cm .mm = value * 10 ∧ displayValue value .mm .cm = value / 10 ∧
        displayValue value .cm .cm = value ∧ displayValue value .mm .mm = value) ∧
    (∀ (start endPos : Point) (color : String) (width : ℚ),
      getAnnotationText (setDisplayUnit st .mm)
          ( Annotation.measure start endPos color width 5 .cm) = "50.0 mm" ∧
        drawDimensionText (setDisplayUnit st .mm)
          ( Annotation.measure start endPos color width 5 .cm) = some "50.0 mm") := by
  have hu : ∀ u, (setDisplayUnit st u).displayUnit = u := fun u => by
    simp [setDisplayUnit, redraw_displayUnit]
  refine ⟨?_, ?_, ?_⟩
  · intro i start endPos color width value originalUnit hget
    have hu2 : (redraw (setDisplayUnit st unit)).displayUnit = unit := by
      rw [redraw_displayUnit, hu]
    refine ⟨?_, ?_, ?_⟩
    · apply getElem?_redraw_of_fixed _ _ _ rfl
      exact getElem?_redraw_of_fixed { st with displayUnit := unit } _ _ rfl hget
    · simp only [getAnnotationText, hu2]
    · simp only [drawDimensionText, hu2]
  · intro value
    simp [displayValue]
  · intro start endPos color width
    have h50 : displayValue 5 .cm .mm = 50 := by norm_num [displayValue]
    simp only [getAnnotationText, drawDimensionText, hu, h50, toFixed1_fifty]
    constructor <;> decide

/-- C4 on the measure from (0, 0) to (100, 0) with `value = 5` in cm, shown in mm. -/
theorem setDisplayUnit_measure_witness :
    (getActiveAnnotations
      (sampleState [ Annotation.measure ⟨0, 0⟩ ⟨100, 0⟩ "c" 3 5 .cm] (-1)))[0]? =
        some ( Annotation.measure ⟨0, 0⟩ ⟨100, 0⟩ "c" 3 5 .cm) ∧
      (getActiveAnnotations (redraw (setDisplayUnit
        (sampleState [ Annotation.measure ⟨0, 0⟩ ⟨100, 0⟩ "c" 3 5 .cm] (-1)) .mm)))[0]? =
        some ( Annotation.measure ⟨0, 0⟩ ⟨100, 0⟩ "c" 3 5 .cm) :=
  ⟨rfl, ((setDisplayUnit_measure
    (sampleState [ Annotation.measure ⟨0, 0⟩ ⟨100, 0⟩ "c" 3 5 .cm] (-1)) .mm).1
      0 ⟨0, 0⟩ ⟨100, 0⟩ "c" 3 5 .cm rfl).1⟩


theorem setActiveAnnotations_sampleState (anns l : List Annotation) (sel : ℤ) :
    setActiveAnnotations (sampleState anns sel) l = sampleState l sel := rfl

theorem redrawForEach_sampleZoom : redrawForEach sampleZoom = sampleZoom := by
  simp only [redrawForEach, sampleZoom]
  norm_num

theorem sample_settled (sel : ℤ) :
    redraw (sampleState [sampleZoom, sampleMeasure] sel) =
      sampleState [sampleZoom, sampleMeasure] sel := by
  rw [redraw_of_renderable (renderable_sampleState _ _), getActiveAnnotations_sampleState,
    List.map_cons, List.map_cons, List.map_nil, redrawForEach_sampleZoom]
  rfl

/-! ## Settled states: every derived source is up to date -/

theorem map_eq_self_mem {α : Type} (f : α → α) :
    ∀ l : List α, l.map f = l → ∀ a ∈ l, f a = a
  | [], _, a, ha => by cases ha
  | b :: l, h, a, ha => by
      simp only [List.map_cons, List.cons.injEq] at h
      rcases List.mem_cons.mp ha with rfl | hmem
      · exact h.1
      · exact map_eq_self_mem f l h.2 a hmem

theorem getActiveImageData_ne_none_of_renderable {st : State} (h : Renderable st) :
    getActiveImageData st ≠ none := by
  obtain ⟨img, hi, _, _⟩ := h
  exact getActiveImageData_ne_none_of_image hi

theorem redrawForEach_fixed_of_settled {st : State} (hs : redraw st = st)
    (h : Renderable st) : ∀ a ∈ getActiveAnnotations st, redrawForEach a = a := by
  have h1 := getActiveAnnotations_redraw_of_renderable h
  rw [hs] at h1
  exact map_eq_self_mem redrawForEach _ h1.symm

theorem redraw_setActiveAnnotations_of_settled {st : State} (hs : redraw st = st)
    (l : List Annotation) (hl : ∀ a ∈ l, a ∈ getActiveAnnotations st) :
    redraw (setActiveAnnotations st l) = setActiveAnnotations st l := by
  by_cases h : Renderable st
  · have h2 : Renderable (setActiveAnnotations st l) :=
      (renderable_setActiveAnnotations st l).mpr h
    rw [redraw_of_renderable h2, setActiveAnnotations_twice,
      getActiveAnnotations_setActiveAnnotations,
      if_neg (getActiveImageData_ne_none_of_renderable h)]
    congr 1
    have hfix := redrawForEach_fixed_of_settled hs h
    conv_rhs => rw [← List.map_id l]
    apply List.map_congr_left
    intro a ha
    exact hfix a (hl a ha)
  · exact redraw_of_not_renderable
      (fun h2 => h ((renderable_setActiveAnnotations st l).mp h2))

theorem getActiveAnnotations_eq_nil_of_none {st : State} (h : getActiveImageData st = none) :
    getActiveAnnotations st = [] := by
  simp [getActiveAnnotations, h]

theorem getActiveAnnotations_set_of_ne_nil {st : State} (hne : getActiveAnnotations st ≠ [])
    (l : List Annotation) : getActiveAnnotations (setActiveAnnotations st l) = l := by
  rw [getActiveAnnotations_setActiveAnnotations, if_neg]
  intro hn
  exact hne (getActiveAnnotations_eq_nil_of_none hn)

theorem length_getActiveAnnotations_redraw (st : State) :
    (getActiveAnnotations (redraw st)).length = (getActiveAnnotations st).length := by
  rcases getActiveAnnotations_redraw_cases st with h | h
  · rw [h]
  · rw [h, List.length_map]

theorem length_getActiveAnnotations_set_le (st : State) (l : List Annotation) :
    (getActiveAnnotations (setActiveAnnotations st l)).length ≤ l.length := by
  rw [getActiveAnnotations_setActiveAnnotations]
  split_ifs <;> simp

theorem length_undo (st : State) :
    (getActiveAnnotations (undo st)).length = (getActiveAnnotations st).length - 1 := by
  unfold undo
  split_ifs with h
  · have hne : getActiveAnnotations st ≠ [] := by
      intro h0
      rw [h0] at h
      exact absurd h (by simp)
    rw [length_getActiveAnnotations_redraw, getActiveAnnotations_set_of_ne_nil hne,
      List.length_dropLast]
  · omega

theorem length_iterate_undo (n : ℕ) (st : State) :
    (getActiveAnnotations (undo^[n] st)).length = (getActiveAnnotations st).length - n := by
  induction n with
  | zero => simp
  | succ n ih =>
      rw [Function.iterate_succ_apply', length_undo, ih]
      omega

/-! ## Undo (C5) -/

theorem undo_of_settled {st : State} (hs : redraw st = st) (init : List Annotation)
    (last : Annotation) (h : getActiveAnnotations st = init ++ [last]) :
    undo st = setActiveAnnotations st init := by
  unfold undo
  rw [if_pos (by rw [h]; simp), h, List.dropLast_concat]
  apply redraw_setActiveAnnotations_of_settled hs
  intro a ha
  rw [h]
  exact List.mem_append_left _ ha

theorem hasActive_setActiveAnnotations (st : State) (l : List Annotation) :
    getActiveImageData (setActiveAnnotations st l) = none ↔ getActiveImageData st = none := by
  rw [getActiveImageData_setActiveAnnotations]
  cases getActiveImageData st <;> simp

theorem hasActive_redraw (st : State) :
    getActiveImageData (redraw st) = none ↔ getActiveImageData st = none := by
  by_cases h : Renderable st
  · rw [redraw_of_renderable h]
    exact hasActive_setActiveAnnotations _ _
  · rw [redraw_of_not_renderable h]

theorem length_getActiveAnnotations_set (st : State) (l : List Annotation) :
    (getActiveAnnotations (setActiveAnnotations st l)).length =
      if getActiveImageData st = none then 0 else l.length := by
  rw [getActiveAnnotations_setActiveAnnotations]
  split_ifs <;> simp

theorem length_push_redraw (st : State) (a : Annotation) :
    (getActiveAnnotations
      (redraw (setActiveAnnotations st (getActiveAnnotations st ++ [a])))).length =
      if getActiveImageData st = none then 0 else (getActiveAnnotations st).length + 1 := by
  rw [length_getActiveAnnotations_redraw, length_getActiveAnnotations_set]
  simp

theorem hasActive_push_redraw (st : State) (a : Annotation) :
    getActiveImageData
      (redraw (setActiveAnnotations st (getActiveAnnotations st ++ [a]))) = none ↔
      getActiveImageData st = none := by
  rw [hasActive_redraw, hasActive_setActiveAnnotations]

theorem hasActive_setActiveTool (st : State) (tool : Tool) :
    getActiveImageData (setActiveTool st tool) = none ↔ getActiveImageData st = none := by
  unfold setActiveTool
  rw [hasActive_redraw]
  rfl

theorem length_setActiveTool (st : State) (tool : Tool) :
    (getActiveAnnotations (setActiveTool st tool)).length =
      (getActiveAnnotations st).length := by
  unfold setActiveTool
  rw [length_getActiveAnnotations_redraw]
  rfl

theorem hasActive_runModalCallback (st : State) (value : String) (cb : ModalCallback) :
    getActiveImageData (runModalCallback st value cb) = none ↔
      getActiveImageData st = none := by
  cases cb with
  | zoomText pos =>
      simp only [runModalCallback]
      rw [hasActive_setActiveTool, hasActive_push_redraw]
  | textTool pos =>
      simp only [runModalCallback]
      split_ifs
      · rw [hasActive_push_redraw]
      · rfl
  | measureValue start endPos color width =>
      simp only [runModalCallback]
      cases parseFloat value with
      | none => exact hasActive_redraw st
      | some v =>
          simp only
          split_ifs
          · rw [hasActive_push_redraw]
          · exact hasActive_redraw st
  | arrowText start endPos color width =>
      simp only [runModalCallback]
      split_ifs
      · rw [hasActive_push_redraw]
      · exact hasActive_redraw st

theorem length_runModalCallback_le (st : State) (value : String) (cb : ModalCallback) :
    (getActiveAnnotations (runModalCallback st value cb)).length ≤
      (getActiveAnnotations st).length + 1 := by
  cases cb with
  | zoomText pos =>
      simp only [runModalCallback]
      rw [length_setActiveTool, length_push_redraw]
      split_ifs <;> omega
  | textTool pos =>
      simp only [runModalCallback]
      split_ifs
      · rw [length_push_redraw]
        split_ifs <;> omega
      · omega
  | measureValue start endPos color width =>
      simp only [runModalCallback]
      cases parseFloat value with
      | none => simp only; rw [length_getActiveAnnotations_redraw]; omega
      | some v =>
          simp only
          split_ifs
          · rw [length_push_redraw]
            split_ifs <;> omega
          · rw [length_getActiveAnnotations_redraw]; omega
  | arrowText start endPos color width =>
      simp only [runModalCallback]
      split_ifs
      · rw [length_push_redraw]
        split_ifs <;> omega
      · rw [length_getActiveAnnotations_redraw]; omega

theorem length_runModalCallback_of_commits (st : State) (value : String)
    (cb : ModalCallback) (hc : Commits (cb, value)) (ha : getActiveImageData st ≠ none) :
    (getActiveAnnotations (runModalCallback st value cb)).length =
      (getActiveAnnotations st).length + 1 := by
  cases cb with
  | zoomText pos =>
      simp only [runModalCallback]
      rw [length_setActiveTool, length_push_redraw, if_neg ha]
  | textTool pos =>
      have hv : value ≠ "" := hc
      simp only [runModalCallback]
      rw [if_pos hv, length_push_redraw, if_neg ha]
  | measureValue start endPos color width =>
      have hv : value ≠ "" ∧ parseFloat value ≠ none := hc
      simp only [runModalCallback]
      cases hp : parseFloat value with
      | none => exact absurd hp hv.2
      | some v =>
          simp only
          rw [if_pos hv.1, length_push_redraw, if_neg ha]
  | arrowText start endPos color width =>
      have hv : value ≠ "" := hc
      simp only [runModalCallback]
      rw [if_pos hv, length_push_redraw, if_neg ha]

theorem commitOne_eq (st : State) (c : ModalCallback × String) :
    commitOne st c = hideInputModal (runModalCallback (showInputModal st c.1) c.2 c.1) := rfl

theorem hasActive_commitOne (st : State) (c : ModalCallback × String) :
    getActiveImageData (commitOne st c) = none ↔ getActiveImageData st = none := by
  rw [commitOne_eq]
  exact hasActive_runModalCallback (showInputModal st c.1) c.2 c.1

theorem length_commitOne_le (st : State) (c : ModalCallback × String) :
    (getActiveAnnotations (commitOne st c)).length ≤ (getActiveAnnotations st).length + 1 := by
  rw [commitOne_eq]
  exact length_runModalCallback_le (showInputModal st c.1) c.2 c.1

theorem length_commitOne_of_commits (st : State) (c : ModalCallback × String)
    (hc : Commits c) (ha : getActiveImageData st ≠ none) :
    (getActiveAnnotations (commitOne st c)).length = (getActiveAnnotations st).length + 1 := by
  rw [commitOne_eq]
  exact length_runModalCallback_of_commits (showInputModal st c.1) c.2 c.1 hc ha

theorem length_foldl_commitOne_le (cs : List (ModalCallback × String)) (st : State) :
    (getActiveAnnotations (cs.foldl commitOne st)).length ≤
      (getActiveAnnotations st).length + cs.length := by
  induction cs generalizing st with
  | nil => simp
  | cons c cs ih =>
      simp only [List.foldl_cons, List.length_cons]
      have h1 := ih (commitOne st c)
      have h2 := length_commitOne_le st c
      omega

theorem length_foldl_commitOne (cs : List (ModalCallback × String)) (st : State)
    (hc : ∀ c ∈ cs, Commits c) (ha : getActiveImageData st ≠ none) :
    (getActiveAnnotations (cs.foldl commitOne st)).length =
      (getActiveAnnotations st).length + cs.length := by
  induction cs generalizing st with
  | nil => simp
  | cons c cs ih =>
      simp only [List.foldl_cons, List.length_cons]
      have hc1 : Commits c := hc c (List.mem_cons_self _ _)
      have ha2 : getActiveImageData (commitOne st c) ≠ none :=
        fun h => ha ((hasActive_commitOne st c).mp h)
      rw [ih (commitOne st c) (fun d hd => hc d (List.mem_cons_of_mem _ hd)) ha2,
        length_commitOne_of_commits st c hc1 ha]
      omega

/-- C5: in a state whose derived sources are up to date (`redraw st = st`, as
after every handler), undo on a list `init ++ [last]` leaves exactly `init`, the
earlier elements unchanged and in order, and touches nothing else; undo on an empty
list changes nothing; and from an empty list, any `N` creation gestures of any
kinds (which leave `N` annotations when each one commits on an active image)
followed by `N` undos leave the empty list. -/
theorem undo_stack (st : State) (hs : redraw st = st) :
    (∀ (init : List Annotation) (last : Annotation),
      getActiveAnnotations st = init ++ [last] →
        getActiveAnnotations (undo st) = init ∧ undo st = setActiveAnnotations st init) ∧
    (getActiveAnnotations st = [] → undo st = st) ∧
    (∀ cs : List (ModalCallback × String), getActiveAnnotations st = [] →
      ((∀ c ∈ cs, Commits c) → getActiveImageData st ≠ none →
        (getActiveAnnotations (cs.foldl commitOne st)).length = cs.length) ∧
      getActiveAnnotations (undo^[cs.length] (cs.foldl commitOne st)) = []) := by
  refine ⟨?_, ?_, ?_⟩
  · intro init last h
    have hu := undo_of_settled hs init last h
    refine ⟨?_, hu⟩
    rw [hu]
    apply getActiveAnnotations_set_of_ne_nil
    rw [h]
    simp
  · intro h
    simp [undo, h]
  · intro cs h0
    constructor
    · intro hc ha
      rw [length_foldl_commitOne cs st hc ha, h0]
      simp
    · apply List.eq_nil_of_length_eq_zero
      rw [length_iterate_undo]
      have := length_foldl_commitOne_le cs st
      rw [h0] at this
      simp at this
      omega

/-- C5 on the list of a pinned zoom followed by a measure. -/
theorem undo_stack_witness :
    redraw (sampleState [sampleZoom, sampleMeasure] (-1)) =
        sampleState [sampleZoom, sampleMeasure] (-1) ∧
      getActiveAnnotations (sampleState [sampleZoom, sampleMeasure] (-1)) =
        [sampleZoom] ++ [sampleMeasure] ∧
      getActiveAnnotations (undo (sampleState [sampleZoom, sampleMeasure] (-1))) =
        [sampleZoom] :=
  ⟨sample_settled (-1), rfl,
    ((undo_stack _ (sample_settled (-1))).1 [sampleZoom] sampleMeasure rfl).1⟩

/-! ## Deleting from the annotation list (C6) -/

theorem getElem?_renderAnnotationList (st : State) (j : ℕ) :
    (renderAnnotationList st)[j]? =
      ((getActiveAnnotations st)[j]?).map fun ann =>
        { number := j + 1, textContent := getAnnotationText st ann, dataIndex := j } := by
  unfold renderAnnotationList
  rw [List.getElem?_map, List.getElem?_enum]
  cases (getActiveAnnotations st)[j]? <;> rfl

theorem listDelete_of_settled {st : State} (hs : redraw st = st) (k : ℕ) :
    listDelete st k = setActiveAnnotations st ((getActiveAnnotations st).eraseIdx k) := by
  unfold listDelete
  apply redraw_setActiveAnnotations_of_settled hs
  intro a ha
  exact List.mem_of_mem_eraseIdx ha

theorem setActiveAnnotations_displayUnit (st : State) (l : List Annotation) :
    (setActiveAnnotations st l).displayUnit = st.displayUnit := by
  obtain ⟨l2, h⟩ := setActiveAnnotations_fields st l
  rw [h]

theorem getAnnotationText_congr {s t : State} (h : s.displayUnit = t.displayUnit)
    (ann : Annotation) : getAnnotationText s ann = getAnnotationText t ann := by
  cases ann <;> simp [getAnnotationText, h]

/-- C6: in a state whose derived sources are up to date, the delete button with
`data-index = k < n` leaves the list with entry `k` erased, of length `n - 1`:
an annotation formerly at `j > k` is now at `j - 1` and its row number drops from
`j + 1` to `j`; an annotation at `j < k` keeps its index, its number and its
contents. -/
theorem listDelete_renumbers (st : State) (hs : redraw st = st) (k : ℕ)
    (hk : k < (getActiveAnnotations st).length) :
    getActiveAnnotations (listDelete st k) = (getActiveAnnotations st).eraseIdx k ∧
    (getActiveAnnotations (listDelete st k)).length = (getActiveAnnotations st).length - 1 ∧
    (∀ (j : ℕ) (ann : Annotation), (getActiveAnnotations st)[j]? = some ann → k < j →
      (getActiveAnnotations (listDelete st k))[j - 1]? = some ann ∧
      (renderAnnotationList st)[j]? =
        some { number := j + 1, textContent := getAnnotationText st ann, dataIndex := j } ∧
      (renderAnnotationList (listDelete st k))[j - 1]? =
        some { number := j, textContent := getAnnotationText st ann, dataIndex := j - 1 }) ∧
    (∀ (j : ℕ) (ann : Annotation), (getActiveAnnotations st)[j]? = some ann → j < k →
      (getActiveAnnotations (listDelete st k))[j]? = some ann ∧
      (renderAnnotationList st)[j]? =
        some { number := j + 1, textContent := getAnnotationText st ann, dataIndex := j } ∧
      (renderAnnotationList (listDelete st k))[j]? =
        some { number := j + 1, textContent := getAnnotationText st ann, dataIndex := j }) := by
  have hne : getActiveAnnotations st ≠ [] := by
    intro h0
    rw [h0] at hk
    exact absurd hk (by simp)
  have hl : getActiveAnnotations (listDelete st k) = (getActiveAnnotations st).eraseIdx k := by
    rw [listDelete_of_settled hs, getActiveAnnotations_set_of_ne_nil hne]
  have hu : (listDelete st k).displayUnit = st.displayUnit := by
    rw [listDelete_of_settled hs, setActiveAnnotations_displayUnit]
  refine ⟨hl, ?_, ?_, ?_⟩
  · rw [hl, List.length_eraseIdx, if_pos hk]
  · intro j ann hj hkj
    have h1 : (getActiveAnnotations (listDelete st k))[j - 1]? = some ann := by
      rw [hl, List.getElem?_eraseIdx, if_neg (by omega)]
      have : j - 1 + 1 = j := by omega
      rw [this, hj]
    refine ⟨h1, ?_, ?_⟩
    · rw [getElem?_renderAnnotationList, hj]
      rfl
    · rw [getElem?_renderAnnotationList, h1]
      have : j - 1 + 1 = j := by omega
      simp only [Option.map_some', this, getAnnotationText_congr hu ann]
  · intro j ann hj hjk
    have h1 : (getActiveAnnotations (listDelete st k))[j]? = some ann := by
      rw [hl, List.getElem?_eraseIdx, if_pos hjk, hj]
    refine ⟨h1, ?_, ?_⟩
    · rw [getElem?_renderAnnotationList, hj]
      rfl
    · rw [getElem?_renderAnnotationList, h1]
      simp only [Option.map_some', getAnnotationText_congr hu ann]

/-- C6 on deleting the first of two annotations. -/
theorem listDelete_renumbers_witness :
    redraw (sampleState [sampleZoom, sampleMeasure] (-1)) =
        sampleState [sampleZoom, sampleMeasure] (-1) ∧
      0 < (getActiveAnnotations (sampleState [sampleZoom, sampleMeasure] (-1))).length ∧
      getActiveAnnotations (listDelete (sampleState [sampleZoom, sampleMeasure] (-1)) 0) =
        (getActiveAnnotations (sampleState [sampleZoom, sampleMeasure] (-1))).eraseIdx 0 :=
  ⟨sample_settled (-1), Nat.zero_lt_succ _,
    (listDelete_renumbers _ (sample_settled (-1)) 0 (Nat.zero_lt_succ _)).1⟩

theorem listDelete_selectedAnnotationIndex (st : State) (k : ℕ) :
    (listDelete st k).selectedAnnotationIndex = st.selectedAnnotationIndex := by
  unfold listDelete
  rw [redraw_selectedAnnotationIndex]
  obtain ⟨l, h⟩ := setActiveAnnotations_fields st ((getActiveAnnotations st).eraseIdx k)
  rw [h]

/-! ## Properties of all annotations kept by the handlers -/

theorem zoom?_redrawForEach (a : Annotation) : (redrawForEach a).zoom? = a.zoom? := by
  cases a <;> rfl

theorem allAnn_of_imagesData_eq {P : Annotation → Prop} {s t : State}
    (h : t.imagesData = s.imagesData) (hs : AllAnn P s) : AllAnn P t := by
  unfold AllAnn
  rw [h]
  exact hs

theorem allAnn_of_nil {P : Annotation → Prop} {t : State} (h : t.imagesData = []) :
    AllAnn P t := by
  intro data hd
  rw [h] at hd
  cases hd

theorem allAnn_active {P : Annotation → Prop} {st : State} (hs : AllAnn P st) :
    ∀ a ∈ getActiveAnnotations st, P a := by
  intro a ha
  cases hd : getActiveImageData st with
  | none => rw [getActiveAnnotations_eq_nil_of_none hd] at ha; cases ha
  | some data =>
      have hmem : data ∈ st.imagesData :=
        List.getElem?_mem (getActiveImageData_eq_some hd).2
      have : getActiveAnnotations st = data.annotations := by
        simp [getActiveAnnotations, hd]
      rw [this] at ha
      exact hs data hmem a ha

theorem allAnn_set {P : Annotation → Prop} {st : State} (hs : AllAnn P st) (i : ℕ)
    (data : ImageData) (hdata : ∀ a ∈ data.annotations, P a) :
    AllAnn P { st with imagesData := st.imagesData.set i data } := by
  intro d hd a ha
  rcases List.mem_or_eq_of_mem_set hd with h | h
  · exact hs d h a ha
  · subst h
    exact hdata a ha

theorem allAnn_setActiveAnnotations {P : Annotation → Prop} {st : State} (hs : AllAnn P st)
    (l : List Annotation) (hl : ∀ a ∈ l, P a) : AllAnn P (setActiveAnnotations st l) := by
  cases hd : getActiveImageData st with
  | none => rw [setActiveAnnotations_of_none hd]; exact hs
  | some data =>
      rw [setActiveAnnotations_of_some hd]
      exact allAnn_set hs _ _ hl

theorem allAnn_redraw {P : Annotation → Prop} (hP : ZoomProperty P) {st : State}
    (hs : AllAnn P st) : AllAnn P (redraw st) := by
  by_cases h : Renderable st
  · rw [redraw_of_renderable h]
    apply allAnn_setActiveAnnotations hs
    intro a ha
    obtain ⟨b, hb, rfl⟩ := List.mem_map.mp ha
    exact hP.congr b _ (zoom?_redrawForEach b).symm (allAnn_active hs b hb)
  · rw [redraw_of_not_renderable h]
    exact hs

theorem allAnn_redraw_of_eq {P : Annotation → Prop} (hP : ZoomProperty P) {s t : State}
    (h : t.imagesData = s.imagesData) (hs : AllAnn P s) : AllAnn P (redraw t) :=
  allAnn_redraw hP (allAnn_of_imagesData_eq h hs)

theorem allAnn_resizeCanvas {P : Annotation → Prop} (hP : ZoomProperty P) {st : State}
    (hs : AllAnn P st) : AllAnn P (resizeCanvas st) := by
  unfold resizeCanvas
  cases getActiveImage st with
  | none => exact allAnn_redraw_of_eq hP rfl hs
  | some img =>
      simp only
      split_ifs <;> exact allAnn_redraw_of_eq hP rfl hs

theorem allAnn_resizeCanvas_of_eq {P : Annotation → Prop} (hP : ZoomProperty P) {s t : State}
    (h : t.imagesData = s.imagesData) (hs : AllAnn P s) : AllAnn P (resizeCanvas t) :=
  allAnn_resizeCanvas hP (allAnn_of_imagesData_eq h hs)

theorem allAnn_setActiveImage {P : Annotation → Prop} (hP : ZoomProperty P) {st : State}
    (hs : AllAnn P st) (index : ℤ) : AllAnn P (setActiveImage st index) := by
  unfold setActiveImage
  split_ifs
  · exact hs
  · exact allAnn_resizeCanvas_of_eq hP rfl hs

theorem allAnn_setActiveTool {P : Annotation → Prop} (hP : ZoomProperty P) {st : State}
    (hs : AllAnn P st) (tool : Tool) : AllAnn P (setActiveTool st tool) :=
  allAnn_redraw_of_eq hP rfl hs

theorem allAnn_deleteImageConfirmed {P : Annotation → Prop} (hP : ZoomProperty P)
    {st : State} (hs : AllAnn P st) (index : ℕ) :
    AllAnn P (deleteImageConfirmed st index) := by
  have h1 : AllAnn P { st with imagesData := st.imagesData.eraseIdx index } :=
    fun d hd a ha => hs d (List.mem_of_mem_eraseIdx hd) a ha
  unfold deleteImageConfirmed
  apply allAnn_resizeCanvas hP
  apply allAnn_setActiveImage hP
  simp only
  split_ifs <;> exact allAnn_of_imagesData_eq rfl h1

theorem allAnn_imageLoaded {P : Annotation → Prop} (hP : ZoomProperty P) {st : State}
    (hs : AllAnn P st) (id : ℚ) (img : Image) : AllAnn P (imageLoaded st id img) := by
  unfold imageLoaded
  apply allAnn_setActiveImage hP
  intro d hd a ha
  rcases List.mem_append.mp hd with h | h
  · exact hs d h a ha
  · rw [List.mem_singleton] at h
    subst h
    cases ha

theorem allAnn_push_redraw {P : Annotation → Prop} (hP : ZoomProperty P) {st : State}
    (hs : AllAnn P st) (a : Annotation) (ha : P a) :
    AllAnn P (redraw (setActiveAnnotations st (getActiveAnnotations st ++ [a]))) := by
  apply allAnn_redraw hP
  apply allAnn_setActiveAnnotations hs
  intro b hb
  rcases List.mem_append.mp hb with h | h
  · exact allAnn_active hs b h
  · rw [List.mem_singleton] at h
    subst h
    exact ha

theorem allAnn_runModalCallback {P : Annotation → Prop} (hP : ZoomProperty P) {st : State}
    (hs : AllAnn P st) (value : String) (cb : ModalCallback) :
    AllAnn P (runModalCallback st value cb) := by
  cases cb with
  | zoomText pos =>
      simp only [runModalCallback]
      apply allAnn_setActiveTool hP
      exact allAnn_push_redraw hP hs _ (hP.created _ rfl)
  | textTool pos =>
      simp only [runModalCallback]
      split_ifs
      · exact allAnn_push_redraw hP hs _ (hP.noZoom _ rfl)
      · exact hs
  | measureValue start endPos color width =>
      simp only [runModalCallback]
      cases parseFloat value with
      | none => exact allAnn_redraw hP hs
      | some v =>
          simp only
          split_ifs
          · exact allAnn_push_redraw hP hs _ (hP.noZoom _ rfl)
          · exact allAnn_redraw hP hs
  | arrowText start endPos color width =>
      simp only [runModalCallback]
      split_ifs
      · exact allAnn_push_redraw hP hs _ (hP.noZoom _ rfl)
      · exact allAnn_redraw hP hs

theorem allAnn_modalOk {P : Annotation → Prop} (hP : ZoomProperty P) {st : State}
    (hs : AllAnn P st) (value : String) : AllAnn P (modalOk st value) := by
  unfold modalOk
  cases st.currentModalCallback with
  | none => exact allAnn_of_imagesData_eq rfl hs
  | some cb => exact allAnn_of_imagesData_eq rfl (allAnn_runModalCallback hP hs value cb)

theorem allAnn_runConfirmCallback {P : Annotation → Prop} (hP : ZoomProperty P)
    {st : State} (hs : AllAnn P st) (cb : ConfirmCallback) :
    AllAnn P (runConfirmCallback st cb).state := by
  cases cb with
  | deleteImage index => exact allAnn_deleteImageConfirmed hP hs index
  | clearCanvas =>
      simp only [runConfirmCallback]
      cases jsIndex st.imagesData st.activeImageIndex with
      | none => exact hs
      | some data => exact allAnn_redraw hP (allAnn_set hs _ _ (fun a ha => by cases ha))
  | restart =>
      have h0 : AllAnn P { st with imagesData := [], activeImageIndex := -1 } :=
        allAnn_of_nil rfl
      exact allAnn_resizeCanvas hP h0
  | noop => exact hs

theorem allAnn_confirmOk {P : Annotation → Prop} (hP : ZoomProperty P) {st : State}
    (hs : AllAnn P st) : AllAnn P (confirmOk st).state := by
  unfold confirmOk
  cases st.currentConfirmCallback with
  | none => exact allAnn_of_imagesData_eq rfl hs
  | some cb =>
      have h := allAnn_runConfirmCallback hP hs cb
      simp only
      cases hrun : runConfirmCallback st cb with
      | done s =>
          rw [hrun] at h
          exact allAnn_of_imagesData_eq rfl h
      | typeError s =>
          rw [hrun] at h
          exact h

theorem allAnn_set_redraw {P : Annotation → Prop} (hP : ZoomProperty P) {st : State}
    (hs : AllAnn P st) (i : ℕ) (a : Annotation) (ha : P a) :
    AllAnn P (redraw (setActiveAnnotations st ((getActiveAnnotations st).set i a))) := by
  apply allAnn_redraw hP
  apply allAnn_setActiveAnnotations hs
  intro b hb
  rcases List.mem_or_eq_of_mem_set hb with h | h
  · exact allAnn_active hs b h
  · subst h
    exact ha

theorem allAnn_listInputChange {P : Annotation → Prop} (hP : ZoomProperty P) {st : State}
    (hs : AllAnn P st) (index : ℕ) (value : String) :
    AllAnn P (listInputChange st index value).state := by
  unfold listInputChange
  cases hget : (getActiveAnnotations st)[index]? with
  | none => exact hs
  | some ann =>
      have hann : P ann := allAnn_active hs ann (List.getElem?_mem hget)
      cases ann with
      | measure start endPos color width v originalUnit =>
          simp only
          cases parseFloat value with
          | none => exact allAnn_set_redraw hP hs _ _ (hP.noZoom _ rfl)
          | some val => exact allAnn_set_redraw hP hs _ _ (hP.noZoom _ rfl)
      | arrow start endPos color width text =>
          exact allAnn_set_redraw hP hs _ _ (hP.noZoom _ rfl)
      | text text pos color width =>
          exact allAnn_set_redraw hP hs _ _ (hP.noZoom _ rfl)
      | pinned_zoom text pos size zoom color source =>
          exact allAnn_set_redraw hP hs _ _
            (hP.congr ( Annotation.pinned_zoom text pos size zoom color source) _ rfl hann)

theorem allAnn_listDelete {P : Annotation → Prop} (hP : ZoomProperty P) {st : State}
    (hs : AllAnn P st) (index : ℕ) : AllAnn P (listDelete st index) := by
  apply allAnn_redraw hP
  apply allAnn_setActiveAnnotations hs
  intro b hb
  exact allAnn_active hs b (List.mem_of_mem_eraseIdx hb)

theorem allAnn_undo {P : Annotation → Prop} (hP : ZoomProperty P) {st : State}
    (hs : AllAnn P st) : AllAnn P (undo st) := by
  unfold undo
  split_ifs
  · apply allAnn_redraw hP
    apply allAnn_setActiveAnnotations hs
    intro b hb
    exact allAnn_active hs b (List.mem_of_mem_dropLast hb)
  · exact hs

theorem allAnn_mousedownSelect {P : Annotation → Prop} (hP : ZoomProperty P) (M : JsMath)
    {st : State} (hs : AllAnn P st) (pos : Point) (ratio : ℚ) :
    AllAnn P (mousedownSelect M st pos ratio) := by
  unfold mousedownSelect
  cases hitLoop M (getActiveAnnotations st) ratio pos (getActiveAnnotations st).length with
  | some i => exact allAnn_redraw_of_eq hP rfl hs
  | none =>
      simp only
      split_ifs
      · exact allAnn_redraw_of_eq hP rfl hs
      · exact allAnn_of_imagesData_eq rfl hs

theorem allAnn_createZoom {P : Annotation → Prop} {st : State}
    (hs : AllAnn P st) (pos : Point) : AllAnn P ( createZoomAnnotation st pos) := by
  unfold createZoomAnnotation
  cases getActiveImage st with
  | none => exact hs
  | some img => exact allAnn_of_imagesData_eq rfl hs

theorem allAnn_mousedown {P : Annotation → Prop} (hP : ZoomProperty P) (M : JsMath)
    {st : State} (hs : AllAnn P st) (pos : Point) :
    AllAnn P (mousedown M st pos).state := by
  unfold mousedown
  split_ifs
  · exact allAnn_resizeCanvas_of_eq hP rfl hs
  · exact hs
  · exact allAnn_createZoom hs pos
  · exact allAnn_of_imagesData_eq rfl hs
  · cases jsIndex (getActiveAnnotations st) st.selectedAnnotationIndex with
    | none => exact hs
    | some ann =>
        cases ann with
        | pinned_zoom text annPos size zoom color source =>
            simp only
            split_ifs
            · exact allAnn_of_imagesData_eq rfl hs
            · exact allAnn_mousedownSelect hP M hs pos _
        | measure start endPos color width v originalUnit =>
            exact allAnn_mousedownSelect hP M hs pos _
        | arrow start endPos color width text =>
            exact allAnn_mousedownSelect hP M hs pos _
        | text text p color width => exact allAnn_mousedownSelect hP M hs pos _
  · exact allAnn_mousedownSelect hP M hs pos _

theorem mem_of_jsIndex {α : Type} {l : List α} {i : ℤ} {a : α} (h : jsIndex l i = some a) :
    a ∈ l := by
  unfold jsIndex at h
  split_ifs at h
  exact List.getElem?_mem h

theorem allAnn_mousemove {P : Annotation → Prop} (hP : ZoomProperty P) (M : JsMath)
    {st : State} (hs : AllAnn P st) (pos : Point) :
    AllAnn P (mousemove M st pos).state := by
  have hs1 : AllAnn P { st with lastMousePos := pos } := allAnn_of_imagesData_eq rfl hs
  unfold mousemove
  simp only
  split_ifs
  · cases hl : jsIndex (getActiveAnnotations { st with lastMousePos := pos })
        st.selectedAnnotationIndex with
    | none => exact hs1
    | some ann =>
        have hann : P ann := allAnn_active hs1 ann (mem_of_jsIndex hl)
        cases hi : getActiveImage { st with lastMousePos := pos } with
        | none => cases ann <;> exact hs1
        | some img =>
            cases ann with
            | measure start endPos color width v originalUnit => exact hs1
            | arrow start endPos color width text => exact hs1
            | text text p color width => exact allAnn_redraw hP hs1
            | pinned_zoom text annPos size zoom color source =>
                exact allAnn_set_redraw hP hs1 _ _
                  (hP.congr ( Annotation.pinned_zoom text annPos size zoom color source) _
                    rfl hann)
  · exact hs1
  · exact allAnn_redraw hP hs1

theorem allAnn_mouseup {P : Annotation → Prop} (hP : ZoomProperty P)
    {st : State} (hs : AllAnn P st) (pos : Point) : AllAnn P (mouseup st pos) := by
  unfold mouseup
  split_ifs
  · exact allAnn_of_imagesData_eq rfl hs
  · exact hs
  · simp only
    cases st.currentTool with
    | measure => exact allAnn_of_imagesData_eq rfl hs
    | arrow => exact allAnn_of_imagesData_eq rfl hs
    | text => exact allAnn_redraw_of_eq hP rfl hs
    | zoom_annotation => exact allAnn_redraw_of_eq hP rfl hs

theorem allAnn_mouseleave {P : Annotation → Prop} (hP : ZoomProperty P)
    {st : State} (hs : AllAnn P st) : AllAnn P (mouseleave st) := by
  have h1 : AllAnn P (if st.isDrawing = true then redraw { st with isDrawing := false }
      else st) := by
    split_ifs
    · exact allAnn_redraw_of_eq hP rfl hs
    · exact hs
  unfold mouseleave
  simp only
  split_ifs with h2 h3 h4
  · exact allAnn_redraw_of_eq hP rfl (allAnn_redraw_of_eq hP (s := st) rfl hs)
  · exact allAnn_redraw_of_eq hP rfl hs
  · exact allAnn_redraw_of_eq hP rfl hs
  · exact hs

theorem allAnn_wheel {P : Annotation → Prop} (hP : ZoomProperty P)
    (hw : ∀ (a b : Annotation) (z deltaY : ℚ), a.zoom? = some z →
      b.zoom? = some (max 1 (min (z * zoomChange deltaY) 10)) → P a → P b)
    {st : State} (hs : AllAnn P st) (deltaY : ℚ) : AllAnn P (wheel st deltaY).state := by
  unfold wheel
  by_cases hsel : st.selectedAnnotationIndex ≠ -1
  · rw [if_pos hsel]
    cases hl : jsIndex (getActiveAnnotations st) st.selectedAnnotationIndex with
    | none => exact hs
    | some ann =>
        have hann : P ann := allAnn_active hs ann (mem_of_jsIndex hl)
        cases ann with
        | measure start endPos color width v originalUnit => exact hs
        | arrow start endPos color width text => exact hs
        | text text p color width => exact hs
        | pinned_zoom text annPos size zoom color source =>
            exact allAnn_set_redraw hP hs _ _
              (hw ( Annotation.pinned_zoom text annPos size zoom color source) _ zoom deltaY
                rfl rfl hann)
  · rw [if_neg hsel]
    exact hs

theorem allAnn_step_of_not_wheel {P : Annotation → Prop} (hP : ZoomProperty P) (M : JsMath)
    {st : State} (hs : AllAnn P st) (e : Event) (he : e.isWheel = false) :
    AllAnn P (step M st e) := by
  cases e with
  | toolClick tool => exact allAnn_setActiveTool hP hs tool
  | unitClick unit => exact allAnn_redraw_of_eq hP rfl hs
  | windowResize cw ch ow oh => exact allAnn_resizeCanvas_of_eq hP rfl hs
  | previewToggle => exact allAnn_resizeCanvas_of_eq hP rfl hs
  | colorInput color => exact allAnn_of_imagesData_eq rfl hs
  | lineWidthInput width => exact allAnn_of_imagesData_eq rfl hs
  | imageLoaded id naturalWidth naturalHeight => exact allAnn_imageLoaded hP hs _ _
  | thumbClick index => exact allAnn_setActiveImage hP hs _
  | deleteImageClick index => exact allAnn_of_imagesData_eq rfl hs
  | restartClick => exact allAnn_of_imagesData_eq rfl hs
  | clearClick =>
      simp only [step, clearClick]
      split_ifs
      · exact hs
      · exact allAnn_of_imagesData_eq rfl hs
  | alert => exact allAnn_of_imagesData_eq rfl hs
  | confirmOk => exact allAnn_confirmOk hP hs
  | confirmCancel => exact allAnn_of_imagesData_eq rfl hs
  | modalOk value => exact allAnn_modalOk hP hs value
  | modalCancel => exact allAnn_of_imagesData_eq rfl hs
  | listInputChange index value => exact allAnn_listInputChange hP hs index value
  | listDelete index => exact allAnn_listDelete hP hs index
  | undo => exact allAnn_undo hP hs
  | mousedown pos => exact allAnn_mousedown hP M hs pos
  | mousemove pos => exact allAnn_mousemove hP M hs pos
  | mouseup pos => exact allAnn_mouseup hP hs pos
  | mouseleave => exact allAnn_mouseleave hP hs
  | wheel deltaY => cases he

theorem allAnn_step {P : Annotation → Prop} (hP : ZoomProperty P)
    (hw : ∀ (a b : Annotation) (z deltaY : ℚ), a.zoom? = some z →
      b.zoom? = some (max 1 (min (z * zoomChange deltaY) 10)) → P a → P b)
    (M : JsMath) {st : State} (hs : AllAnn P st) (e : Event) : AllAnn P (step M st e) := by
  cases hwe : e.isWheel with
  | false => exact allAnn_step_of_not_wheel hP M hs e hwe
  | true =>
      cases e with
      | wheel deltaY => exact allAnn_wheel hP hw hs deltaY
      | _ => cases hwe

theorem allAnn_initState {P : Annotation → Prop} (cw ch kw kh ow oh : ℚ) (color : String)
    (lw : ℚ) : AllAnn P (initState cw ch kw kh ow oh color lw) := by
  apply allAnn_of_nil
  rfl

theorem allAnn_reachable {P : Annotation → Prop} (hP : ZoomProperty P)
    (hw : ∀ (a b : Annotation) (z deltaY : ℚ), a.zoom? = some z →
      b.zoom? = some (max 1 (min (z * zoomChange deltaY) 10)) → P a → P b)
    (M : JsMath) {st : State} (h : Reachable M st) : AllAnn P st := by
  induction h with
  | init cw ch kw kh ow oh color lw => exact allAnn_initState cw ch kw kh ow oh color lw
  | step e _ ih => exact allAnn_step hP hw M ih e

theorem zoomProperty_zoomInRange : ZoomProperty ZoomInRange where
  congr := by
    intro a b h ha
    cases a <;> cases b <;> simp_all [ Annotation.zoom?, ZoomInRange]
  noZoom := by
    intro a h
    cases a <;> simp_all [ Annotation.zoom?, ZoomInRange]
  created := by
    intro a h
    cases a <;> simp_all [ Annotation.zoom?, ZoomInRange]
    norm_num

theorem zoomInRange_wheel (a b : Annotation) (z deltaY : ℚ) (_ : a.zoom? = some z)
    (hb : b.zoom? = some (max 1 (min (z * zoomChange deltaY) 10))) (_ : ZoomInRange a) :
    ZoomInRange b := by
  cases b with
  | pinned_zoom text pos size zoom color source =>
      have hz : zoom = max 1 (min (z * zoomChange deltaY) 10) := Option.some.inj hb
      rw [ZoomInRange, hz]
      exact ⟨le_max_left _ _, max_le (by norm_num) (min_le_right _ _)⟩
  | _ => trivial

/-! ## Every reachable state is settled -/

theorem settled_iff (st : State) :
    redraw st = st ↔ (Renderable st → ∀ a ∈ getActiveAnnotations st, redrawForEach a = a) := by
  constructor
  · intro hs h
    exact redrawForEach_fixed_of_settled hs h
  · intro hfix
    by_cases h : Renderable st
    · rw [redraw_of_renderable h]
      have : (getActiveAnnotations st).map redrawForEach = getActiveAnnotations st := by
        conv_rhs => rw [← List.map_id (getActiveAnnotations st)]
        apply List.map_congr_left
        intro a ha
        exact hfix h a ha
      rw [this, setActiveAnnotations_self]
    · exact redraw_of_not_renderable h

theorem settled_of_activeData_eq {s t : State} (hs : redraw s = s)
    (h : getActiveImageData t = getActiveImageData s) : redraw t = t := by
  rw [settled_iff] at hs ⊢
  have hr : Renderable t ↔ Renderable s := by
    unfold Renderable getActiveImage
    rw [h]
  have ha : getActiveAnnotations t = getActiveAnnotations s := by
    unfold getActiveAnnotations
    rw [h]
  rw [ha]
  exact fun h1 => hs (hr.mp h1)

theorem settled_of_annotations_nil {t : State} (h : getActiveAnnotations t = []) :
    redraw t = t := by
  rw [settled_iff, h]
  intro _ a ha
  cases ha

theorem settled_resizeCanvas (st : State) : redraw (resizeCanvas st) = resizeCanvas st := by
  unfold resizeCanvas
  cases getActiveImage st with
  | none => exact redraw_redraw _
  | some img =>
      simp only
      split_ifs <;> exact redraw_redraw _

theorem settled_setActiveImage {st : State} (hs : redraw st = st) (index : ℤ) :
    redraw (setActiveImage st index) = setActiveImage st index := by
  unfold setActiveImage
  split_ifs
  · exact hs
  · exact settled_resizeCanvas _

theorem settled_setActiveTool (st : State) (tool : Tool) :
    redraw (setActiveTool st tool) = setActiveTool st tool :=
  redraw_redraw _

theorem getActiveImageData_append_new (st : State) (d : ImageData)
    (hd : d.annotations = []) :
    getActiveImageData { st with imagesData := st.imagesData ++ [d] } = getActiveImageData st ∨
      getActiveAnnotations { st with imagesData := st.imagesData ++ [d] } = [] := by
  by_cases h0 : st.activeImageIndex > -1
  · by_cases hlt : st.activeImageIndex.toNat < st.imagesData.length
    · left
      simp only [getActiveImageData, jsIndex, if_pos h0]
      split_ifs
      · rfl
      · exact List.getElem?_append_left hlt
    · right
      unfold getActiveAnnotations
      cases hget : getActiveImageData { st with imagesData := st.imagesData ++ [d] } with
      | none => rfl
      | some data =>
          have h2 := (getActiveImageData_eq_some hget).2
          simp only at h2
          rw [List.getElem?_append_right (by omega)] at h2
          have : data = d := by
            cases hi : st.activeImageIndex.toNat - st.imagesData.length with
            | zero => rw [hi] at h2; simpa using h2.symm
            | succ n => rw [hi] at h2; simp at h2
          rw [this]
          exact hd
  · left
    simp only [getActiveImageData, if_neg h0]

theorem settled_imageLoaded {st : State} (hs : redraw st = st) (id : ℚ) (img : Image) :
    redraw (imageLoaded st id img) = imageLoaded st id img := by
  unfold imageLoaded
  apply settled_setActiveImage
  rcases getActiveImageData_append_new st { id := id, image := img, annotations := [] } rfl
    with h | h
  · exact settled_of_activeData_eq hs h
  · exact settled_of_annotations_nil h

theorem settled_deleteImageConfirmed (st : State) (index : ℕ) :
    redraw (deleteImageConfirmed st index) = deleteImageConfirmed st index :=
  settled_resizeCanvas _

theorem settled_runModalCallback {st : State} (hs : redraw st = st) (value : String)
    (cb : ModalCallback) : redraw (runModalCallback st value cb) = runModalCallback st value cb := by
  cases cb with
  | zoomText pos => exact settled_setActiveTool _ _
  | textTool pos =>
      simp only [runModalCallback]
      split_ifs
      · exact redraw_redraw _
      · exact hs
  | measureValue start endPos color width =>
      simp only [runModalCallback]
      cases parseFloat value with
      | none => exact redraw_redraw _
      | some v =>
          simp only
          split_ifs <;> exact redraw_redraw _
  | arrowText start endPos color width =>
      simp only [runModalCallback]
      split_ifs <;> exact redraw_redraw _

theorem settled_modalOk {st : State} (hs : redraw st = st) (value : String) :
    redraw (modalOk st value) = modalOk st value := by
  unfold modalOk
  cases st.currentModalCallback with
  | none => exact settled_of_activeData_eq hs rfl
  | some cb => exact settled_of_activeData_eq (settled_runModalCallback hs value cb) rfl

theorem settled_runConfirmCallback {st : State} (hs : redraw st = st) (cb : ConfirmCallback) :
    redraw (runConfirmCallback st cb).state = (runConfirmCallback st cb).state := by
  cases cb with
  | deleteImage index => exact settled_deleteImageConfirmed st index
  | clearCanvas =>
      simp only [runConfirmCallback]
      cases jsIndex st.imagesData st.activeImageIndex with
      | none => exact hs
      | some data => exact redraw_redraw _
  | restart =>
      exact settled_resizeCanvas { st with imagesData := [], activeImageIndex := -1 }
  | noop => exact hs

theorem settled_confirmOk {st : State} (hs : redraw st = st) :
    redraw (confirmOk st).state = (confirmOk st).state := by
  unfold confirmOk
  cases st.currentConfirmCallback with
  | none => exact settled_of_activeData_eq hs rfl
  | some cb =>
      have h := settled_runConfirmCallback hs cb
      simp only
      cases hrun : runConfirmCallback st cb with
      | done s =>
          rw [hrun] at h
          exact settled_of_activeData_eq h rfl
      | typeError s =>
          rw [hrun] at h
          exact h

theorem settled_listInputChange {st : State} (hs : redraw st = st) (index : ℕ)
    (value : String) :
    redraw (listInputChange st index value).state = (listInputChange st index value).state := by
  unfold listInputChange
  cases (getActiveAnnotations st)[index]? with
  | none => exact hs
  | some ann =>
      cases ann with
      | measure start endPos color width v originalUnit =>
          simp only
          cases parseFloat value <;> exact redraw_redraw _
      | arrow start endPos color width text => exact redraw_redraw _
      | text text pos color width => exact redraw_redraw _
      | pinned_zoom text pos size zoom color source => exact redraw_redraw _

theorem settled_undo {st : State} (hs : redraw st = st) : redraw (undo st) = undo st := by
  unfold undo
  split_ifs
  · exact redraw_redraw _
  · exact hs

theorem settled_mousedownSelect (M : JsMath) {st : State} (hs : redraw st = st) (pos : Point)
    (ratio : ℚ) : redraw (mousedownSelect M st pos ratio) = mousedownSelect M st pos ratio := by
  unfold mousedownSelect
  cases hitLoop M (getActiveAnnotations st) ratio pos (getActiveAnnotations st).length with
  | some i => exact redraw_redraw _
  | none =>
      simp only
      split_ifs
      · exact redraw_redraw _
      · exact settled_of_activeData_eq hs rfl

theorem settled_mousedown (M : JsMath) {st : State} (hs : redraw st = st) (pos : Point) :
    redraw (mousedown M st pos).state = (mousedown M st pos).state := by
  unfold mousedown
  split_ifs
  · exact settled_resizeCanvas _
  · exact hs
  · unfold createZoomAnnotation
    cases getActiveImage st with
    | none => exact hs
    | some img => exact settled_of_activeData_eq hs rfl
  · exact settled_of_activeData_eq hs rfl
  · cases jsIndex (getActiveAnnotations st) st.selectedAnnotationIndex with
    | none => exact hs
    | some ann =>
        cases ann with
        | pinned_zoom text annPos size zoom color source =>
            simp only
            split_ifs
            · exact settled_of_activeData_eq hs rfl
            · exact settled_mousedownSelect M hs pos _
        | measure start endPos color width v originalUnit =>
            exact settled_mousedownSelect M hs pos _
        | arrow start endPos color width text => exact settled_mousedownSelect M hs pos _
        | text text p color width => exact settled_mousedownSelect M hs pos _
  · exact settled_mousedownSelect M hs pos _

theorem settled_mousemove (M : JsMath) {st : State} (hs : redraw st = st) (pos : Point) :
    redraw (mousemove M st pos).state = (mousemove M st pos).state := by
  have hs1 : redraw { st with lastMousePos := pos } = { st with lastMousePos := pos } :=
    settled_of_activeData_eq hs rfl
  unfold mousemove
  simp only
  split_ifs
  · cases jsIndex (getActiveAnnotations { st with lastMousePos := pos })
        st.selectedAnnotationIndex with
    | none => exact hs1
    | some ann =>
        cases getActiveImage { st with lastMousePos := pos } with
        | none => cases ann <;> exact hs1
        | some img =>
            cases ann with
            | measure start endPos color width v originalUnit => exact hs1
            | arrow start endPos color width text => exact hs1
            | text text p color width => exact redraw_redraw _
            | pinned_zoom text annPos size zoom color source => exact redraw_redraw _
  · exact hs1
  · exact redraw_redraw _

theorem settled_mouseup {st : State} (hs : redraw st = st) (pos : Point) :
    redraw (mouseup st pos) = mouseup st pos := by
  unfold mouseup
  split_ifs
  · exact settled_of_activeData_eq hs rfl
  · exact hs
  · simp only
    cases st.currentTool with
    | measure => exact settled_of_activeData_eq hs rfl
    | arrow => exact settled_of_activeData_eq hs rfl
    | text => exact redraw_redraw _
    | zoom_annotation => exact redraw_redraw _

theorem settled_mouseleave {st : State} (hs : redraw st = st) :
    redraw (mouseleave st) = mouseleave st := by
  unfold mouseleave
  simp only
  split_ifs
  · exact redraw_redraw _
  · exact redraw_redraw _
  · exact redraw_redraw _
  · exact hs

theorem settled_wheel {st : State} (hs : redraw st = st) (deltaY : ℚ) :
    redraw (wheel st deltaY).state = (wheel st deltaY).state := by
  unfold wheel
  split_ifs
  · cases jsIndex (getActiveAnnotations st) st.selectedAnnotationIndex with
    | none => exact hs
    | some ann => cases ann <;> first | exact hs | exact redraw_redraw _
  · exact hs

theorem settled_step (M : JsMath) {st : State} (hs : redraw st = st) (e : Event) :
    redraw (step M st e) = step M st e := by
  cases e with
  | toolClick tool => exact redraw_redraw _
  | unitClick unit => exact redraw_redraw _
  | windowResize cw ch ow oh => exact settled_resizeCanvas _
  | previewToggle => exact settled_resizeCanvas _
  | colorInput color => exact settled_of_activeData_eq hs rfl
  | lineWidthInput width => exact settled_of_activeData_eq hs rfl
  | imageLoaded id naturalWidth naturalHeight => exact settled_imageLoaded hs _ _
  | thumbClick index => exact settled_setActiveImage hs _
  | deleteImageClick index => exact settled_of_activeData_eq hs rfl
  | restartClick => exact settled_of_activeData_eq hs rfl
  | clearClick =>
      simp only [step, clearClick]
      split_ifs
      · exact hs
      · exact settled_of_activeData_eq hs rfl
  | alert => exact settled_of_activeData_eq hs rfl
  | confirmOk => exact settled_confirmOk hs
  | confirmCancel => exact settled_of_activeData_eq hs rfl
  | modalOk value => exact settled_modalOk hs value
  | modalCancel => exact settled_of_activeData_eq hs rfl
  | listInputChange index value => exact settled_listInputChange hs index value
  | listDelete index => exact redraw_redraw _
  | undo => exact settled_undo hs
  | mousedown pos => exact settled_mousedown M hs pos
  | mousemove pos => exact settled_mousemove M hs pos
  | mouseup pos => exact settled_mouseup hs pos
  | mouseleave => exact settled_mouseleave hs
  | wheel deltaY => exact settled_wheel hs deltaY

theorem reachable_settled (M : JsMath) {st : State} (h : Reachable M st) : redraw st = st := by
  induction h with
  | init cw ch kw kh ow oh color lw =>
      unfold initState setDisplayUnit
      exact redraw_redraw _
  | step e _ ih => exact settled_step M ih e

/-! ## A sample session -/

theorem sessionStart_eq :
    sessionStart = { sampleState [] (-1) with
      imagesData := [], activeImageIndex := -1, currentTool := .measure,
      canvasWidth := 300, canvasHeight := 150 } := rfl

theorem session_step1 :
    step refMath sessionStart (.imageLoaded 1 200 100) = sessionLoaded := by
  rw [sessionStart_eq]
  simp only [step, imageLoaded, setActiveImage, resizeCanvas, sampleState, sessionLoaded]
  norm_num [getActiveImage, getActiveImageData, jsIndex, redraw, setActiveAnnotations,
    getActiveAnnotations]

theorem session_step2 :
    step refMath sessionLoaded (.toolClick Tool.zoom_annotation) = sessionZoomTool := rfl

theorem session_step3 :
    step refMath sessionZoomTool (.mousedown ⟨20, 30⟩) = sessionDialog := by
  simp only [step, mousedown, createZoomAnnotation, showInputModal, sampleState,
    sessionZoomTool, sessionDialog]
  norm_num [getActiveImage, getActiveImageData, jsIndex, getOriginalPos, Outcome.state]

theorem session_step4 :
    step refMath sessionDialog (.modalOk "z") = sampleState [createdZoom] (-1) := by
  simp only [step, modalOk, runModalCallback, setActiveTool, hideInputModal, sampleState,
    createdZoom, sessionDialog, sessionZoomTool]
  norm_num [getActiveImage, getActiveImageData, jsIndex, redraw, setActiveAnnotations,
    getActiveAnnotations, redrawForEach]
  decide

theorem session_step5 :
    step refMath (sampleState [createdZoom] (-1)) (.mousedown ⟨20, 30⟩) =
      sampleState [createdZoom] 0 := by
  simp only [step, mousedown, mousedownSelect, sampleState, createdZoom]
  simp [getActiveImage, getActiveImageData, jsIndex, redraw, setActiveAnnotations,
    getActiveAnnotations, redrawForEach, hitLoop, refMath, Outcome.state]
  norm_num

theorem run_selectSession :
    run refMath sessionStart selectSession = sampleState [createdZoom] 0 := by
  simp only [run, selectSession, List.foldl_cons, List.foldl_nil, session_step1,
    session_step2, session_step3, session_step4, session_step5]

theorem reachable_run (M : JsMath) (events : List Event) :
    ∀ st, Reachable M st → Reachable M (run M st events) := by
  induction events with
  | nil => exact fun st h => h
  | cons e es ih => exact fun st h => ih (step M st e) (Reachable.step e h)

theorem reachable_sessionStart : Reachable refMath sessionStart :=
  Reachable.init 300 150 100 100 100 100 "#ff0000" 3

theorem run_append (M : JsMath) (st : State) (es fs : List Event) :
    run M st (es ++ fs) = run M (run M st es) fs := by
  simp [run, List.foldl_append]

theorem session_undo :
    step refMath (sampleState [createdZoom] 0) .undo = sampleState [] 0 := by
  simp only [step, undo, sampleState, createdZoom]
  norm_num [getActiveImage, getActiveImageData, jsIndex, redraw, setActiveAnnotations,
    getActiveAnnotations, redrawForEach]

theorem run_undoSession : run refMath sessionStart undoSession = sampleState [] 0 := by
  rw [undoSession, run_append, run_selectSession]
  exact session_undo

theorem rat_sqrt_zero : Rat.sqrt 0 = 0 := by decide

theorem session_grab :
    step refMath (sampleState [createdZoom] 0) (.mousedown ⟨37213 / 800, 45213 / 800⟩) =
      sessionResizing := by
  simp only [step, mousedown, sampleState, createdZoom, sessionResizing]
  simp [getActiveImage, getActiveImageData, jsIndex, getActiveAnnotations, getResizeHandle,
    refMath, Outcome.state]
  norm_num

theorem session_collapse :
    step refMath sessionResizing (.mousemove ⟨20, 30⟩) = sessionCollapsed := by
  simp only [step, mousemove, sampleState, createdZoom, sessionResizing, sessionCollapsed,
    collapsedZoom]
  simp [getActiveImage, getActiveImageData, jsIndex, getActiveAnnotations, redraw,
    setActiveAnnotations, redrawForEach, refMath, Outcome.state]
  norm_num [rat_sqrt_zero]

theorem run_resizeSession : run refMath sessionStart resizeSession = sessionCollapsed := by
  rw [resizeSession, run_append, run_selectSession]
  simp only [run, List.foldl_cons, List.foldl_nil, session_grab, session_collapse]

/-! ## Selection after a delete (C7) -/

theorem session_delete :
    step refMath (sampleState [createdZoom] 0) (.listDelete 0) = sampleState [] 0 := by
  simp only [step, listDelete, sampleState, createdZoom]
  norm_num [getActiveImage, getActiveImageData, jsIndex, redraw, setActiveAnnotations,
    getActiveAnnotations, redrawForEach]

theorem run_deleteSession : run refMath sessionStart deleteSession = sampleState [] 0 := by
  rw [deleteSession, run_append, run_selectSession]
  exact session_delete

/-- C7, the code on the failing session: an image is loaded, a pinned zoom is
created and selected by a click on it (`selectedAnnotationIndex = 0`, and the
lookup finds it); its delete button then empties the list and leaves
`selectedAnnotationIndex = 0`, not `-1`, so the lookup of the selection is
`undefined` and the next wheel event throws on reading its `type`. -/
theorem listDelete_keeps_selection :
    (run refMath sessionStart selectSession).selectedAnnotationIndex = 0 ∧
      selectedLookup (run refMath sessionStart selectSession) = some createdZoom ∧
      Reachable refMath (run refMath sessionStart deleteSession) ∧
      getActiveAnnotations (run refMath sessionStart deleteSession) = [] ∧
      (run refMath sessionStart deleteSession).selectedAnnotationIndex = 0 ∧
      selectedLookup (run refMath sessionStart deleteSession) = none ∧
      wheel (run refMath sessionStart deleteSession) 1 =
        .typeError (run refMath sessionStart deleteSession) := by
  rw [run_selectSession, run_deleteSession]
  exact ⟨rfl, rfl, run_deleteSession ▸ reachable_run _ _ _ reachable_sessionStart,
    rfl, rfl, rfl, rfl⟩

/-! ## Zoom of a pinned zoom (C9) -/

theorem lastZoom_redraw (st : State) : lastZoom (redraw st) = lastZoom st := by
  unfold lastZoom
  rcases getActiveAnnotations_redraw_cases st with h | h
  · rw [h]
  · rw [h, List.getLast?_map]
    cases (getActiveAnnotations st).getLast? with
    | none => rfl
    | some a => exact zoom?_redrawForEach a

theorem lastZoom_modalOk_zoomText (st : State) (value : String) (pos : Point)
    (hcb : st.currentModalCallback = some (.zoomText pos))
    (ha : getActiveImageData st ≠ none) : lastZoom (modalOk st value) = some 3 := by
  unfold modalOk
  rw [hcb]
  show lastZoom (setActiveTool (redraw _) .arrow) = some 3
  unfold setActiveTool
  rw [lastZoom_redraw]
  show lastZoom (redraw _) = some 3
  rw [lastZoom_redraw]
  unfold lastZoom
  rw [getActiveAnnotations_setActiveAnnotations, if_neg ha, List.getLast?_concat]
  rfl

theorem getElem?_of_selectedLookup {st : State} {a : Annotation}
    (h : selectedLookup st = some a) :
    (getActiveAnnotations st)[st.selectedAnnotationIndex.toNat]? = some a ∧
      ¬ st.selectedAnnotationIndex < 0 := by
  unfold selectedLookup jsIndex at h
  split_ifs at h with h0
  exact ⟨h, h0⟩

theorem selectedLookup_set_redraw {st : State} {a : Annotation}
    (h : selectedLookup st = some a) (b : Annotation) :
    selectedLookup (redraw (setActiveAnnotations st
        ((getActiveAnnotations st).set st.selectedAnnotationIndex.toNat b))) = some b ∨
      selectedLookup (redraw (setActiveAnnotations st
        ((getActiveAnnotations st).set st.selectedAnnotationIndex.toNat b))) =
          some (redrawForEach b) := by
  obtain ⟨hget, h0⟩ := getElem?_of_selectedLookup h
  have hne : getActiveAnnotations st ≠ [] := by
    intro hnil
    rw [hnil] at hget
    cases hget
  have hlt : st.selectedAnnotationIndex.toNat < (getActiveAnnotations st).length := by
    by_contra hcon
    rw [List.getElem?_eq_none (by omega)] at hget
    cases hget
  have hsel : (redraw (setActiveAnnotations st
      ((getActiveAnnotations st).set st.selectedAnnotationIndex.toNat b))).selectedAnnotationIndex
        = st.selectedAnnotationIndex := by
    rw [redraw_selectedAnnotationIndex]
    obtain ⟨l, hl⟩ := setActiveAnnotations_fields st
      ((getActiveAnnotations st).set st.selectedAnnotationIndex.toNat b)
    rw [hl]
  have hset : (getActiveAnnotations (setActiveAnnotations st
      ((getActiveAnnotations st).set st.selectedAnnotationIndex.toNat b)))[
        st.selectedAnnotationIndex.toNat]? = some b := by
    rw [getActiveAnnotations_set_of_ne_nil hne, List.getElem?_set, if_pos rfl, if_pos hlt]
  unfold selectedLookup jsIndex
  rw [hsel, if_neg h0]
  rcases getActiveAnnotations_redraw_cases (setActiveAnnotations st
      ((getActiveAnnotations st).set st.selectedAnnotationIndex.toNat b)) with hr | hr
  · left
    rw [hr, hset]
  · right
    rw [hr, List.getElem?_map, hset]
    rfl

theorem wheel_of_selected_zoom {st : State} {text : String} {pos : Point} {size zoom : ℚ}
    {color : String} {src : Option Rect}
    (h : selectedLookup st = some ( Annotation.pinned_zoom text pos size zoom color src))
    (deltaY : ℚ) :
    wheel st deltaY = .done (redraw (setActiveAnnotations st ((getActiveAnnotations st).set
      st.selectedAnnotationIndex.toNat
      ( Annotation.pinned_zoom text pos size (max 1 (min (zoom * zoomChange deltaY) 10)) color
        src)))) := by
  have hsel : st.selectedAnnotationIndex ≠ -1 := by
    intro h1
    have := (getElem?_of_selectedLookup h).2
    omega
  unfold wheel
  rw [if_pos hsel]
  unfold selectedLookup at h
  rw [h]

theorem zoomChange_values (deltaY : ℚ) :
    zoomChange deltaY = 9 / 10 ∨ zoomChange deltaY = 11 / 10 := by
  unfold zoomChange
  split_ifs
  · left; norm_num
  · right; norm_num

/-- C9: in every reachable state every pinned zoom of every image has
`1 ≤ zoom ≤ 10`; the pinned zoom pushed by the creation callback has `zoom = 3`;
a wheel step on a selected pinned zoom replaces its zoom by
`max(1, min(zoom * f, 10))` with `f = 0.9` or `f = 1.1` and keeps its other
properties; and after any event other than a wheel step every zoom in the state
is 3 or a zoom that was already in the state. -/
theorem zoom_in_range (M : JsMath) :
    (∀ st, Reachable M st → AllAnn ZoomInRange st) ∧
    (∀ (st : State) (value : String) (pos : Point),
      st.currentModalCallback = some (.zoomText pos) → getActiveImageData st ≠ none →
      lastZoom (modalOk st value) = some 3) ∧
    (∀ (st : State) (deltaY : ℚ) (text : String) (pos : Point) (size zoom : ℚ)
        (color : String) (src : Option Rect),
      selectedLookup st = some ( Annotation.pinned_zoom text pos size zoom color src) →
      (zoomChange deltaY = 9 / 10 ∨ zoomChange deltaY = 11 / 10) ∧
      ∃ src2, selectedLookup (wheel st deltaY).state =
        some ( Annotation.pinned_zoom text pos size
          (max 1 (min (zoom * zoomChange deltaY) 10)) color src2)) ∧
    (∀ (st : State) (e : Event), e.isWheel = false →
      AllAnn (fun a => a.zoom? = none ∨ a.zoom? = some 3 ∨
        ∃ data ∈ st.imagesData, ∃ b ∈ data.annotations, b.zoom? = a.zoom?) (step M st e)) := by
  refine ⟨fun st h => allAnn_reachable zoomProperty_zoomInRange zoomInRange_wheel M h,
    fun st value pos hcb ha => lastZoom_modalOk_zoomText st value pos hcb ha, ?_, ?_⟩
  · intro st deltaY text pos size zoom color src h
    refine ⟨zoomChange_values deltaY, ?_⟩
    rw [wheel_of_selected_zoom h]
    rcases selectedLookup_set_redraw h ( Annotation.pinned_zoom text pos size
      (max 1 (min (zoom * zoomChange deltaY) 10)) color src) with h1 | h1
    · exact ⟨_, h1⟩
    · exact ⟨_, h1⟩
  · intro st e he
    refine allAnn_step_of_not_wheel ?_ M ?_ e he
    · constructor
      · intro a b hab ha
        rw [← hab]
        exact ha
      · intro a ha
        exact Or.inl ha
      · intro a ha
        exact Or.inr (Or.inl ha)
    · intro data hd a ha
      exact Or.inr (Or.inr ⟨data, hd, a, ha, rfl⟩)

/-! ## Validity of the selection (C8) -/

/-- C8, the code on the failing session: after an image is loaded, a pinned zoom is
created and then selected by a click on it, the selection is valid
(`selectedAnnotationIndex = 0`, one annotation); one undo later the state is still
reachable, the list is empty and `selectedAnnotationIndex` is still 0, so the
lookup `annotations[selectedAnnotationIndex]` is `undefined` and both the wheel and
the mousedown handler throw on reading its `type`. -/
theorem selection_stale_after_undo :
    Reachable refMath (run refMath sessionStart selectSession) ∧
      SelectionValid (run refMath sessionStart selectSession) ∧
      Reachable refMath (run refMath sessionStart undoSession) ∧
      (run refMath sessionStart undoSession).selectedAnnotationIndex = 0 ∧
      getActiveAnnotations (run refMath sessionStart undoSession) = [] ∧
      ¬ SelectionValid (run refMath sessionStart undoSession) ∧
      selectedLookup (run refMath sessionStart undoSession) = none ∧
      wheel (run refMath sessionStart undoSession) 1 =
        .typeError (run refMath sessionStart undoSession) ∧
      mousedown refMath (run refMath sessionStart undoSession) ⟨20, 30⟩ =
        .typeError (run refMath sessionStart undoSession) := by
  refine ⟨reachable_run _ _ _ reachable_sessionStart, ?_,
    reachable_run _ _ _ reachable_sessionStart, ?_⟩
  · rw [run_selectSession]
    right
    rw [getActiveAnnotations_sampleState]
    exact ⟨le_refl _, by decide⟩
  · rw [run_undoSession]
    refine ⟨rfl, rfl, ?_, rfl, rfl, rfl⟩
    unfold SelectionValid
    rw [getActiveAnnotations_sampleState]
    decide

/-- C9 on the sample session, whose state holds the created pinned zoom. -/
theorem zoom_in_range_witness :
    Reachable refMath (run refMath sessionStart selectSession) ∧
      AllAnn ZoomInRange (run refMath sessionStart selectSession) :=
  ⟨reachable_run _ _ _ reachable_sessionStart,
    (zoom_in_range refMath).1 _ (reachable_run _ _ _ reachable_sessionStart)⟩

/-! ## Size of a pinned zoom while resizing (C10) -/

theorem mousemove_of_resizing (M : JsMath) {st : State} (p : Point) {text : String}
    {pos : Point} {size zoom : ℚ} {color : String} {src : Option Rect} {img : Image}
    (hres : st.isResizing = true)
    (hsel : selectedLookup st = some ( Annotation.pinned_zoom text pos size zoom color src))
    (himg : getActiveImage st = some img) :
    mousemove M st p =
      .done (redraw (setActiveAnnotations { st with lastMousePos := p }
        ((getActiveAnnotations { st with lastMousePos := p }).set
          st.selectedAnnotationIndex.toNat
          ( Annotation.pinned_zoom text pos
            (M.sqrt ((p.x - pos.x * (st.canvasWidth / img.naturalWidth)) *
                (p.x - pos.x * (st.canvasWidth / img.naturalWidth)) +
              (p.y - pos.y * (st.canvasWidth / img.naturalWidth)) *
                (p.y - pos.y * (st.canvasWidth / img.naturalWidth))) * 2 /
              (st.canvasWidth / img.naturalWidth))
            zoom color src)))) := by
  have hne : st.selectedAnnotationIndex ≠ -1 := by
    intro h1
    have := (getElem?_of_selectedLookup hsel).2
    omega
  have h1 : jsIndex (getActiveAnnotations { st with lastMousePos := p })
      st.selectedAnnotationIndex =
        some ( Annotation.pinned_zoom text pos size zoom color src) := hsel
  have h2 : getActiveImage { st with lastMousePos := p } = some img := himg
  unfold mousemove
  simp only
  rw [if_pos ⟨hres, hne⟩, h1, h2]

/-- C10 as stated fails: in the sample session the resize handle of the selected
pinned zoom is pressed and the pointer is moved to the centre of the annotation;
the state is reachable, still resizing, and the size of the annotation is 0. -/
theorem resize_to_centre_counterexample :
    Reachable refMath (run refMath sessionStart resizeSession) ∧
      (run refMath sessionStart resizeSession).isResizing = true ∧
      ∃ size : ℚ,
        (selectedLookup (run refMath sessionStart resizeSession)).bind Annotation.size? =
          some size ∧ ¬ 0 < size := by
  refine ⟨reachable_run _ _ _ reachable_sessionStart, ?_, 0, ?_, lt_irrefl 0⟩
  · rw [run_resizeSession]
    rfl
  · rw [run_resizeSession]
    rfl

/-- C10, amended: after a resizing pointer-move with a positive ratio the size of
the selected pinned zoom is `2 * sqrt(dx² + dy²) / ratio` for the offset `(dx, dy)`
of the pointer from the displayed centre; it is never negative, and it is 0 when
the pointer is exactly at the centre: no positive minimum is enforced. -/
theorem resize_size_nonneg (M : JsMath) (hsqrt : ∀ x, 0 ≤ M.sqrt x) (st : State) (p : Point)
    (text : String) (pos : Point) (size zoom : ℚ) (color : String) (src : Option Rect)
    (img : Image) (hres : st.isResizing = true)
    (hsel : selectedLookup st = some ( Annotation.pinned_zoom text pos size zoom color src))
    (himg : getActiveImage st = some img) (hr : 0 < st.canvasWidth / img.naturalWidth) :
    ∃ (newSize : ℚ) (src2 : Option Rect),
      selectedLookup (mousemove M st p).state =
          some ( Annotation.pinned_zoom text pos newSize zoom color src2) ∧
        newSize =
          M.sqrt ((p.x - pos.x * (st.canvasWidth / img.naturalWidth)) *
                (p.x - pos.x * (st.canvasWidth / img.naturalWidth)) +
              (p.y - pos.y * (st.canvasWidth / img.naturalWidth)) *
                (p.y - pos.y * (st.canvasWidth / img.naturalWidth))) * 2 /
            (st.canvasWidth / img.naturalWidth) ∧
        0 ≤ newSize ∧
        (M.sqrt 0 = 0 → p.x = pos.x * (st.canvasWidth / img.naturalWidth) →
          p.y = pos.y * (st.canvasWidth / img.naturalWidth) → newSize = 0) := by
  have hsel1 : selectedLookup { st with lastMousePos := p } =
      some ( Annotation.pinned_zoom text pos size zoom color src) := hsel
  rw [mousemove_of_resizing M p hres hsel himg]
  have hcases := selectedLookup_set_redraw hsel1 ( Annotation.pinned_zoom text pos
    (M.sqrt ((p.x - pos.x * (st.canvasWidth / img.naturalWidth)) *
        (p.x - pos.x * (st.canvasWidth / img.naturalWidth)) +
      (p.y - pos.y * (st.canvasWidth / img.naturalWidth)) *
        (p.y - pos.y * (st.canvasWidth / img.naturalWidth))) * 2 /
      (st.canvasWidth / img.naturalWidth)) zoom color src)
  have hnonneg : 0 ≤ M.sqrt ((p.x - pos.x * (st.canvasWidth / img.naturalWidth)) *
        (p.x - pos.x * (st.canvasWidth / img.naturalWidth)) +
      (p.y - pos.y * (st.canvasWidth / img.naturalWidth)) *
        (p.y - pos.y * (st.canvasWidth / img.naturalWidth))) * 2 /
      (st.canvasWidth / img.naturalWidth) :=
    div_nonneg (mul_nonneg (hsqrt _) (by norm_num)) (le_of_lt hr)
  have hzero : M.sqrt 0 = 0 → p.x = pos.x * (st.canvasWidth / img.naturalWidth) →
      p.y = pos.y * (st.canvasWidth / img.naturalWidth) →
      M.sqrt ((p.x - pos.x * (st.canvasWidth / img.naturalWidth)) *
        (p.x - pos.x * (st.canvasWidth / img.naturalWidth)) +
      (p.y - pos.y * (st.canvasWidth / img.naturalWidth)) *
        (p.y - pos.y * (st.canvasWidth / img.naturalWidth))) * 2 /
      (st.canvasWidth / img.naturalWidth) = 0 := by
    intro h0 hx hy
    rw [hx, hy]
    simp [h0]
  rcases hcases with h | h
  · exact ⟨_, src, h, rfl, hnonneg, hzero⟩
  · exact ⟨_, _, h, rfl, hnonneg, hzero⟩

/-- C10, amended, on the resizing state of the sample session with the pointer
moved to canvas point (20, 70). -/
theorem resize_size_nonneg_witness :
    sessionResizing.isResizing = true ∧
      selectedLookup sessionResizing = some createdZoom ∧
      getActiveImage sessionResizing = some sampleImage ∧
      (0 : ℚ) < sessionResizing.canvasWidth / sampleImage.naturalWidth ∧
      ∃ (newSize : ℚ) (src2 : Option Rect),
        selectedLookup (mousemove refMath sessionResizing ⟨20, 70⟩).state =
          some ( Annotation.pinned_zoom "z" ⟨40, 60⟩ newSize 3 "#ff0000" src2) ∧
        0 ≤ newSize :=
  have hr : (0 : ℚ) < sessionResizing.canvasWidth / sampleImage.naturalWidth := by
    norm_num [sessionResizing, sampleState, sampleImage]
  have h := resize_size_nonneg refMath Rat.sqrt_nonneg sessionResizing ⟨20, 70⟩ "z" ⟨40, 60⟩
    150 3 "#ff0000" (some ⟨15, 35, 50, 50⟩) sampleImage rfl rfl rfl hr
  ⟨rfl, rfl, rfl, hr, h.choose, h.choose_spec.choose, h.choose_spec.choose_spec.1,
    h.choose_spec.choose_spec.2.2.1⟩

/-! ## Selection by mousedown (C11) -/

theorem hitLoop_succ (M : JsMath) (annotations : List Annotation) (ratio : ℚ)
    (pos : Point) (n : ℕ) :
    (HitsZoom M annotations ratio pos n → hitLoop M annotations ratio pos (n + 1) = some n) ∧
      (¬ HitsZoom M annotations ratio pos n →
        hitLoop M annotations ratio pos (n + 1) = hitLoop M annotations ratio pos n) := by
  cases hget : annotations[n]? with
  | none =>
      refine ⟨?_, fun _ => by simp only [hitLoop, hget]⟩
      rintro ⟨t, p, s, z, c, src, he, _⟩
      rw [hget] at he
      cases he
  | some ann =>
      cases ann with
      | pinned_zoom text annPos size zoom color source =>
          have heq : size * ratio / 2 = size / 2 * ratio := by ring
          constructor
          · rintro ⟨t, p, s, z, c, src, he, hl⟩
            rw [hget] at he
            cases he
            simp only [hitLoop, hget, heq, if_pos hl]
          · intro hno
            have hnl : ¬ M.sqrt ((pos.x - annPos.x * ratio) * (pos.x - annPos.x * ratio) +
                (pos.y - annPos.y * ratio) * (pos.y - annPos.y * ratio)) <
                  size / 2 * ratio :=
              fun hl => hno ⟨text, annPos, size, zoom, color, source, hget, hl⟩
            simp only [hitLoop, hget, heq, if_neg hnl]
      | measure start endPos color width v originalUnit =>
          refine ⟨?_, fun _ => by simp only [hitLoop, hget]⟩
          rintro ⟨t, p, s, z, c, src, he, _⟩
          rw [hget] at he
          cases he
      | arrow start endPos color width text =>
          refine ⟨?_, fun _ => by simp only [hitLoop, hget]⟩
          rintro ⟨t, p, s, z, c, src, he, _⟩
          rw [hget] at he
          cases he
      | text text p color width =>
          refine ⟨?_, fun _ => by simp only [hitLoop, hget]⟩
          rintro ⟨t, p, s, z, c, src, he, _⟩
          rw [hget] at he
          cases he

theorem hitLoop_none (M : JsMath) (annotations : List Annotation) (ratio : ℚ)
    (pos : Point) (n : ℕ) (h : ∀ j, j < n → ¬ HitsZoom M annotations ratio pos j) :
    hitLoop M annotations ratio pos n = none := by
  induction n with
  | zero => rfl
  | succ n ih =>
      rw [(hitLoop_succ M annotations ratio pos n).2 (h n (Nat.lt_succ_self n))]
      exact ih fun j hj => h j (Nat.lt_succ_of_lt hj)

theorem hitLoop_some (M : JsMath) (annotations : List Annotation) (ratio : ℚ)
    (pos : Point) (n i : ℕ) (hi : i < n) (hhit : HitsZoom M annotations ratio pos i)
    (htop : ∀ j, i < j → j < n → ¬ HitsZoom M annotations ratio pos j) :
    hitLoop M annotations ratio pos n = some i := by
  induction n with
  | zero => exact absurd hi (Nat.not_lt_zero i)
  | succ n ih =>
      rcases Nat.lt_succ_iff_lt_or_eq.mp hi with h1 | h1
      · rw [(hitLoop_succ M annotations ratio pos n).2 (htop n h1 (Nat.lt_succ_self n))]
        exact ih h1 fun j hij hj => htop j hij (Nat.lt_succ_of_lt hj)
      · subst h1
        exact (hitLoop_succ M annotations ratio pos i).1 hhit

theorem hitsZoom_lt_length {M : JsMath} {annotations : List Annotation} {ratio : ℚ}
    {pos : Point} {i : ℕ} (h : HitsZoom M annotations ratio pos i) :
    i < annotations.length := by
  obtain ⟨t, p, s, z, c, src, he, _⟩ := h
  by_contra hcon
  rw [List.getElem?_eq_none (by omega)] at he
  cases he

theorem mousedown_of_noHandleHit (M : JsMath) (st : State) (pos : Point)
    (hprev : st.previewMode = false) (hact : st.activeImageIndex ≠ -1)
    (htool : st.currentTool = .measure ∨ st.currentTool = .arrow)
    (hno : NoHandleHit M st pos) :
    mousedown M st pos = .done (mousedownSelect M st pos (mousedownRatio st)) := by
  have ht1 : st.currentTool ≠ Tool.zoom_annotation := by
    rcases htool with h | h <;> rw [h] <;> decide
  have ht2 : st.currentTool ≠ .text := by
    rcases htool with h | h <;> rw [h] <;> decide
  unfold mousedown
  rw [if_neg (by simp [hprev]), if_neg hact, if_neg ht1, if_neg ht2]
  show (if st.selectedAnnotationIndex ≠ -1 then _ else _) = _
  rcases hno with hsel | ⟨ann, hlook, hmiss⟩
  · rw [if_neg (by simp [hsel])]
    rfl
  · by_cases hsel : st.selectedAnnotationIndex ≠ -1
    · rw [if_pos hsel]
      unfold selectedLookup at hlook
      rw [hlook]
      cases ann with
      | pinned_zoom text annPos size zoom color source =>
          exact if_neg (hmiss text annPos size zoom color source rfl)
      | measure start endPos color width v originalUnit => rfl
      | arrow start endPos color width text => rfl
      | text text p color width => rfl
    · rw [if_neg hsel]
      rfl

theorem mousedownSelect_selectedAnnotationIndex (M : JsMath) (st : State) (pos : Point)
    (ratio : ℚ) :
    (mousedownSelect M st pos ratio).selectedAnnotationIndex =
      match hitLoop M (getActiveAnnotations st) ratio pos (getActiveAnnotations st).length with
      | some i => (i : ℤ)
      | none => -1 := by
  unfold mousedownSelect
  cases hitLoop M (getActiveAnnotations st) ratio pos (getActiveAnnotations st).length with
  | some i => exact redraw_selectedAnnotationIndex _
  | none =>
      simp only
      split_ifs
      · exact redraw_selectedAnnotationIndex _
      · rfl

/-- C11: on a mousedown with the measure or arrow tool active (an image active, no
preview mode) whose resize-handle check ends without a hit, the selection becomes
the greatest index whose annotation is a pinned zoom with the pointer strictly
inside its displayed circle (distance to `pos * ratio` below `size / 2 * ratio`),
and `-1` when no index is one: of several circles holding the pointer the last
inserted wins. -/
theorem mousedown_selects_topmost (M : JsMath) (st : State) (pos : Point)
    (hprev : st.previewMode = false) (hact : st.activeImageIndex ≠ -1)
    (htool : st.currentTool = .measure ∨ st.currentTool = .arrow)
    (hno : NoHandleHit M st pos) :
    (∀ i : ℕ, HitsZoom M (getActiveAnnotations st) (mousedownRatio st) pos i →
      (∀ j, i < j → ¬ HitsZoom M (getActiveAnnotations st) (mousedownRatio st) pos j) →
      (mousedown M st pos).state.selectedAnnotationIndex = (i : ℤ)) ∧
    ((∀ i : ℕ, ¬ HitsZoom M (getActiveAnnotations st) (mousedownRatio st) pos i) →
      (mousedown M st pos).state.selectedAnnotationIndex = -1) := by
  rw [mousedown_of_noHandleHit M st pos hprev hact htool hno]
  constructor
  · intro i hhit htop
    show (mousedownSelect M st pos (mousedownRatio st)).selectedAnnotationIndex = _
    rw [mousedownSelect_selectedAnnotationIndex,
      hitLoop_some M _ _ _ _ i (hitsZoom_lt_length hhit) hhit (fun j hij _ => htop j hij)]
  · intro hnone
    show (mousedownSelect M st pos (mousedownRatio st)).selectedAnnotationIndex = _
    rw [mousedownSelect_selectedAnnotationIndex, hitLoop_none M _ _ _ _ (fun j _ => hnone j)]

theorem hitsZoom_sample_top :
    HitsZoom refMath (getActiveAnnotations (sampleState [createdZoom, sampleZoom] (-1)))
      (mousedownRatio (sampleState [createdZoom, sampleZoom] (-1))) ⟨20, 30⟩ 1 := by
  refine ⟨"z", ⟨40, 60⟩, 90, 3, "c", some ⟨25, 45, 30, 30⟩, rfl, ?_⟩
  have hr : mousedownRatio (sampleState [createdZoom, sampleZoom] (-1)) = 1 / 2 := by
    unfold mousedownRatio
    rw [getActiveImage_sampleState]
    norm_num [sampleImage, sampleState]
  rw [hr]
  norm_num [refMath, rat_sqrt_zero]

theorem not_hitsZoom_sample_above (j : ℕ) (hj : 1 < j) :
    ¬ HitsZoom refMath (getActiveAnnotations (sampleState [createdZoom, sampleZoom] (-1)))
      (mousedownRatio (sampleState [createdZoom, sampleZoom] (-1))) ⟨20, 30⟩ j := by
  intro h
  have := hitsZoom_lt_length h
  rw [getActiveAnnotations_sampleState] at this
  simp only [List.length_cons, List.length_nil] at this
  omega

/-- C11 on two pinned zooms that both hold the pointer: the later one is selected. -/
theorem mousedown_selects_topmost_witness :
    (sampleState [createdZoom, sampleZoom] (-1)).previewMode = false ∧
      (sampleState [createdZoom, sampleZoom] (-1)).activeImageIndex ≠ -1 ∧
      NoHandleHit refMath (sampleState [createdZoom, sampleZoom] (-1)) ⟨20, 30⟩ ∧
      (mousedown refMath (sampleState [createdZoom, sampleZoom] (-1))
        ⟨20, 30⟩).state.selectedAnnotationIndex = 1 :=
  ⟨rfl, by decide, Or.inl rfl,
    (mousedown_selects_topmost refMath (sampleState [createdZoom, sampleZoom] (-1)) ⟨20, 30⟩
      rfl (by decide) (Or.inr rfl) (Or.inl rfl)).1 1 hitsZoom_sample_top
      not_hitsZoom_sample_above⟩

/-! ## Resizing a pinned zoom (C13) -/

theorem redraw_set_of_settled {st : State} (hs : redraw st = st) (i : ℕ) (b : Annotation) :
    ∃ b2, (b2 = b ∨ b2 = redrawForEach b) ∧
      redraw (setActiveAnnotations st ((getActiveAnnotations st).set i b)) =
        setActiveAnnotations st ((getActiveAnnotations st).set i b2) := by
  by_cases h : Renderable st
  · refine ⟨redrawForEach b, Or.inr rfl, ?_⟩
    have h2 : Renderable (setActiveAnnotations st ((getActiveAnnotations st).set i b)) :=
      (renderable_setActiveAnnotations st _).mpr h
    rw [redraw_of_renderable h2, setActiveAnnotations_twice,
      getActiveAnnotations_setActiveAnnotations,
      if_neg (getActiveImageData_ne_none_of_renderable h), List.map_set]
    have hfix := redrawForEach_fixed_of_settled hs h
    have hmap : (getActiveAnnotations st).map redrawForEach = getActiveAnnotations st := by
      conv_rhs => rw [← List.map_id (getActiveAnnotations st)]
      exact List.map_congr_left fun a ha => hfix a ha
    rw [hmap]
  · refine ⟨b, Or.inl rfl, ?_⟩
    exact redraw_of_not_renderable
      (fun h2 => h ((renderable_setActiveAnnotations st _).mp h2))

theorem imagesData_setActiveAnnotations_ne (st : State) (l : List Annotation) (j : ℕ)
    (hj : j ≠ st.activeImageIndex.toNat) :
    (setActiveAnnotations st l).imagesData[j]? = st.imagesData[j]? := by
  cases hd : getActiveImageData st with
  | none => rw [setActiveAnnotations_of_none hd]
  | some data =>
      rw [setActiveAnnotations_of_some hd]
      exact List.getElem?_set_ne (Ne.symm hj)

theorem radius_of_size (d r : ℚ) (hr : r ≠ 0) : 2 * d / r / 2 * r = d := by
  field_simp
  ring

theorem mousemove_resizing_distance (M : JsMath) {st : State} (q : Point) {text : String}
    {pos : Point} {size zoom : ℚ} {color : String} {src : Option Rect} {img : Image}
    (hres : st.isResizing = true)
    (hsel : selectedLookup st = some ( Annotation.pinned_zoom text pos size zoom color src))
    (himg : getActiveImage st = some img) :
    (mousemove M st q).state =
      redraw (setActiveAnnotations { st with lastMousePos := q }
        ((getActiveAnnotations { st with lastMousePos := q }).set
          st.selectedAnnotationIndex.toNat
          ( Annotation.pinned_zoom text pos
            (displayDistance M q pos (st.canvasWidth / img.naturalWidth) * 2 /
              (st.canvasWidth / img.naturalWidth)) zoom color src))) := by
  rw [mousemove_of_resizing M q hres hsel himg]
  rfl

/-- C13: in a state whose derived sources are up to date, a pointer-move at display
point `q` while resizing, with ratio `r > 0`, leaves the active list as it was
except that the selected pinned zoom has `size = 2 * d / r` for the distance `d`
of `q` from the displayed centre `pos * r`, so that its displayed radius
`size / 2 * r` is `d`; its `pos`, `zoom`, `text` and `color`, the other annotations
of the list and the other images are unchanged (its `source` is recomputed). -/
theorem resize_size_exact (M : JsMath) (st : State) (q : Point) (text : String)
    (pos : Point) (size zoom : ℚ) (color : String) (src : Option Rect) (img : Image)
    (hs : redraw st = st) (hres : st.isResizing = true)
    (hsel : selectedLookup st = some ( Annotation.pinned_zoom text pos size zoom color src))
    (himg : getActiveImage st = some img) (hr : 0 < st.canvasWidth / img.naturalWidth) :
    ∃ src2 : Option Rect,
      getActiveAnnotations (mousemove M st q).state =
          (getActiveAnnotations st).set st.selectedAnnotationIndex.toNat
            ( Annotation.pinned_zoom text pos
              (2 * displayDistance M q pos (st.canvasWidth / img.naturalWidth) /
                (st.canvasWidth / img.naturalWidth)) zoom color src2) ∧
        2 * displayDistance M q pos (st.canvasWidth / img.naturalWidth) /
            (st.canvasWidth / img.naturalWidth) / 2 * (st.canvasWidth / img.naturalWidth) =
          displayDistance M q pos (st.canvasWidth / img.naturalWidth) ∧
        ∀ j : ℕ, j ≠ st.activeImageIndex.toNat →
          (mousemove M st q).state.imagesData[j]? = st.imagesData[j]? := by
  have hne : st.canvasWidth / img.naturalWidth ≠ 0 := ne_of_gt hr
  have hs1 : redraw { st with lastMousePos := q } = { st with lastMousePos := q } :=
    settled_of_activeData_eq hs rfl
  have hnil : getActiveAnnotations st ≠ [] := by
    intro h0
    have := (getElem?_of_selectedLookup hsel).1
    rw [h0] at this
    cases this
  rw [mousemove_resizing_distance M q hres hsel himg]
  generalize displayDistance M q pos (st.canvasWidth / img.naturalWidth) = d
  obtain ⟨b2, hb2, hred⟩ := redraw_set_of_settled hs1 st.selectedAnnotationIndex.toNat
    ( Annotation.pinned_zoom text pos (d * 2 / (st.canvasWidth / img.naturalWidth)) zoom
      color src)
  have hsize : d * 2 / (st.canvasWidth / img.naturalWidth) =
      2 * d / (st.canvasWidth / img.naturalWidth) := by ring
  have hlist : ∀ l, getActiveAnnotations
      (setActiveAnnotations { st with lastMousePos := q } l) = l := fun l =>
    @getActiveAnnotations_set_of_ne_nil { st with lastMousePos := q } hnil l
  have hgeo : 2 * d / (st.canvasWidth / img.naturalWidth) / 2 *
      (st.canvasWidth / img.naturalWidth) = d :=
    radius_of_size d _ hne
  rw [hred]
  rw [hsize] at hb2
  rcases hb2 with hb | hb
  · refine ⟨src, ?_, hgeo, fun j hj =>
      imagesData_setActiveAnnotations_ne { st with lastMousePos := q } _ j hj⟩
    rw [hlist, hb]
    rfl
  · refine ⟨some
        { x := pos.x - 2 * d / (st.canvasWidth / img.naturalWidth) / zoom / 2,
          y := pos.y - 2 * d / (st.canvasWidth / img.naturalWidth) / zoom / 2,
          width := 2 * d / (st.canvasWidth / img.naturalWidth) / zoom,
          height := 2 * d / (st.canvasWidth / img.naturalWidth) / zoom }, ?_, hgeo, fun j hj =>
      imagesData_setActiveAnnotations_ne { st with lastMousePos := q } _ j hj⟩
    rw [hlist, hb]
    rfl

theorem settled_selected :
    redraw (sampleState [createdZoom] 0) = sampleState [createdZoom] 0 := by
  have h := reachable_settled refMath
    (reachable_run refMath selectSession _ reachable_sessionStart)
  rw [run_selectSession] at h
  exact h

/-- C13 on the resizing state of the sample session with the pointer moved to
canvas point (20, 70). -/
theorem resize_size_exact_witness :
    redraw sessionResizing = sessionResizing ∧ sessionResizing.isResizing = true ∧
      selectedLookup sessionResizing = some createdZoom ∧
      getActiveImage sessionResizing = some sampleImage ∧
      (0 : ℚ) < sessionResizing.canvasWidth / sampleImage.naturalWidth ∧
      ∀ j : ℕ, j ≠ sessionResizing.activeImageIndex.toNat →
        (mousemove refMath sessionResizing ⟨20, 70⟩).state.imagesData[j]? =
          sessionResizing.imagesData[j]? :=
  have hr : (0 : ℚ) < sessionResizing.canvasWidth / sampleImage.naturalWidth := by
    norm_num [sessionResizing, sampleState, sampleImage]
  have hs : redraw sessionResizing = sessionResizing :=
    settled_of_activeData_eq settled_selected rfl
  ⟨hs, rfl, rfl, rfl, hr,
    (resize_size_exact refMath sessionResizing ⟨20, 70⟩ "z" ⟨40, 60⟩ 150 3 "#ff0000"
      (some ⟨15, 35, 50, 50⟩) sampleImage hs rfl rfl rfl hr).choose_spec.2.2⟩

/-! ## Upload of a batch of files (C14) -/

theorem imageEntries_setActiveAnnotations (st : State) (l : List Annotation) :
    imageEntries (setActiveAnnotations st l) = imageEntries st := by
  cases hd : getActiveImageData st with
  | none => rw [setActiveAnnotations_of_none hd]
  | some data =>
      rw [setActiveAnnotations_of_some hd]
      obtain ⟨_, hget⟩ := getActiveImageData_eq_some hd
      unfold imageEntries
      simp only [List.map_set]
      apply List.ext_getElem?
      intro j
      rw [List.getElem?_set]
      split_ifs with h1 h2
      · subst h1
        rw [List.getElem?_map, hget]
        rfl
      · subst h1
        rw [List.getElem?_eq_none (by omega)]
      · rfl

theorem imageEntries_redraw (st : State) : imageEntries (redraw st) = imageEntries st := by
  by_cases h : Renderable st
  · rw [redraw_of_renderable h, imageEntries_setActiveAnnotations]
  · rw [redraw_of_not_renderable h]

theorem resizeCanvas_fields (st : State) :
    imageEntries (resizeCanvas st) = imageEntries st ∧
      (resizeCanvas st).activeImageIndex = st.activeImageIndex ∧
      (resizeCanvas st).imagesData.length = st.imagesData.length := by
  have key : ∀ t : State, t.imagesData = st.imagesData →
      t.activeImageIndex = st.activeImageIndex →
      imageEntries (redraw t) = imageEntries st ∧
        (redraw t).activeImageIndex = st.activeImageIndex ∧
        (redraw t).imagesData.length = st.imagesData.length := by
    intro t h1 h2
    have he : imageEntries (redraw t) = imageEntries st := by
      rw [imageEntries_redraw]
      unfold imageEntries
      rw [h1]
    refine ⟨he, by rw [redraw_activeImageIndex, h2], ?_⟩
    have := congrArg List.length he
    simpa [imageEntries] using this
  unfold resizeCanvas
  cases getActiveImage st with
  | none => exact key _ rfl rfl
  | some img =>
      simp only
      split_ifs <;> exact key _ rfl rfl

theorem imageLoaded_fields (st : State) (id : ℚ) (img : Image) :
    imageEntries (imageLoaded st id img) = imageEntries st ++ [(id, img)] ∧
      (imageLoaded st id img).activeImageIndex =
        ((imageLoaded st id img).imagesData.length : ℤ) - 1 := by
  unfold imageLoaded setActiveImage
  simp only
  split_ifs with h
  · refine ⟨by simp [imageEntries], ?_⟩
    exact h.symm
  · obtain ⟨h1, h2, h3⟩ := resizeCanvas_fields
      { st with imagesData := st.imagesData ++ [(⟨id, img, []⟩ : ImageData)],
                activeImageIndex :=
                  ((st.imagesData ++ [(⟨id, img, []⟩ : ImageData)]).length : ℤ) - 1 }
    refine ⟨?_, ?_⟩
    · rw [h1]
      simp [imageEntries]
    · rw [h2, h3]

theorem handleImageUpload_append (st : State) (files : List UploadedFile)
    (file : UploadedFile) :
    handleImageUpload st (files ++ [file]) =
      handleImageUpload (handleImageUpload st files) [file] := by
  simp [handleImageUpload, List.foldl_append]

theorem imageEntries_handleImageUpload (files : List UploadedFile) :
    ∀ st : State,
      imageEntries (handleImageUpload st files) = imageEntries st ++ decodedEntries files := by
  induction files with
  | nil => intro st; simp [handleImageUpload, decodedEntries]
  | cons file files ih =>
      intro st
      cases file with
      | notImage =>
          have : handleImageUpload st (.notImage :: files) = handleImageUpload st files := rfl
          rw [this, ih]
          rfl
      | failed =>
          have : handleImageUpload st (.failed :: files) = handleImageUpload st files := rfl
          rw [this, ih]
          rfl
      | decoded id w h =>
          have : handleImageUpload st (.decoded id w h :: files) =
              handleImageUpload (imageLoaded st id
                { naturalWidth := w, naturalHeight := h, complete := true }) files := rfl
          rw [this, ih, (imageLoaded_fields st id _).1]
          simp [decodedEntries]

theorem activeImageIndex_handleImageUpload (files : List UploadedFile) :
    ∀ st : State, decodedEntries files ≠ [] →
      (handleImageUpload st files).activeImageIndex =
        ((handleImageUpload st files).imagesData.length : ℤ) - 1 := by
  induction files using List.reverseRecOn with
  | nil => intro st h; exact absurd rfl h
  | append_singleton files file ih =>
      intro st hne
      rw [handleImageUpload_append]
      cases file with
      | decoded id w h => exact (imageLoaded_fields _ id _).2
      | notImage =>
          have hd : decodedEntries (files ++ [.notImage]) = decodedEntries files := by
            simp [decodedEntries]
          rw [hd] at hne
          exact ih st hne
      | failed =>
          have hd : decodedEntries (files ++ [.failed]) = decodedEntries files := by
            simp [decodedEntries]
          rw [hd] at hne
          exact ih st hne

theorem activeEntry_of_last (st : State)
    (h : st.activeImageIndex = (st.imagesData.length : ℤ) - 1) :
    (getActiveImageData st).map (fun data => (data.id, data.image)) =
      (imageEntries st).getLast? := by
  unfold getActiveImageData jsIndex imageEntries
  rw [List.getLast?_map]
  cases hl : st.imagesData.length with
  | zero =>
      have : st.imagesData = [] := List.eq_nil_of_length_eq_zero hl
      rw [h, hl, this]
      rfl
  | succ n =>
      have h1 : st.activeImageIndex = (n : ℤ) := by rw [h, hl]; push_cast; ring
      rw [if_pos (by omega), if_neg (by omega), h1, Int.toNat_ofNat, List.getLast?_eq_getElem?,
        hl]
      rfl

theorem handleImageUpload_spec (st : State) (files : List UploadedFile) :
    imageEntries (handleImageUpload st files) = imageEntries st ++ decodedEntries files ∧
      (decodedEntries files ≠ [] →
        (handleImageUpload st files).activeImageIndex =
            ((handleImageUpload st files).imagesData.length : ℤ) - 1 ∧
          (getActiveImageData (handleImageUpload st files)).map
              (fun data => (data.id, data.image)) = (decodedEntries files).getLast?) := by
  refine ⟨imageEntries_handleImageUpload files st, fun hne => ?_⟩
  have hidx := activeImageIndex_handleImageUpload files st hne
  refine ⟨hidx, ?_⟩
  rw [activeEntry_of_last _ hidx, imageEntries_handleImageUpload, List.getLast?_append]
  cases hlast : (decodedEntries files).getLast? with
  | none => exact absurd (List.getLast?_eq_none_iff.mp hlast) hne
  | some e => rfl

/-- C14 as stated fails: for a batch of three files whose second fails to decode,
uploaded into the initial state, the list holds the entries 1 and 3 in order, but
the active image is not the first decoded one (id 1): it is entry 3. -/
theorem upload_activates_last_counterexample :
    imageEntries (handleImageUpload sessionStart sampleBatch) =
        [(1, { naturalWidth := 200, naturalHeight := 100, complete := true }),
         (3, { naturalWidth := 300, naturalHeight := 100, complete := true })] ∧
      (decodedEntries sampleBatch).head?.map Prod.fst = some 1 ∧
      (getActiveImageData (handleImageUpload sessionStart sampleBatch)).map
          (fun data => data.id) = some 3 ∧
      (getActiveImageData (handleImageUpload sessionStart sampleBatch)).map
          (fun data => data.id) ≠ (decodedEntries sampleBatch).head?.map Prod.fst := by
  have hspec := handleImageUpload_spec sessionStart sampleBatch
  have hd : decodedEntries sampleBatch =
      [(1, { naturalWidth := 200, naturalHeight := 100, complete := true }),
       (3, { naturalWidth := 300, naturalHeight := 100, complete := true })] := rfl
  have hact := (hspec.2 (by rw [hd]; exact List.cons_ne_nil _ _)).2
  have hid : (getActiveImageData (handleImageUpload sessionStart sampleBatch)).map
      (fun data => data.id) = some 3 := by
    cases hg : getActiveImageData (handleImageUpload sessionStart sampleBatch) with
    | none => rw [hg, hd] at hact; cases hact
    | some data =>
        rw [hg, hd] at hact
        simp only [Option.map_some', List.getLast?_cons_cons, List.getLast?_singleton,
          Option.some.injEq, Prod.mk.injEq] at hact
        simp only [Option.map_some', hact.1]
  refine ⟨?_, by rw [hd]; rfl, hid, ?_⟩
  · rw [hspec.1, hd]
    rfl
  · rw [hid, hd]
    simp only [List.head?_cons, Option.map_some', ne_eq, Option.some.injEq]
    norm_num

/-- C14, amended: over the decode outcomes of its files, taken in order,
`handleImageUpload` appends exactly the decoded files, in their original order,
and, when at least one is decoded, leaves the last decoded one active (each
`onload` activates the image it adds); for three files whose second fails, into an
empty list, the list holds entries 1 and 3 and entry 3 is active. -/
theorem upload_batch (st : State) (files : List UploadedFile) :
    imageEntries (handleImageUpload st files) = imageEntries st ++ decodedEntries files ∧
      (decodedEntries files ≠ [] →
        (handleImageUpload st files).activeImageIndex =
            ((handleImageUpload st files).imagesData.length : ℤ) - 1 ∧
          (getActiveImageData (handleImageUpload st files)).map
              (fun data => (data.id, data.image)) = (decodedEntries files).getLast?) ∧
      (∀ id1 w1 h1 id3 w3 h3 : ℚ, st.imagesData = [] →
        imageEntries (handleImageUpload st [.decoded id1 w1 h1, .failed, .decoded id3 w3 h3]) =
            [(id1, { naturalWidth := w1, naturalHeight := h1, complete := true }),
             (id3, { naturalWidth := w3, naturalHeight := h3, complete := true })] ∧
          (getActiveImageData
              (handleImageUpload st [.decoded id1 w1 h1, .failed, .decoded id3 w3 h3])).map
            (fun data => (data.id, data.image)) =
              some (id3, { naturalWidth := w3, naturalHeight := h3, complete := true })) := by
  refine ⟨(handleImageUpload_spec st files).1, (handleImageUpload_spec st files).2, ?_⟩
  intro id1 w1 h1 id3 w3 h3 hempty
  have hspec := handleImageUpload_spec st [.decoded id1 w1 h1, .failed, .decoded id3 w3 h3]
  have hd : decodedEntries [.decoded id1 w1 h1, .failed, .decoded id3 w3 h3] =
      [(id1, { naturalWidth := w1, naturalHeight := h1, complete := true }),
       (id3, { naturalWidth := w3, naturalHeight := h3, complete := true })] := rfl
  have he : imageEntries st = [] := by simp [imageEntries, hempty]
  refine ⟨?_, ?_⟩
  · rw [hspec.1, hd, he]
    rfl
  · rw [(hspec.2 (by rw [hd]; exact List.cons_ne_nil _ _)).2, hd]
    rfl

/-- C14, amended, on the sample batch uploaded into the initial state. -/
theorem upload_batch_witness :
    decodedEntries sampleBatch ≠ [] ∧ sessionStart.imagesData = [] ∧
      (handleImageUpload sessionStart sampleBatch).activeImageIndex =
        ((handleImageUpload sessionStart sampleBatch).imagesData.length : ℤ) - 1 :=
  ⟨List.cons_ne_nil _ _, rfl,
    ((upload_batch sessionStart sampleBatch).2.1 (List.cons_ne_nil _ _)).1⟩

/-! ## Export sheet of an image without annotations (C15) -/

theorem generateProductSheet_of_empty (M : JsMath) (measureText : String → ℚ) (st : State)
    (img : Image) (himg : getActiveImage st = some img)
    (hempty : getActiveAnnotations st = []) (isExport : Bool) :
    generateProductSheet M measureText st isExport =
      some
        { width := img.naturalWidth + (if isExport then 400 else 0)
          height := img.naturalHeight
          ops :=
            [DrawOp.fillRect 0 0 (img.naturalWidth + (if isExport then 400 else 0))
                img.naturalHeight "#FFFFFF",
             DrawOp.drawImage 0 0 img.naturalWidth img.naturalHeight] ++
            (if isExport then
              [DrawOp.fillRect img.naturalWidth 0 400 img.naturalHeight "#FFFFFF",
               DrawOp.segment ⟨img.naturalWidth, 0⟩ ⟨img.naturalWidth, img.naturalHeight⟩
                 "#e5e7eb" 1,
               DrawOp.fillText "註釋列表" (img.naturalWidth + 20) (20 + 24)
                 "bold 24px sans-serif" "#1f2937"]
             else []) } := by
  unfold generateProductSheet
  rw [himg, hempty]
  cases isExport <;> simp [sheetRows]

/-- C15 as stated fails: for the sample image (200 by 100) with no annotation the
export sheet is 600 wide, not 200, and the title of the list panel is drawn on it. -/
theorem export_sheet_counterexample :
    getActiveAnnotations (sampleState [] (-1)) = [] ∧
      ∃ sheet : Sheet,
        generateProductSheet refMath (fun _ => 0) (sampleState [] (-1)) true = some sheet ∧
          sheet.width = 600 ∧ sheet.width ≠ sampleImage.naturalWidth ∧
          DrawOp.fillText "註釋列表" 220 44 "bold 24px sans-serif" "#1f2937" ∈ sheet.ops := by
  refine ⟨rfl, _, generateProductSheet_of_empty refMath (fun _ => 0) (sampleState [] (-1))
    sampleImage rfl rfl true, ?_, ?_, ?_⟩
  · norm_num [sampleImage]
  · norm_num [sampleImage]
  · norm_num [sampleImage]

/-- C15, amended: for an image whose annotation list is empty, the sheet made for
copying (`isExport = false`) has the natural width and height of the image and
holds nothing but the white background and the raster; the sheet made for export
(`isExport = true`) is 400 wider and holds, after those two, the list panel: its
white background, its border line and its title, and no badge, label or row. -/
theorem sheet_of_empty_list (M : JsMath) (measureText : String → ℚ) (st : State)
    (img : Image) (himg : getActiveImage st = some img)
    (hempty : getActiveAnnotations st = []) :
    generateProductSheet M measureText st false =
        some
          { width := img.naturalWidth
            height := img.naturalHeight
            ops :=
              [DrawOp.fillRect 0 0 img.naturalWidth img.naturalHeight "#FFFFFF",
               DrawOp.drawImage 0 0 img.naturalWidth img.naturalHeight] } ∧
      generateProductSheet M measureText st true =
        some
          { width := img.naturalWidth + 400
            height := img.naturalHeight
            ops :=
              [DrawOp.fillRect 0 0 (img.naturalWidth + 400) img.naturalHeight "#FFFFFF",
               DrawOp.drawImage 0 0 img.naturalWidth img.naturalHeight,
               DrawOp.fillRect img.naturalWidth 0 400 img.naturalHeight "#FFFFFF",
               DrawOp.segment ⟨img.naturalWidth, 0⟩ ⟨img.naturalWidth, img.naturalHeight⟩
                 "#e5e7eb" 1,
               DrawOp.fillText "註釋列表" (img.naturalWidth + 20) (20 + 24)
                 "bold 24px sans-serif" "#1f2937"] } := by
  constructor
  · rw [generateProductSheet_of_empty M measureText st img himg hempty false]
    simp
  · rw [generateProductSheet_of_empty M measureText st img himg hempty true]
    simp

/-- C15, amended, on the sample image without annotations. -/
theorem sheet_of_empty_list_witness :
    getActiveImage (sampleState [] (-1)) = some sampleImage ∧
      getActiveAnnotations (sampleState [] (-1)) = [] ∧
      generateProductSheet refMath (fun _ => 0) (sampleState [] (-1)) false =
        some
          { width := sampleImage.naturalWidth
            height := sampleImage.naturalHeight
            ops :=
              [DrawOp.fillRect 0 0 sampleImage.naturalWidth sampleImage.naturalHeight "#FFFFFF",
               DrawOp.drawImage 0 0 sampleImage.naturalWidth sampleImage.naturalHeight] } :=
  ⟨rfl, rfl, (sheet_of_empty_list refMath (fun _ => 0) (sampleState [] (-1)) sampleImage
    rfl rfl).1⟩

/-! ## Export path and interactive path at ratio 1 (C20) -/

/-- C20: at `ratio = 1`, for every annotation of every kind at every index, the
number badge and the text label drawn by `redraw` (through `drawAnnotationLabel` and
`drawAnnotationNumber`) are those drawn by `generateProductSheet` (through
`drawAnnotationLabelOnCtx` and `drawAnnotationNumberOnCtx`): same badge centre,
label anchor, text and sizes, the zero-length measure included; the dimension
arrowheads and label of a measure built by `drawDimension` are those built by
`drawDimensionOnCtx`; and a measure, an arrow and a text are drawn alike. -/
theorem export_agrees_at_ratio_one (M : JsMath) (hsqrt : ∀ x, 0 ≤ M.sqrt x) (st : State)
    (ann : Annotation) (index : ℕ) :
    redrawDecoration M st 1 ann index = sheetDecoration M ann index ∧
      (∀ (start endPos : Point) (color : String) (width value : ℚ) (unit : LengthUnit),
        drawDimension st ⟨start.x * 1, start.y * 1⟩ ⟨endPos.x * 1, endPos.y * 1⟩
            ( Annotation.measure start endPos color width value unit) 1 =
          drawDimensionOnCtx st ( Annotation.measure start endPos color width value unit)) ∧
      (ann.zoom? = none → redrawBody M st 1 ann index = sheetBody st ann) := by
  have hdim : ∀ (start endPos : Point) (color : String) (width value : ℚ) (unit : LengthUnit),
      drawDimension st ⟨start.x * 1, start.y * 1⟩ ⟨endPos.x * 1, endPos.y * 1⟩
          ( Annotation.measure start endPos color width value unit) 1 =
        drawDimensionOnCtx st ( Annotation.measure start endPos color width value unit) := by
    intro start endPos color width value unit
    simp [drawDimension, drawDimensionOnCtx, drawArrowhead, drawArrowheadOnCtx]
  refine ⟨?_, hdim, ?_⟩
  · cases ann with
    | measure start endPos color width value unit =>
        simp only [redrawDecoration, sheetDecoration, drawAnnotationNumber,
          drawAnnotationNumberOnCtx, mul_one]
        by_cases hlen : M.sqrt ((endPos.x - start.x) * (endPos.x - start.x) +
            (endPos.y - start.y) * (endPos.y - start.y)) = 0
        · simp [hlen]
        · have hpos : 0 < M.sqrt ((endPos.x - start.x) * (endPos.x - start.x) +
              (endPos.y - start.y) * (endPos.y - start.y)) :=
            lt_of_le_of_ne (hsqrt _) (Ne.symm hlen)
          simp [hlen, hpos]
    | arrow start endPos color width text =>
        simp [redrawDecoration, sheetDecoration, drawAnnotationLabel, drawAnnotationLabelOnCtx,
          drawAnnotationNumber, drawAnnotationNumberOnCtx, getAnnotationText]
    | text text pos color width =>
        simp [redrawDecoration, sheetDecoration, drawAnnotationLabel, drawAnnotationLabelOnCtx,
          drawAnnotationNumber, drawAnnotationNumberOnCtx, getAnnotationText]
    | pinned_zoom text pos size zoom color source =>
        simp [redrawDecoration, sheetDecoration, drawAnnotationLabel, drawAnnotationLabelOnCtx,
          drawAnnotationNumber, drawAnnotationNumberOnCtx, getAnnotationText]
  · intro hz
    cases ann with
    | measure start endPos color width value unit =>
        have h := hdim start endPos color width value unit
        simp only [mul_one] at h
        simp only [redrawBody, sheetBody, mul_one, h]
    | arrow start endPos color width text =>
        simp [redrawBody, sheetBody, drawArrowhead, drawArrowheadOnCtx]
    | text text pos color width => rfl
    | pinned_zoom text pos size zoom color source => cases hz

/-- C20 on the sample measure, with the square root exact on squares. -/
theorem export_agrees_at_ratio_one_witness :
    (∀ x, 0 ≤ refMath.sqrt x) ∧
      redrawDecoration refMath (sampleState [sampleMeasure] (-1)) 1 sampleMeasure 0 =
        sheetDecoration refMath sampleMeasure 0 :=
  ⟨Rat.sqrt_nonneg,
    (export_agrees_at_ratio_one refMath Rat.sqrt_nonneg (sampleState [sampleMeasure] (-1))
      sampleMeasure 0).1⟩

/-! ## The current tool (C17) -/

theorem redraw_currentTool (st : State) : (redraw st).currentTool = st.currentTool := by
  obtain ⟨l, hl⟩ := redraw_fields st
  rw [hl]

theorem setActiveAnnotations_currentTool (st : State) (l : List Annotation) :
    (setActiveAnnotations st l).currentTool = st.currentTool := by
  obtain ⟨l2, h⟩ := setActiveAnnotations_fields st l
  rw [h]

theorem resizeCanvas_currentTool (st : State) :
    (resizeCanvas st).currentTool = st.currentTool := by
  unfold resizeCanvas
  cases getActiveImage st with
  | none => exact redraw_currentTool _
  | some img =>
      simp only
      split_ifs <;> exact redraw_currentTool _

theorem setActiveImage_currentTool (st : State) (index : ℤ) :
    (setActiveImage st index).currentTool = st.currentTool := by
  unfold setActiveImage
  split_ifs
  · rfl
  · exact resizeCanvas_currentTool _

theorem deleteImageConfirmed_currentTool (st : State) (index : ℕ) :
    (deleteImageConfirmed st index).currentTool = st.currentTool := by
  unfold deleteImageConfirmed
  rw [resizeCanvas_currentTool, setActiveImage_currentTool]
  simp only
  split_ifs <;> rfl

theorem imageLoaded_currentTool (st : State) (id : ℚ) (img : Image) :
    (imageLoaded st id img).currentTool = st.currentTool := by
  unfold imageLoaded
  rw [setActiveImage_currentTool]

theorem runModalCallback_currentTool (st : State) (value : String) (cb : ModalCallback)
    (hcb : ∀ pos, cb ≠ .zoomText pos) :
    (runModalCallback st value cb).currentTool = st.currentTool := by
  cases cb with
  | zoomText pos => exact absurd rfl (hcb pos)
  | textTool pos =>
      simp only [runModalCallback]
      split_ifs
      · rw [redraw_currentTool, setActiveAnnotations_currentTool]
      · rfl
  | measureValue start endPos color width =>
      simp only [runModalCallback]
      cases parseFloat value with
      | none => exact redraw_currentTool _
      | some v =>
          simp only
          split_ifs
          · rw [redraw_currentTool, setActiveAnnotations_currentTool]
          · exact redraw_currentTool _
  | arrowText start endPos color width =>
      simp only [runModalCallback]
      split_ifs
      · rw [redraw_currentTool, setActiveAnnotations_currentTool]
      · exact redraw_currentTool _

theorem runModalCallback_zoomText_currentTool (st : State) (value : String) (pos : Point) :
    (runModalCallback st value (.zoomText pos)).currentTool = .arrow := by
  simp only [runModalCallback, setActiveTool]
  rw [redraw_currentTool]

theorem runConfirmCallback_currentTool (st : State) (cb : ConfirmCallback) :
    (runConfirmCallback st cb).state.currentTool = st.currentTool := by
  cases cb with
  | deleteImage index => exact deleteImageConfirmed_currentTool st index
  | clearCanvas =>
      simp only [runConfirmCallback]
      cases jsIndex st.imagesData st.activeImageIndex with
      | none => rfl
      | some data => exact redraw_currentTool _
  | restart =>
      exact resizeCanvas_currentTool { st with imagesData := [], activeImageIndex := -1 }
  | noop => rfl

theorem confirmOk_currentTool (st : State) :
    (confirmOk st).state.currentTool = st.currentTool := by
  unfold confirmOk
  cases st.currentConfirmCallback with
  | none => rfl
  | some cb =>
      have h := runConfirmCallback_currentTool st cb
      simp only
      cases hrun : runConfirmCallback st cb with
      | done s => rw [hrun] at h; exact h
      | typeError s => rw [hrun] at h; exact h

theorem listInputChange_currentTool (st : State) (index : ℕ) (value : String) :
    (listInputChange st index value).state.currentTool = st.currentTool := by
  unfold listInputChange
  cases (getActiveAnnotations st)[index]? with
  | none => rfl
  | some ann =>
      cases ann with
      | measure start endPos color width v originalUnit =>
          simp only
          cases parseFloat value <;>
            exact (redraw_currentTool _).trans (setActiveAnnotations_currentTool _ _)
      | arrow start endPos color width text =>
          exact (redraw_currentTool _).trans (setActiveAnnotations_currentTool _ _)
      | text text pos color width =>
          exact (redraw_currentTool _).trans (setActiveAnnotations_currentTool _ _)
      | pinned_zoom text pos size zoom color source =>
          exact (redraw_currentTool _).trans (setActiveAnnotations_currentTool _ _)

theorem mousedownSelect_currentTool (M : JsMath) (st : State) (pos : Point) (ratio : ℚ) :
    (mousedownSelect M st pos ratio).currentTool = st.currentTool := by
  unfold mousedownSelect
  cases hitLoop M (getActiveAnnotations st) ratio pos (getActiveAnnotations st).length with
  | some i => exact redraw_currentTool _
  | none =>
      simp only
      split_ifs
      · exact redraw_currentTool _
      · rfl

theorem mousedown_currentTool (M : JsMath) (st : State) (pos : Point) :
    (mousedown M st pos).state.currentTool = st.currentTool := by
  unfold mousedown
  split_ifs
  · exact resizeCanvas_currentTool _
  · rfl
  · unfold createZoomAnnotation
    cases getActiveImage st <;> rfl
  · rfl
  · cases jsIndex (getActiveAnnotations st) st.selectedAnnotationIndex with
    | none => rfl
    | some ann =>
        cases ann with
        | pinned_zoom text annPos size zoom color source =>
            simp only
            split_ifs
            · rfl
            · exact mousedownSelect_currentTool M st pos _
        | measure start endPos color width v originalUnit =>
            exact mousedownSelect_currentTool M st pos _
        | arrow start endPos color width text => exact mousedownSelect_currentTool M st pos _
        | text text p color width => exact mousedownSelect_currentTool M st pos _
  · exact mousedownSelect_currentTool M st pos _

theorem mousemove_currentTool (M : JsMath) (st : State) (pos : Point) :
    (mousemove M st pos).state.currentTool = st.currentTool := by
  unfold mousemove
  simp only
  split_ifs
  · cases jsIndex (getActiveAnnotations { st with lastMousePos := pos })
        st.selectedAnnotationIndex with
    | none => rfl
    | some ann =>
        cases getActiveImage { st with lastMousePos := pos } with
        | none => cases ann <;> rfl
        | some img =>
            cases ann with
            | measure start endPos color width v originalUnit => rfl
            | arrow start endPos color width text => rfl
            | text text p color width => exact redraw_currentTool _
            | pinned_zoom text annPos size zoom color source =>
                exact (redraw_currentTool _).trans (setActiveAnnotations_currentTool _ _)
  · rfl
  · exact redraw_currentTool _

theorem mouseup_currentTool (st : State) (pos : Point) :
    (mouseup st pos).currentTool = st.currentTool := by
  unfold mouseup
  split_ifs
  · rfl
  · rfl
  · simp only
    split
    · rfl
    · rfl
    · exact redraw_currentTool _

theorem mouseleave_currentTool (st : State) :
    (mouseleave st).currentTool = st.currentTool := by
  unfold mouseleave
  simp only
  split_ifs
  · exact (redraw_currentTool _).trans (redraw_currentTool _)
  · exact redraw_currentTool _
  · exact redraw_currentTool _
  · rfl

theorem wheel_currentTool (st : State) (deltaY : ℚ) :
    (wheel st deltaY).state.currentTool = st.currentTool := by
  unfold wheel
  split_ifs
  · cases jsIndex (getActiveAnnotations st) st.selectedAnnotationIndex with
    | none => rfl
    | some ann =>
        cases ann with
        | pinned_zoom text annPos size zoom color source =>
            exact (redraw_currentTool _).trans (setActiveAnnotations_currentTool _ _)
        | _ => rfl
  · rfl

theorem run_dialogSession : run refMath sessionStart dialogSession = sessionDialog := by
  simp only [run, dialogSession, List.foldl_cons, List.foldl_nil, session_step1,
    session_step2, session_step3]

/-- C17, the code on a session: with the zoom tool active and its text dialog
open, confirming the dialog (the commit of the pinned zoom, not a tool button)
leaves `currentTool` at `arrow`. -/
theorem zoom_commit_switches_tool_counterexample :
    Reachable refMath (run refMath sessionStart dialogSession) ∧
      (run refMath sessionStart dialogSession).currentTool = Tool.zoom_annotation ∧
      (step refMath (run refMath sessionStart dialogSession) (.modalOk "z")).currentTool =
        .arrow := by
  refine ⟨reachable_run _ _ _ reachable_sessionStart, ?_⟩
  rw [run_dialogSession]
  exact ⟨rfl, by rw [session_step4]; rfl⟩

/-- C17 as amended: an event that is neither a tool button or shortcut nor the
confirmation of the text dialog of the zoom tool leaves `currentTool` as it was;
confirming the text dialog of the zoom tool sets it to `arrow`, whatever the
submitted string; a tool button or shortcut sets it to its tool. -/
theorem currentTool_persistent (M : JsMath) (st : State) (e : Event)
    (htool : ∀ tool, e ≠ .toolClick tool)
    (hzoom : ∀ value pos, e = .modalOk value →
      st.currentModalCallback ≠ some (.zoomText pos)) :
    (step M st e).currentTool = st.currentTool ∧
      (∀ value pos, st.currentModalCallback = some (.zoomText pos) →
        (step M st (.modalOk value)).currentTool = .arrow) ∧
      (∀ tool, (step M st (.toolClick tool)).currentTool = tool) := by
  refine ⟨?_, ?_, ?_⟩
  · cases e with
    | toolClick tool => exact absurd rfl (htool tool)
    | unitClick unit => exact redraw_currentTool _
    | windowResize cw ch ow oh => exact resizeCanvas_currentTool _
    | previewToggle => exact resizeCanvas_currentTool _
    | colorInput color => rfl
    | lineWidthInput width => rfl
    | imageLoaded id naturalWidth naturalHeight => exact imageLoaded_currentTool _ _ _
    | thumbClick index => exact setActiveImage_currentTool _ _
    | deleteImageClick index => rfl
    | restartClick => rfl
    | clearClick =>
        simp only [step, clearClick]
        split_ifs <;> rfl
    | alert => rfl
    | confirmOk => exact confirmOk_currentTool st
    | confirmCancel => rfl
    | modalOk value =>
        simp only [step, modalOk]
        cases hcb : st.currentModalCallback with
        | none => rfl
        | some cb =>
            exact runModalCallback_currentTool st value cb
              (fun pos h => hzoom value pos rfl (by rw [hcb, h]))
    | modalCancel => rfl
    | listInputChange index value => exact listInputChange_currentTool st index value
    | listDelete index =>
        exact (redraw_currentTool _).trans (setActiveAnnotations_currentTool _ _)
    | undo =>
        simp only [step, undo]
        split_ifs
        · exact (redraw_currentTool _).trans (setActiveAnnotations_currentTool _ _)
        · rfl
    | mousedown pos => exact mousedown_currentTool M st pos
    | mousemove pos => exact mousemove_currentTool M st pos
    | mouseup pos => exact mouseup_currentTool st pos
    | mouseleave => exact mouseleave_currentTool st
    | wheel deltaY => exact wheel_currentTool st deltaY
  · intro value pos hcb
    simp only [step, modalOk, hcb]
    exact runModalCallback_zoomText_currentTool st value pos
  · intro tool
    exact redraw_currentTool _

/-- C17 at a pointer move over the sample state with the zoom tool's dialog open. -/
theorem currentTool_persistent_witness :
    (step refMath sessionDialog (.mousemove ⟨1, 1⟩)).currentTool = sessionDialog.currentTool ∧
      (∀ value pos, sessionDialog.currentModalCallback = some (.zoomText pos) →
        (step refMath sessionDialog (.modalOk value)).currentTool = .arrow) ∧
      (∀ tool, (step refMath sessionDialog (.toolClick tool)).currentTool = tool) :=
  currentTool_persistent refMath sessionDialog (.mousemove ⟨1, 1⟩)
    (fun _ h => Event.noConfusion h) (fun _ _ h => Event.noConfusion h)

/-! ## Confirming an input dialog (C16) -/

theorem type_redrawForEach (a : Annotation) : (redrawForEach a).type = a.type := by
  cases a <;> rfl

theorem push_redraw_of_settled {st : State} (hs : redraw st = st)
    (hact : getActiveImageData st ≠ none) (a : Annotation) :
    ∃ b, (b = a ∨ b = redrawForEach a) ∧
      getActiveAnnotations
        (redraw (setActiveAnnotations st (getActiveAnnotations st ++ [a]))) =
        getActiveAnnotations st ++ [b] := by
  by_cases h : Renderable st
  · have h2 := (renderable_setActiveAnnotations st (getActiveAnnotations st ++ [a])).mpr h
    refine ⟨redrawForEach a, Or.inr rfl, ?_⟩
    rw [getActiveAnnotations_redraw_of_renderable h2, getActiveAnnotations_setActiveAnnotations,
      if_neg hact, List.map_append, List.map_singleton]
    congr 1
    conv_rhs => rw [← List.map_id (getActiveAnnotations st)]
    apply List.map_congr_left
    intro x hx
    exact redrawForEach_fixed_of_settled hs h x hx
  · refine ⟨a, Or.inl rfl, ?_⟩
    rw [redraw_of_not_renderable (fun h2 => h ((renderable_setActiveAnnotations _ _).mp h2)),
      getActiveAnnotations_setActiveAnnotations, if_neg hact]

theorem getActiveAnnotations_setActiveTool_of_settled {st : State} (hs : redraw st = st)
    (tool : Tool) : getActiveAnnotations (setActiveTool st tool) = getActiveAnnotations st := by
  have h : redraw { st with currentTool := tool, selectedAnnotationIndex := -1 } =
      { st with currentTool := tool, selectedAnnotationIndex := -1 } :=
    settled_of_activeData_eq hs rfl
  unfold setActiveTool
  rw [h]
  rfl

theorem getActiveAnnotations_modalOk {st : State} {cb : ModalCallback}
    (hcb : st.currentModalCallback = some cb) (value : String) :
    getActiveAnnotations (modalOk st value) =
      getActiveAnnotations (runModalCallback st value cb) := by
  unfold modalOk
  rw [hcb]
  rfl

theorem modalOk_zoomText_of_settled {st : State} (hs : redraw st = st)
    (hact : getActiveImageData st ≠ none) (pos : Point)
    (hcb : st.currentModalCallback = some (.zoomText pos)) (value : String) :
    ∃ source, getActiveAnnotations (modalOk st value) = getActiveAnnotations st ++
      [ Annotation.pinned_zoom (if value = "" then "放大細節" else value) pos 150 3
          st.colorPickerValue source] := by
  rw [getActiveAnnotations_modalOk hcb]
  simp only [runModalCallback]
  rw [getActiveAnnotations_setActiveTool_of_settled (redraw_redraw _)]
  obtain ⟨b, hb, hl⟩ := push_redraw_of_settled hs hact
    ( Annotation.pinned_zoom (if value = "" then "放大細節" else value) pos 150 3
        st.colorPickerValue none)
  rcases hb with rfl | rfl
  · exact ⟨_, hl⟩
  · exact ⟨_, hl⟩

/-- C16, the code on a session: with the text dialog of the zoom tool open on an
image without annotations, confirming the empty string adds a pinned zoom with
the default text. -/
theorem empty_zoom_text_counterexample :
    Reachable refMath (run refMath sessionStart dialogSession) ∧
      getActiveAnnotations (run refMath sessionStart dialogSession) = [] ∧
      getActiveAnnotations (step refMath (run refMath sessionStart dialogSession)
        (.modalOk "")) =
        [ Annotation.pinned_zoom "放大細節" ⟨40, 60⟩ 150 3 "#ff0000"
            (some ⟨15, 35, 50, 50⟩)] := by
  refine ⟨reachable_run _ _ _ reachable_sessionStart, ?_⟩
  rw [run_dialogSession]
  refine ⟨rfl, ?_⟩
  simp only [step, modalOk, runModalCallback, setActiveTool, hideInputModal, sampleState,
    sessionDialog, sessionZoomTool]
  norm_num [getActiveImage, getActiveImageData, jsIndex, redraw, setActiveAnnotations,
    getActiveAnnotations, redrawForEach]

/-- C16 as amended: in a state whose sources are up to date, with an active
image and an input dialog open, confirming the dialog leaves the active list
unchanged when the callback's test fails, that is for the measure, arrow and text
gestures on the empty string and for the measure gesture on a string that does
not parse; when the test passes exactly one annotation of the gesture's kind is
appended at the end; the zoom gesture has no test and appends a pinned zoom for
every string, with the text `放大細節` for the empty one. -/
theorem modal_commit (st : State) (cb : ModalCallback) (value : String)
    (hs : redraw st = st) (hact : getActiveImageData st ≠ none)
    (hcb : st.currentModalCallback = some cb) :
    (¬ Commits (cb, value) →
        getActiveAnnotations (modalOk st value) = getActiveAnnotations st) ∧
      (Commits (cb, value) → ∃ a, a.type = cb.creates ∧
        getActiveAnnotations (modalOk st value) = getActiveAnnotations st ++ [a]) ∧
      (∀ pos, cb = .zoomText pos → ∃ source,
        getActiveAnnotations (modalOk st value) = getActiveAnnotations st ++
          [ Annotation.pinned_zoom (if value = "" then "放大細節" else value) pos 150 3
              st.colorPickerValue source]) := by
  refine ⟨?_, ?_, ?_⟩
  · intro hno
    rw [getActiveAnnotations_modalOk hcb]
    cases cb with
    | zoomText pos => exact absurd trivial hno
    | textTool pos =>
        have hv : value = "" := not_not.mp hno
        simp only [runModalCallback, hv, ne_eq, not_true_eq_false, if_false]
    | measureValue start endPos color width =>
        simp only [runModalCallback]
        cases hp : parseFloat value with
        | none => rw [hs]
        | some v =>
            have hv : value = "" := by
              by_contra hne
              exact hno ⟨hne, by rw [hp]; exact Option.some_ne_none v⟩
            simp only [hv, ne_eq, not_true_eq_false, if_false]
            rw [hs]
    | arrowText start endPos color width =>
        have hv : value = "" := not_not.mp hno
        simp only [runModalCallback, hv, ne_eq, not_true_eq_false, if_false]
        rw [hs]
  · intro hyes
    cases cb with
    | zoomText pos =>
        obtain ⟨source, h⟩ := modalOk_zoomText_of_settled hs hact pos hcb value
        refine ⟨_, ?_, h⟩
        rfl
    | textTool pos =>
        rw [getActiveAnnotations_modalOk hcb]
        have hv : value ≠ "" := hyes
        simp only [runModalCallback, if_pos hv]
        obtain ⟨b, hb, hl⟩ := push_redraw_of_settled hs hact
          ( Annotation.text value (getOriginalPos st pos) st.colorPickerValue
              st.lineWidthValue)
        refine ⟨b, ?_, hl⟩
        rcases hb with rfl | rfl <;> rfl
    | measureValue start endPos color width =>
        rw [getActiveAnnotations_modalOk hcb]
        obtain ⟨hv, hp⟩ := hyes
        obtain ⟨v, hpv⟩ := Option.ne_none_iff_exists'.mp hp
        simp only [runModalCallback, hpv, if_pos hv]
        obtain ⟨b, hb, hl⟩ := push_redraw_of_settled hs hact
          ( Annotation.measure start endPos color width v st.displayUnit)
        refine ⟨b, ?_, hl⟩
        rcases hb with rfl | rfl <;> rfl
    | arrowText start endPos color width =>
        rw [getActiveAnnotations_modalOk hcb]
        have hv : value ≠ "" := hyes
        simp only [runModalCallback, if_pos hv]
        obtain ⟨b, hb, hl⟩ := push_redraw_of_settled hs hact
          ( Annotation.arrow start endPos color width value)
        refine ⟨b, ?_, hl⟩
        rcases hb with rfl | rfl <;> rfl
  · intro pos hpos
    subst hpos
    exact modalOk_zoomText_of_settled hs hact pos hcb value

/-- C16 at the open text dialog of the arrow tool, confirmed with the empty string
over a list holding a pinned zoom and a measure. -/
theorem modal_commit_witness :
    redraw sessionArrowDialog = sessionArrowDialog ∧
      getActiveImageData sessionArrowDialog ≠ none ∧
      ¬ Commits (ModalCallback.arrowText ⟨0, 0⟩ ⟨10, 0⟩ "c" 3, "") ∧
      getActiveAnnotations (modalOk sessionArrowDialog "") = [sampleZoom, sampleMeasure] :=
  have hs : redraw sessionArrowDialog = sessionArrowDialog :=
    settled_of_activeData_eq (sample_settled (-1)) rfl
  have hact : getActiveImageData sessionArrowDialog ≠ none :=
    getActiveImageData_ne_none_of_image (getActiveImage_sampleState [sampleZoom, sampleMeasure] (-1))
  have hno : ¬ Commits (ModalCallback.arrowText ⟨0, 0⟩ ⟨10, 0⟩ "c" 3, "") :=
    fun h => h rfl
  ⟨hs, hact, hno, (modal_commit sessionArrowDialog _ "" hs hact rfl).1 hno⟩

/-! ## Selection across an image switch (C18) -/

theorem resizeCanvas_selectedAnnotationIndex (st : State) :
    (resizeCanvas st).selectedAnnotationIndex = st.selectedAnnotationIndex := by
  unfold resizeCanvas
  cases getActiveImage st with
  | none => exact redraw_selectedAnnotationIndex _
  | some img =>
      simp only
      split_ifs <;> exact redraw_selectedAnnotationIndex _

theorem setActiveImage_selectedAnnotationIndex (st : State) (index : ℤ) :
    (setActiveImage st index).selectedAnnotationIndex = st.selectedAnnotationIndex := by
  unfold setActiveImage
  split_ifs
  · rfl
  · exact resizeCanvas_selectedAnnotationIndex _

theorem setActiveImage_activeImageIndex (st : State) (index : ℤ) :
    (setActiveImage st index).activeImageIndex = index := by
  unfold setActiveImage
  split_ifs with h
  · exact h.symm
  · exact (resizeCanvas_fields _).2.1

theorem deleteImageConfirmed_selectedAnnotationIndex (st : State) (index : ℕ) :
    (deleteImageConfirmed st index).selectedAnnotationIndex = st.selectedAnnotationIndex := by
  unfold deleteImageConfirmed
  rw [resizeCanvas_selectedAnnotationIndex, setActiveImage_selectedAnnotationIndex]
  simp only
  split_ifs <;> rfl

theorem session_switch :
    step refMath (sampleState [createdZoom] 0) (.imageLoaded 2 200 100) = sessionSwitched := by
  simp only [step, imageLoaded, setActiveImage, resizeCanvas, sampleState, sessionSwitched,
    sampleImage, createdZoom]
  norm_num [getActiveImage, getActiveImageData, jsIndex, redraw, setActiveAnnotations,
    getActiveAnnotations]

theorem run_switchSession : run refMath sessionStart switchSession = sessionSwitched := by
  rw [switchSession, run_append, run_selectSession]
  exact session_switch

theorem session_switch_delete :
    (step refMath (step refMath sessionSwitched (.deleteImageClick 1))
      .confirmOk).activeImageIndex = 0 := by
  simp only [step, showConfirmModal, hideConfirmModal, confirmOk, runConfirmCallback,
    deleteImageConfirmed,
    setActiveImage, resizeCanvas, sampleState, sessionSwitched, sampleImage, createdZoom]
  norm_num [getActiveImage, getActiveImageData, jsIndex, redraw, setActiveAnnotations,
    getActiveAnnotations, Outcome.state, redrawForEach]

/-- C18, the code on the failing session: an image is loaded, a pinned zoom is
created and selected by a click on it (`activeImageIndex = 0`,
`selectedAnnotationIndex = 0`); the load of a second image then calls
`setActiveImage(1)`, after which the active list is empty and
`selectedAnnotationIndex` is still 0, not `-1`, so the next wheel event throws on
reading the `type` of `undefined`.  A click on the first thumbnail
(`setActiveImage(0)`) and the confirmed deletion of the second image (which makes
image 0 the active one) leave `selectedAnnotationIndex = 0` as well. -/
theorem image_switch_keeps_selection :
    (run refMath sessionStart selectSession).activeImageIndex = 0 ∧
      (run refMath sessionStart selectSession).selectedAnnotationIndex = 0 ∧
      Reachable refMath (run refMath sessionStart switchSession) ∧
      (run refMath sessionStart switchSession).activeImageIndex = 1 ∧
      (run refMath sessionStart switchSession).selectedAnnotationIndex = 0 ∧
      getActiveAnnotations (run refMath sessionStart switchSession) = [] ∧
      wheel (run refMath sessionStart switchSession) 1 =
        .typeError (run refMath sessionStart switchSession) ∧
      (step refMath (run refMath sessionStart switchSession)
        (.thumbClick 0)).activeImageIndex = 0 ∧
      (step refMath (run refMath sessionStart switchSession)
        (.thumbClick 0)).selectedAnnotationIndex = 0 ∧
      (step refMath (step refMath (run refMath sessionStart switchSession)
        (.deleteImageClick 1)) .confirmOk).activeImageIndex = 0 ∧
      (step refMath (step refMath (run refMath sessionStart switchSession)
        (.deleteImageClick 1)) .confirmOk).selectedAnnotationIndex = 0 := by
  refine ⟨?_, ?_, reachable_run _ _ _ reachable_sessionStart, ?_⟩
  · rw [run_selectSession]; rfl
  · rw [run_selectSession]; rfl
  · rw [run_switchSession]
    refine ⟨rfl, rfl, rfl, rfl, setActiveImage_activeImageIndex _ _, ?_,
      session_switch_delete, ?_⟩
    · exact setActiveImage_selectedAnnotationIndex _ _
    · exact deleteImageConfirmed_selectedAnnotationIndex _ 1

/-! ## Tool switch in the middle of a drag (C19) -/

theorem getActiveImage_redraw (st : State) : getActiveImage (redraw st) = getActiveImage st := by
  by_cases h : Renderable st
  · rw [redraw_of_renderable h, getActiveImage_setActiveAnnotations]
  · rw [redraw_of_not_renderable h]

theorem setActiveTool_fields (st : State) (tool : Tool) :
    ∃ l, setActiveTool st tool =
      { st with imagesData := l, currentTool := tool, selectedAnnotationIndex := -1 } := by
  obtain ⟨l, hl⟩ := redraw_fields { st with currentTool := tool, selectedAnnotationIndex := -1 }
  exact ⟨l, hl⟩

theorem getOriginalPos_setActiveTool (st : State) (tool : Tool) (pos : Point) :
    getOriginalPos (setActiveTool st tool) pos = getOriginalPos st pos := by
  have hi : getActiveImage (setActiveTool st tool) = getActiveImage st :=
    getActiveImage_redraw { st with currentTool := tool, selectedAnnotationIndex := -1 }
  have hw : (setActiveTool st tool).canvasWidth = st.canvasWidth := by
    obtain ⟨l, hl⟩ := setActiveTool_fields st tool
    rw [hl]
  unfold getOriginalPos
  rw [hi, hw]

theorem mouseup_of_drawing (st : State) (pos : Point) (hr : st.isResizing = false)
    (hd : st.isDrawing = true) :
    mouseup st pos =
      match st.currentTool with
      | .measure => showInputModal { st with isDrawing := false }
          (.measureValue st.startPos (getOriginalPos st pos) st.colorPickerValue
            st.lineWidthValue)
      | .arrow => showInputModal { st with isDrawing := false }
          (.arrowText st.startPos (getOriginalPos st pos) st.colorPickerValue
            st.lineWidthValue)
      | _ => redraw { st with isDrawing := false } := by
  unfold mouseup
  rw [if_neg (by rw [hr]; decide), if_neg (by rw [hd]; decide)]
  rfl

theorem session_press :
    step refMath sessionLoaded (.mousedown ⟨20, 30⟩) = sessionDrawing := by
  simp only [step, mousedown, mousedownSelect, sampleState, sessionLoaded, sessionDrawing]
  simp [getActiveImage, getActiveImageData, jsIndex, redraw, setActiveAnnotations,
    getActiveAnnotations, hitLoop, getOriginalPos, Outcome.state]
  norm_num

theorem run_dragSession : run refMath sessionStart dragSession = sessionDrawing := by
  simp only [run, dragSession, List.foldl_cons, List.foldl_nil, session_step1, session_press]

theorem session_switch_tool :
    step refMath sessionDrawing (.toolClick .arrow) =
      { sampleState [] (-1) with isDrawing := true, startPos := ⟨40, 60⟩ } := rfl

theorem session_release :
    step refMath { sampleState [] (-1) with isDrawing := true, startPos := ⟨40, 60⟩ }
      (.mouseup ⟨50, 30⟩) =
      { sampleState [] (-1) with
        startPos := ⟨40, 60⟩,
        currentModalCallback := some (.arrowText ⟨40, 60⟩ ⟨100, 60⟩ "#ff0000" 3) } := by
  simp only [step, mouseup, showInputModal, sampleState]
  norm_num [getActiveImage, getActiveImageData, jsIndex, getOriginalPos]

theorem session_commit_arrow :
    getActiveAnnotations (step refMath { sampleState [] (-1) with
        startPos := ⟨40, 60⟩,
        currentModalCallback := some (.arrowText ⟨40, 60⟩ ⟨100, 60⟩ "#ff0000" 3) }
      (.modalOk "x")) = [ Annotation.arrow ⟨40, 60⟩ ⟨100, 60⟩ "#ff0000" 3 "x"] := by
  have hx : ("x" : String) ≠ "" := by decide
  simp only [step, modalOk, runModalCallback, hideInputModal, sampleState, if_pos hx]
  norm_num [getActiveImage, getActiveImageData, jsIndex, redraw, setActiveAnnotations,
    getActiveAnnotations, redrawForEach]

/-- C19, the code on a session: an image is loaded and the button is pressed with
the measure tool away from every annotation, so a drag is under way
(`isDrawing = true`); the shortcut of the arrow tool then calls `setActiveTool`,
after which `isDrawing` is still true; the release of the button opens the text
prompt of the arrow tool, and confirming it with `x` commits an arrow from the
press point to the release point. -/
theorem tool_switch_mid_drag_counterexample :
    Reachable refMath (run refMath sessionStart dragSession) ∧
      (run refMath sessionStart dragSession).isDrawing = true ∧
      (step refMath (run refMath sessionStart dragSession) (.toolClick .arrow)).isDrawing =
        true ∧
      (step refMath (step refMath (run refMath sessionStart dragSession) (.toolClick .arrow))
        (.mouseup ⟨50, 30⟩)).currentModalCallback =
        some (.arrowText ⟨40, 60⟩ ⟨100, 60⟩ "#ff0000" 3) ∧
      getActiveAnnotations (step refMath (step refMath (step refMath
        (run refMath sessionStart dragSession) (.toolClick .arrow)) (.mouseup ⟨50, 30⟩))
        (.modalOk "x")) = [ Annotation.arrow ⟨40, 60⟩ ⟨100, 60⟩ "#ff0000" 3 "x"] := by
  refine ⟨reachable_run _ _ _ reachable_sessionStart, ?_⟩
  rw [run_dragSession, session_switch_tool, session_release, session_commit_arrow]
  exact ⟨rfl, rfl, rfl, rfl⟩

/-- C19 as amended: `setActiveTool` sets the tool, sets `selectedAnnotationIndex`
to `-1` and leaves `isDrawing` and `isResizing` as they were.  After a tool switch
made in the middle of a drawing drag, the following mouseup opens the value prompt
when the new tool is the measure tool and the text prompt when it is the arrow
tool, from the start point of the drag to the release point; when the new tool is
the text or the zoom tool it opens no prompt and only ends the drag.  After a tool
switch made in the middle of a resize the following mouseup only ends the resize. -/
theorem setActiveTool_keeps_drag (st : State) (tool : Tool) (pos : Point) :
    (setActiveTool st tool).currentTool = tool ∧
      (setActiveTool st tool).selectedAnnotationIndex = -1 ∧
      (setActiveTool st tool).isDrawing = st.isDrawing ∧
      (setActiveTool st tool).isResizing = st.isResizing ∧
      (st.isResizing = false → st.isDrawing = true →
        (tool = .measure →
          (mouseup (setActiveTool st tool) pos).currentModalCallback =
            some (.measureValue st.startPos (getOriginalPos st pos) st.colorPickerValue
              st.lineWidthValue)) ∧
        (tool = .arrow →
          (mouseup (setActiveTool st tool) pos).currentModalCallback =
            some (.arrowText st.startPos (getOriginalPos st pos) st.colorPickerValue
              st.lineWidthValue)) ∧
        (tool = .text ∨ tool = Tool.zoom_annotation →
          (mouseup (setActiveTool st tool) pos).currentModalCallback =
            st.currentModalCallback ∧
          (mouseup (setActiveTool st tool) pos).isDrawing = false)) ∧
      (st.isResizing = true →
        mouseup (setActiveTool st tool) pos =
          { setActiveTool st tool with isResizing := false }) := by
  obtain ⟨l, hl⟩ := setActiveTool_fields st tool
  have hpos := getOriginalPos_setActiveTool st tool pos
  refine ⟨by rw [hl], by rw [hl], by rw [hl], by rw [hl], ?_, ?_⟩
  · intro hr hd
    have hr2 : (setActiveTool st tool).isResizing = false := by rw [hl]; exact hr
    have hd2 : (setActiveTool st tool).isDrawing = true := by rw [hl]; exact hd
    have hup := mouseup_of_drawing (setActiveTool st tool) pos hr2 hd2
    rw [hpos] at hup
    rw [hup]
    have ht : (setActiveTool st tool).currentTool = tool := by rw [hl]
    rw [ht]
    refine ⟨?_, ?_, ?_⟩
    · rintro rfl
      simp only [showInputModal]
      rw [hl]
    · rintro rfl
      simp only [showInputModal]
      rw [hl]
    · have hfield : ∀ s : State, (redraw s).currentModalCallback = s.currentModalCallback ∧
          (redraw s).isDrawing = s.isDrawing := by
        intro s
        obtain ⟨l2, h2⟩ := redraw_fields s
        rw [h2]
        exact ⟨rfl, rfl⟩
      rintro (rfl | rfl)
      · simp only
        rw [(hfield _).1, (hfield _).2]
        refine ⟨?_, rfl⟩
        show (setActiveTool st .text).currentModalCallback = _
        rw [hl]
      · simp only
        rw [(hfield _).1, (hfield _).2]
        refine ⟨?_, rfl⟩
        show (setActiveTool st Tool.zoom_annotation).currentModalCallback = _
        rw [hl]
  · intro hr
    unfold mouseup
    rw [if_pos (by rw [hl]; exact hr)]

/-- C19 at the drag of the sample session, interrupted by a switch to the arrow
tool. -/
theorem setActiveTool_keeps_drag_witness :
    sessionDrawing.isResizing = false ∧ sessionDrawing.isDrawing = true ∧
      (setActiveTool sessionDrawing .arrow).isDrawing = true ∧
      (mouseup (setActiveTool sessionDrawing .arrow) ⟨50, 30⟩).currentModalCallback =
        some (.arrowText sessionDrawing.startPos (getOriginalPos sessionDrawing ⟨50, 30⟩)
          sessionDrawing.colorPickerValue sessionDrawing.lineWidthValue) :=
  ⟨rfl, rfl, (setActiveTool_keeps_drag sessionDrawing .arrow ⟨50, 30⟩).2.2.1,
    ((setActiveTool_keeps_drag sessionDrawing .arrow ⟨50, 30⟩).2.2.2.2.1 rfl rfl).2.1 rfl⟩

/-! ## Hit tolerance of `getAnnotationAt` (C12) -/

theorem isPointNear_iff (M : JsMath) (x y : ℚ) (p : Point) (c z : ℚ) (hz : 0 < z) :
    isPointNear M x y p.x p.y (c / z) = true ↔ pointDistance M x y p * z < c := by
  unfold isPointNear pointDistance
  rw [decide_eq_true_iff, lt_div_iff₀ hz]

theorem annotationHit_of_endpoints (M : JsMath) (z x y : ℚ) (hz : 0 < z) {ann : ScriptAnn}
    {start endPos : Point} (hann : ann.endpoints? = some (start, endPos)) :
    annotationHit M z x y ann = true ↔
      pointDistance M x y start * z < 10 ∨ pointDistance M x y endPos * z < 10 := by
  cases ann with
  | measure id color lineWidth s e =>
      simp only [ScriptAnn.endpoints?, Option.some.injEq, Prod.mk.injEq] at hann
      obtain ⟨rfl, rfl⟩ := hann
      simp only [annotationHit, Bool.or_eq_true, isPointNear_iff M x y _ 10 z hz]
  | arrow id color lineWidth s e =>
      simp only [ScriptAnn.endpoints?, Option.some.injEq, Prod.mk.injEq] at hann
      obtain ⟨rfl, rfl⟩ := hann
      simp only [annotationHit, Bool.or_eq_true, isPointNear_iff M x y _ 10 z hz]
  | text id color lineWidth ax ay t => cases hann
  | zoom_annotation id color lineWidth ax ay radius zoomX zoomY zoomRadius => cases hann

theorem getAnnotationAt_singleton (M : JsMath) (cm : CanvasManager) (ann : ScriptAnn)
    (h : cm.annotations = [ann]) (x y : ℚ) :
    getAnnotationAt M cm x y =
      if annotationHit M cm.zoomLevel x y ann = true then some ann else none := by
  unfold getAnnotationAt
  rw [h, List.reverse_singleton, List.find?_cons, List.find?_nil]
  cases annotationHit M cm.zoomLevel x y ann <;> rfl

theorem getAnnotationAt_isSome (M : JsMath) (cm : CanvasManager) (x y : ℚ) :
    (getAnnotationAt M cm x y).isSome = true ↔
      ∃ ann ∈ cm.annotations, annotationHit M cm.zoomLevel x y ann = true := by
  unfold getAnnotationAt
  rw [List.find?_isSome]
  simp only [List.mem_reverse]

theorem refMath_sqrt_sq (q : ℚ) (hq : 0 ≤ q) : refMath.sqrt (q ^ 2) = q := by
  show Rat.sqrt (q ^ 2) = q
  rw [pow_two, Rat.sqrt_eq, abs_of_nonneg hq]

theorem pointDistance_sample_start : pointDistance refMath (19 / 2) 5 ⟨0, 5⟩ = 19 / 2 := by
  have e : ((19 : ℚ) / 2 - 0) ^ 2 + (5 - 5) ^ 2 = (19 / 2) ^ 2 := by norm_num
  simp only [pointDistance]
  rw [e]
  exact refMath_sqrt_sq (19 / 2) (by norm_num)

theorem pointDistance_sample_end : pointDistance refMath (19 / 2) 5 ⟨100, 5⟩ = 181 / 2 := by
  have e : ((19 : ℚ) / 2 - 100) ^ 2 + (5 - 5) ^ 2 = (181 / 2) ^ 2 := by norm_num
  simp only [pointDistance]
  rw [e]
  exact refMath_sqrt_sq (181 / 2) (by norm_num)

theorem annotationHit_sample (z : ℚ) (hz : 0 < z) :
    annotationHit refMath z (19 / 2) 5 scriptMeasure = true ↔
      (19 : ℚ) / 2 * z < 10 ∨ (181 : ℚ) / 2 * z < 10 := by
  have h := annotationHit_of_endpoints refMath z (19 / 2) 5 hz
    (rfl : scriptMeasure.endpoints? = some (⟨0, 5⟩, ⟨100, 5⟩))
  rw [pointDistance_sample_start, pointDistance_sample_end] at h
  exact h

/-- C12, the code on a canvas holding a measure from (0, 5) to (100, 5): the
image point (19/2, 5), at distance 19/2 from the start point, is what
`getCanvasCoords` returns for the pointer at (19/2, 5) at zoom level 1 and for the
pointer at (209/20, 11/2) at zoom level 11/10; `getAnnotationAt` returns the
measure for it at zoom level 1 (tolerance 10) and `null` at zoom level 11/10
(tolerance 100/11). -/
theorem tolerance_not_constant_counterexample :
    getCanvasCoords (sampleCanvas 1) ⟨0, 0⟩ ⟨19 / 2, 5⟩ = ⟨some (19 / 2), some 5⟩ ∧
      getCanvasCoords (sampleCanvas (11 / 10)) ⟨0, 0⟩ ⟨209 / 20, 11 / 2⟩ =
        ⟨some (19 / 2), some 5⟩ ∧
      pointDistance refMath (19 / 2) 5 ⟨0, 5⟩ = 19 / 2 ∧
      getAnnotationAt refMath (sampleCanvas 1) (19 / 2) 5 = some scriptMeasure ∧
      getAnnotationAt refMath (sampleCanvas (11 / 10)) (19 / 2) 5 = none := by
  refine ⟨?_, ?_, pointDistance_sample_start, ?_, ?_⟩
  · simp only [getCanvasCoords, clientCoord, sampleCanvas]
    norm_num
  · simp only [getCanvasCoords, clientCoord, sampleCanvas]
    norm_num
  · rw [getAnnotationAt_singleton refMath (sampleCanvas 1) scriptMeasure rfl, if_pos]
    exact (annotationHit_sample 1 (by norm_num)).mpr (Or.inl (by norm_num))
  · rw [getAnnotationAt_singleton refMath (sampleCanvas (11 / 10)) scriptMeasure rfl, if_neg]
    intro h
    rcases (annotationHit_sample (11 / 10) (by norm_num)).mp h with h1 | h1
    · norm_num at h1
    · norm_num at h1

/-- C12 as amended: for `zoomLevel > 0` the test of a measure or an arrow in
`getAnnotationAt` compares the distance from the point to an endpoint, in image
coordinates, with `10 / zoomLevel`: the annotation passes exactly when that
distance times `zoomLevel` (the distance on screen) is below 10 for one of its two
endpoints, so a point that passes at a zoom level passes at every smaller one;
and `getAnnotationAt` returns an annotation exactly when some annotation of the
list passes its test. -/
theorem endpoint_tolerance (M : JsMath) (cm : CanvasManager) (x y : ℚ) (ann : ScriptAnn)
    (start endPos : Point) (hz : 0 < cm.zoomLevel)
    (hann : ann.endpoints? = some (start, endPos)) (hsqrt : ∀ q, 0 ≤ M.sqrt q) :
    (annotationHit M cm.zoomLevel x y ann = true ↔
        pointDistance M x y start * cm.zoomLevel < 10 ∨
          pointDistance M x y endPos * cm.zoomLevel < 10) ∧
      (∀ z, 0 < z → z ≤ cm.zoomLevel → annotationHit M cm.zoomLevel x y ann = true →
        annotationHit M z x y ann = true) ∧
      ((getAnnotationAt M cm x y).isSome = true ↔
        ∃ a ∈ cm.annotations, annotationHit M cm.zoomLevel x y a = true) ∧
      (cm.annotations = [ann] →
        (getAnnotationAt M cm x y = some ann ↔
          pointDistance M x y start * cm.zoomLevel < 10 ∨
            pointDistance M x y endPos * cm.zoomLevel < 10)) := by
  have hiff := annotationHit_of_endpoints M cm.zoomLevel x y hz hann
  refine ⟨hiff, ?_, getAnnotationAt_isSome M cm x y, ?_⟩
  · intro z hz0 hle hhit
    rw [annotationHit_of_endpoints M z x y hz0 hann]
    have hmono : ∀ p : Point, pointDistance M x y p * cm.zoomLevel < 10 →
        pointDistance M x y p * z < 10 := by
      intro p hp
      exact lt_of_le_of_lt (mul_le_mul_of_nonneg_left hle (hsqrt _)) hp
    rcases hiff.mp hhit with h | h
    · exact Or.inl (hmono _ h)
    · exact Or.inr (hmono _ h)
  · intro hlist
    rw [getAnnotationAt_singleton M cm ann hlist, ← hiff]
    by_cases hh : annotationHit M cm.zoomLevel x y ann = true
    · simp [hh]
    · simp [hh]

/-- C12 at the sample canvas at zoom level 11/10 and the image point (9, 5), at
distance 9 from the start point of the measure. -/
theorem endpoint_tolerance_witness :
    (0 : ℚ) < (sampleCanvas (11 / 10)).zoomLevel ∧
      scriptMeasure.endpoints? = some (⟨0, 5⟩, ⟨100, 5⟩) ∧
      (∀ q, 0 ≤ refMath.sqrt q) ∧
      (getAnnotationAt refMath (sampleCanvas (11 / 10)) 9 5 = some scriptMeasure ↔
        pointDistance refMath 9 5 ⟨0, 5⟩ * (sampleCanvas (11 / 10)).zoomLevel < 10 ∨
          pointDistance refMath 9 5 ⟨100, 5⟩ * (sampleCanvas (11 / 10)).zoomLevel < 10) :=
  have hz : (0 : ℚ) < (sampleCanvas (11 / 10)).zoomLevel := by
    show (0 : ℚ) < 11 / 10
    norm_num
  ⟨hz, rfl, Rat.sqrt_nonneg,
    (endpoint_tolerance refMath (sampleCanvas (11 / 10)) 9 5 scriptMeasure ⟨0, 5⟩ ⟨100, 5⟩
      hz rfl Rat.sqrt_nonneg).2.2.2 rfl⟩

/-! ## Canvas size (C22) -/

theorem redraw_canvas (st : State) :
    (redraw st).canvasWidth = st.canvasWidth ∧ (redraw st).canvasHeight = st.canvasHeight := by
  obtain ⟨l, hl⟩ := redraw_fields st
  rw [hl]
  exact ⟨rfl, rfl⟩

theorem resizeCanvas_of_image {st : State} {img : Image} (himg : getActiveImage st = some img) :
    ((resizeCanvas st).canvasWidth, (resizeCanvas st).canvasHeight) =
      if img.naturalWidth / img.naturalHeight > targetWidth st / targetHeight st then
        (targetWidth st, targetWidth st / (img.naturalWidth / img.naturalHeight))
      else (targetHeight st * (img.naturalWidth / img.naturalHeight), targetHeight st) := by
  unfold resizeCanvas targetWidth targetHeight
  rw [himg]
  simp only
  split_ifs <;> rw [(redraw_canvas _).1, (redraw_canvas _).2]

/-- C22: for an active image of natural width `w > 0` and height `h > 0` and a
target container of width `cw > 0` and height `ch > 0`, over exact numbers, the
canvas size computed by `resizeCanvas` has `canvasWidth / canvasHeight = w / h`,
`canvasWidth ≤ cw`, `canvasHeight ≤ ch`, and `canvasWidth = cw` or
`canvasHeight = ch`; the horizontal ratio `canvasWidth / w` equals the vertical
ratio `canvasHeight / h`. -/
theorem resizeCanvas_fits (st : State) (img : Image) (himg : getActiveImage st = some img)
    (hw : 0 < img.naturalWidth) (hh : 0 < img.naturalHeight)
    (hcw : 0 < targetWidth st) (hch : 0 < targetHeight st) :
    (resizeCanvas st).canvasWidth / (resizeCanvas st).canvasHeight =
        img.naturalWidth / img.naturalHeight ∧
      (resizeCanvas st).canvasWidth ≤ targetWidth st ∧
      (resizeCanvas st).canvasHeight ≤ targetHeight st ∧
      ((resizeCanvas st).canvasWidth = targetWidth st ∨
        (resizeCanvas st).canvasHeight = targetHeight st) ∧
      (resizeCanvas st).canvasWidth / img.naturalWidth =
        (resizeCanvas st).canvasHeight / img.naturalHeight := by
  have h := resizeCanvas_of_image himg
  have hr : 0 < img.naturalWidth / img.naturalHeight := div_pos hw hh
  generalize (resizeCanvas st).canvasWidth = a at h ⊢
  generalize (resizeCanvas st).canvasHeight = b at h ⊢
  generalize targetWidth st = cw at h hcw ⊢
  generalize targetHeight st = ch at h hch ⊢
  generalize img.naturalWidth = w at h hw hr ⊢
  generalize img.naturalHeight = k at h hh hr ⊢
  by_cases hc : w / k > cw / ch
  · rw [if_pos hc, Prod.mk.injEq] at h
    obtain ⟨ha, hb⟩ := h
    rw [ha, hb]
    refine ⟨?_, le_refl _, ?_, Or.inl rfl, ?_⟩
    · field_simp
      ring
    · rw [div_le_iff₀ hr]
      have := (div_lt_iff₀ hch).mp hc
      linarith [mul_comm (w / k) ch]
    · field_simp
      ring
  · rw [if_neg hc, Prod.mk.injEq] at h
    obtain ⟨ha, hb⟩ := h
    rw [ha, hb]
    refine ⟨?_, ?_, le_refl _, Or.inr rfl, ?_⟩
    · field_simp
      ring
    · have := (le_div_iff₀ hch).mp (not_lt.mp hc)
      linarith [mul_comm (w / k) ch]
    · field_simp
      ring

/-- C22 on the sample state: a 200 by 100 image in a 100 by 100 container. -/
theorem resizeCanvas_fits_witness :
    getActiveImage (sampleState [] (-1)) = some sampleImage ∧
      (resizeCanvas (sampleState [] (-1))).canvasWidth /
          (resizeCanvas (sampleState [] (-1))).canvasHeight =
        sampleImage.naturalWidth / sampleImage.naturalHeight ∧
      (resizeCanvas (sampleState [] (-1))).canvasWidth ≤ targetWidth (sampleState [] (-1)) :=
  have h := resizeCanvas_fits (sampleState [] (-1)) sampleImage rfl
    (by norm_num [sampleImage]) (by norm_num [sampleImage])
    (by norm_num [targetWidth, sampleState]) (by norm_num [targetHeight, sampleState])
  ⟨rfl, h.1, h.2.1⟩

/-! ## Active image after a deletion (C23) -/

theorem getActiveImageData_entry (st : State) :
    (getActiveImageData st).map (fun data => (data.id, data.image)) =
      jsIndex (imageEntries st) st.activeImageIndex := by
  unfold getActiveImageData jsIndex imageEntries
  by_cases h : st.activeImageIndex > -1
  · rw [if_pos h, if_neg (by omega), if_neg (by omega), List.getElem?_map]
  · rw [if_neg h, if_pos (by omega)]
    rfl

theorem map_eraseIdx {α β : Type} (f : α → β) :
    ∀ (l : List α) (i : ℕ), (l.eraseIdx i).map f = (l.map f).eraseIdx i
  | [], _ => rfl
  | _ :: _, 0 => rfl
  | a :: l, i + 1 => by
      simp only [List.eraseIdx_cons_succ, List.map_cons, map_eraseIdx f l i]

theorem deleteImageConfirmed_spec (st : State) (index : ℕ) :
    imageEntries (deleteImageConfirmed st index) = (imageEntries st).eraseIdx index ∧
      (deleteImageConfirmed st index).imagesData.length =
        (st.imagesData.eraseIdx index).length ∧
      (deleteImageConfirmed st index).activeImageIndex =
        if (st.imagesData.eraseIdx index).length = 0 then -1
        else if (if st.activeImageIndex ≥ (index : ℤ) then st.activeImageIndex - 1
            else st.activeImageIndex) < 0 ∧ (st.imagesData.eraseIdx index).length > 0 then 0
        else if st.activeImageIndex ≥ (index : ℤ) then st.activeImageIndex - 1
        else st.activeImageIndex := by
  have key : ∀ t : State, imageEntries (resizeCanvas (setActiveImage t t.activeImageIndex)) =
        imageEntries t ∧
      (resizeCanvas (setActiveImage t t.activeImageIndex)).imagesData.length =
        t.imagesData.length ∧
      (resizeCanvas (setActiveImage t t.activeImageIndex)).activeImageIndex =
        t.activeImageIndex := by
    intro t
    have hset : setActiveImage t t.activeImageIndex = t := by
      unfold setActiveImage
      rw [if_pos rfl]
    rw [hset]
    exact ⟨(resizeCanvas_fields t).1, (resizeCanvas_fields t).2.2, (resizeCanvas_fields t).2.1⟩
  unfold deleteImageConfirmed
  simp only
  rw [(key _).1, (key _).2.1, (key _).2.2]
  split_ifs <;> refine ⟨map_eraseIdx _ _ _, rfl, ?_⟩ <;> simp_all

/-- C23: when the deletion of the image at a valid `index` is confirmed in a state
whose `activeImageIndex` is a valid index, the resulting `activeImageIndex` is `-1`
exactly when the image list is now empty, and otherwise a valid index of the
shortened list; and when the deleted image was not the active one, the entry that
was active (its id and image) is the active entry afterwards. -/
theorem deleteImage_active (st : State) (index : ℕ) (hidx : index < st.imagesData.length)
    (hlo : 0 ≤ st.activeImageIndex)
    (hhi : st.activeImageIndex < (st.imagesData.length : ℤ)) :
    ((deleteImageConfirmed st index).activeImageIndex = -1 ↔
        (deleteImageConfirmed st index).imagesData = []) ∧
      ((deleteImageConfirmed st index).imagesData ≠ [] →
        0 ≤ (deleteImageConfirmed st index).activeImageIndex ∧
          (deleteImageConfirmed st index).activeImageIndex <
            ((deleteImageConfirmed st index).imagesData.length : ℤ)) ∧
      ((index : ℤ) ≠ st.activeImageIndex →
        ∃ entry : ℚ × Image,
          (getActiveImageData st).map (fun data => (data.id, data.image)) = some entry ∧
          (getActiveImageData (deleteImageConfirmed st index)).map
            (fun data => (data.id, data.image)) = some entry) := by
  obtain ⟨hent, hlen, hact⟩ := deleteImageConfirmed_spec st index
  have hn : (st.imagesData.eraseIdx index).length = st.imagesData.length - 1 := by
    rw [List.length_eraseIdx, if_pos hidx]
  simp only [hn] at hlen hact
  have hnil : (deleteImageConfirmed st index).imagesData = [] ↔
      (deleteImageConfirmed st index).imagesData.length = 0 := List.length_eq_zero.symm
  refine ⟨?_, ?_, ?_⟩
  · rw [hnil, hlen, hact]
    clear hnil hent hact hlen
    by_cases hge : st.activeImageIndex ≥ (index : ℤ)
    · simp only [if_pos hge]
      split_ifs <;> first | omega | (rw [false_iff]; omega)
    · simp only [if_neg hge]
      split_ifs <;> omega
  · intro hne
    have hpos : (deleteImageConfirmed st index).imagesData.length ≠ 0 :=
      fun h => hne (hnil.mpr h)
    rw [hlen] at hpos ⊢
    rw [hact]
    clear hnil hent hact hlen
    by_cases hge : st.activeImageIndex ≥ (index : ℤ)
    · simp only [if_pos hge]
      split_ifs <;> omega
    · simp only [if_neg hge]
      split_ifs <;> omega
  · intro hneq
    rw [getActiveImageData_entry, getActiveImageData_entry, hent, hact]
    have hlenE : (imageEntries st).length = st.imagesData.length := by
      simp [imageEntries]
    obtain ⟨a, ha⟩ : ∃ a : ℕ, st.activeImageIndex = (a : ℤ) :=
      ⟨st.activeImageIndex.toNat, (Int.toNat_of_nonneg hlo).symm⟩
    rw [ha] at hneq hhi ⊢
    have halt : a < (imageEntries st).length := by omega
    refine ⟨(imageEntries st)[a], ?_, ?_⟩
    · unfold jsIndex
      rw [if_neg (by omega), Int.toNat_ofNat, List.getElem?_eq_getElem halt]
    · rw [if_neg (by omega)]
      by_cases hge : (a : ℤ) ≥ (index : ℤ)
      · rw [if_pos hge, if_neg (by omega)]
        unfold jsIndex
        rw [if_neg (by omega)]
        have hto : ((a : ℤ) - 1).toNat = a - 1 := by omega
        rw [hto, List.getElem?_eraseIdx_of_ge _ _ _ (by omega)]
        have h1 : a - 1 + 1 = a := by omega
        rw [h1, List.getElem?_eq_getElem halt]
      · rw [if_neg hge, if_neg (by omega)]
        unfold jsIndex
        rw [if_neg (by omega), Int.toNat_ofNat,
          List.getElem?_eraseIdx_of_lt _ _ _ (by omega), List.getElem?_eq_getElem halt]

/-- C23 on two images with the first one active, the second one deleted. -/
theorem deleteImage_active_witness :
    (1 : ℕ) < sessionTwoImages.imagesData.length ∧
      0 ≤ sessionTwoImages.activeImageIndex ∧
      sessionTwoImages.activeImageIndex < (sessionTwoImages.imagesData.length : ℤ) ∧
      ((deleteImageConfirmed sessionTwoImages 1).activeImageIndex = -1 ↔
        (deleteImageConfirmed sessionTwoImages 1).imagesData = []) :=
  ⟨by decide, by decide, by decide,
    (deleteImage_active sessionTwoImages 1 (by decide) (by decide) (by decide)).1⟩

/-! ## Word wrapping (C27) -/

theorem wrapText_eq (measureText : String → ℚ) (font fillStyle text : String)
    (x y maxWidth lineHeight : ℚ) :
    wrapText measureText font fillStyle text x y maxWidth lineHeight =
      (((text.splitOn " ").foldl (wrapStep measureText font fillStyle x maxWidth lineHeight)
          ("", y, [], 0)).2.2.1 ++
        [DrawOp.fillText
          ((text.splitOn " ").foldl (wrapStep measureText font fillStyle x maxWidth lineHeight)
            ("", y, [], 0)).1 x
          ((text.splitOn " ").foldl (wrapStep measureText font fillStyle x maxWidth lineHeight)
            ("", y, [], 0)).2.1 font fillStyle],
       ((text.splitOn " ").foldl (wrapStep measureText font fillStyle x maxWidth lineHeight)
          ("", y, [], 0)).2.1 + lineHeight) := rfl

theorem lineOf_concat (cur : List String) (word : String) :
    lineOf (cur ++ [word]) = lineOf cur ++ word ++ " " := by
  simp [lineOf, List.foldl_append]

theorem lineOf_singleton (word : String) : lineOf [word] = word ++ " " := by
  simp [lineOf]

theorem lineOps_concat (font fillStyle : String) (x y lineHeight : ℚ)
    (done : List (List String)) (cur : List String) :
    lineOps font fillStyle x y lineHeight (done ++ [cur]) =
      lineOps font fillStyle x y lineHeight done ++
        [DrawOp.fillText (lineOf cur) x (y + lineHeight * done.length) font fillStyle] := by
  simp [lineOps, List.enum_append, List.enumFrom_singleton]

theorem wrapInv_step (measureText : String → ℚ) (font fillStyle : String)
    (x y maxWidth lineHeight : ℚ) (done : List (List String)) (cur : List String)
    (acc : String × ℚ × List DrawOp × ℕ) (word : String)
    (h : WrapInv measureText font fillStyle x y maxWidth lineHeight done cur acc) :
    ∃ done2 cur2,
      WrapInv measureText font fillStyle x y maxWidth lineHeight done2 cur2
        (wrapStep measureText font fillStyle x maxWidth lineHeight acc word) ∧
      done2.flatten ++ cur2 = done.flatten ++ cur ++ [word] := by
  unfold wrapStep
  simp only
  by_cases hc : measureText (acc.1 ++ word ++ " ") > maxWidth ∧ acc.2.2.2 > 0
  · rw [if_pos hc]
    refine ⟨done ++ [cur], [word], ⟨?_, ?_, ?_, ?_, ?_, ?_⟩, ?_⟩
    · exact (lineOf_singleton word).symm
    · simp only [h.pos, List.length_append, List.length_singleton]
      push_cast
      ring
    · simp only [h.ops, h.line, h.pos, lineOps_concat]
    · simp only [h.count, List.flatten_append, List.length_append, List.flatten_singleton,
        List.length_singleton]
    · intro block hb hlen
      rcases List.mem_append.mp hb with hb | hb
      · exact h.fits block hb hlen
      · rw [List.mem_singleton] at hb
        rw [hb] at hlen ⊢
        exact h.fitsCur hlen
    · intro hlen
      simp at hlen
    · simp
  · rw [if_neg hc]
    refine ⟨done, cur ++ [word], ⟨?_, h.pos, h.ops, ?_, h.fits, ?_⟩, ?_⟩
    · simp only [h.line, lineOf_concat]
    · simp only [h.count, List.length_append, List.length_singleton]
      ring
    · intro hlen
      rw [lineOf_concat, ← h.line]
      have hn : acc.2.2.2 > 0 := by
        rw [h.count, List.length_append]
        simp only [List.length_append, List.length_singleton] at hlen
        omega
      by_contra hgt
      exact hc ⟨not_le.mp hgt, hn⟩
    · simp

theorem wrapInv_foldl (measureText : String → ℚ) (font fillStyle : String)
    (x y maxWidth lineHeight : ℚ) (words : List String) :
    ∀ (done : List (List String)) (cur : List String) (acc : String × ℚ × List DrawOp × ℕ),
      WrapInv measureText font fillStyle x y maxWidth lineHeight done cur acc →
      ∃ done2 cur2,
        WrapInv measureText font fillStyle x y maxWidth lineHeight done2 cur2
          (words.foldl (wrapStep measureText font fillStyle x maxWidth lineHeight) acc) ∧
        done2.flatten ++ cur2 = done.flatten ++ cur ++ words := by
  induction words with
  | nil =>
      intro done cur acc h
      exact ⟨done, cur, h, by simp⟩
  | cons word rest ih =>
      intro done cur acc h
      obtain ⟨d1, c1, h1, e1⟩ := wrapInv_step measureText font fillStyle x y maxWidth
        lineHeight done cur acc word h
      obtain ⟨d2, c2, h2, e2⟩ := ih d1 c1 _ h1
      refine ⟨d2, c2, h2, ?_⟩
      rw [e2, e1]
      simp

theorem concatLines_lineOf (blocks : List (List String)) :
    concatLines (blocks.map lineOf) = lineOf blocks.flatten := by
  have hline : ∀ (b : List String) (s : String),
      b.foldl (fun line word => line ++ word ++ " ") s = s ++ lineOf b := by
    intro b
    induction b using List.reverseRecOn with
    | nil => intro s; simp [lineOf]
    | append_singleton b w ih =>
        intro s
        rw [List.foldl_append, List.foldl_cons, List.foldl_nil, ih, lineOf_concat]
        simp [String.append_assoc]
  induction blocks using List.reverseRecOn with
  | nil => rfl
  | append_singleton blocks b ih =>
      have happ : lineOf (blocks.flatten ++ b) = lineOf blocks.flatten ++ lineOf b := by
        show (blocks.flatten ++ b).foldl _ "" = _
        rw [List.foldl_append]
        exact hline b _
      rw [List.map_append, List.map_singleton, List.flatten_append, List.flatten_singleton,
        happ]
      unfold concatLines at ih ⊢
      rw [List.foldl_append, List.foldl_cons, List.foldl_nil, ih]

/-- C27: for every text, width-measuring function, `maxWidth` and `lineHeight`,
`wrapText` splits the words of `text.split(' ')` into consecutive lines: at least
one line is drawn; the lines are drawn from `y` on, `lineHeight` apart, each made
of its words followed by one space; the lines joined in order are the words in
order, each followed by one space; every line of two or more words has measured
width at most `maxWidth`; and the value returned is `y` plus `lineHeight` times
the number of lines. -/
theorem wrapText_lines (measureText : String → ℚ) (font fillStyle text : String)
    (x y maxWidth lineHeight : ℚ) :
    ∃ blocks : List (List String),
      blocks ≠ [] ∧
      blocks.flatten = text.splitOn " " ∧
      (wrapText measureText font fillStyle text x y maxWidth lineHeight).1 =
        lineOps font fillStyle x y lineHeight blocks ∧
      concatLines (blocks.map lineOf) = lineOf (text.splitOn " ") ∧
      (∀ block ∈ blocks, 2 ≤ block.length → measureText (lineOf block) ≤ maxWidth) ∧
      (wrapText measureText font fillStyle text x y maxWidth lineHeight).2 =
        y + lineHeight * blocks.length := by
  have h0 : WrapInv measureText font fillStyle x y maxWidth lineHeight [] [] ("", y, [], 0) :=
    ⟨rfl, by simp, rfl, rfl, fun _ hb => absurd hb (List.not_mem_nil _),
      fun hlen => absurd hlen (by simp)⟩
  obtain ⟨done, cur, h, e⟩ := wrapInv_foldl measureText font fillStyle x y maxWidth lineHeight
    (text.splitOn " ") [] [] _ h0
  have hflat : (done ++ [cur]).flatten = text.splitOn " " := by
    rw [List.flatten_append, List.flatten_singleton, e]
    simp
  refine ⟨done ++ [cur], by simp, hflat, ?_, ?_, ?_, ?_⟩
  · rw [wrapText_eq, lineOps_concat, h.ops, h.line, h.pos]
  · rw [concatLines_lineOf, hflat]
  · intro block hb hlen
    rcases List.mem_append.mp hb with hb | hb
    · exact h.fits block hb hlen
    · rw [List.mem_singleton] at hb
      rw [hb] at hlen ⊢
      exact h.fitsCur hlen
  · rw [wrapText_eq, h.pos]
    simp only [List.length_append, List.length_singleton]
    push_cast
    ring

/-! ## Re-committing the text of a measure (C28) -/

theorem parseFloat_fifty : parseFloat "50.0 mm" = some 50 := by
  have hl : "50.0 mm".toList = ['5', '0', '.', '0', ' ', 'm', 'm'] := by decide
  have h5 : Char.isDigit '5' = true := by decide
  have h0 : Char.isDigit '0' = true := by decide
  have hd : Char.isDigit '.' = false := by decide
  have hs : Char.isDigit ' ' = false := by decide
  have hw5 : Char.isWhitespace '5' = false := by decide
  have t5 : '5'.toNat = 53 := by decide
  have t0 : '0'.toNat = 48 := by decide
  unfold parseFloat
  rw [hl]
  simp +decide only [List.dropWhile, List.takeWhile, hw5, h5, h0, hd, hs, List.head?, List.tail,
    if_true, if_false, digitsValue, List.foldl, t5, t0, List.length]
  norm_num

theorem parseFloat_negative_zero : parseFloat "-0.0 cm" = some 0 := by
  have hl : "-0.0 cm".toList = ['-', '0', '.', '0', ' ', 'c', 'm'] := by decide
  have h0 : Char.isDigit '0' = true := by decide
  have hd : Char.isDigit '.' = false := by decide
  have hs : Char.isDigit ' ' = false := by decide
  have hw : Char.isWhitespace '-' = false := by decide
  have t0 : '0'.toNat = 48 := by decide
  unfold parseFloat
  rw [hl]
  simp +decide only [List.dropWhile, List.takeWhile, hw, h0, hd, hs, List.head?, List.tail,
    if_true, if_false, digitsValue, List.foldl, t0, List.length]
  norm_num

theorem toFixed1_values :
    toFixed1 (5 * 10) = "50.0" ∧ toFixed1 (50 * 10) = "500.0" ∧
      toFixed1 (-(1 / 25)) = "-0.0" ∧ toFixed1 0 = "0.0" := by
  refine ⟨?_, ?_, ?_, ?_⟩
  · simp [toFixed1]
    norm_num
    decide
  · simp [toFixed1]
    norm_num
    decide
  · simp [toFixed1]
    norm_num
    decide
  · have h : ⌊(2⁻¹ : ℚ)⌋ = 0 := by
      rw [Int.floor_eq_iff]
      norm_num
    simp [toFixed1, h]
    decide

theorem listInputChange_sessionMm :
    (listInputChange sessionMm 0 "50.0 mm").state = sessionMmCommitted := by
  have ha : getActiveAnnotations sessionMm = [sampleMeasure] := rfl
  unfold listInputChange
  rw [ha]
  simp only [sampleMeasure, List.getElem?_cons_zero, parseFloat_fifty, List.set_cons_zero,
    Outcome.state, sessionMm, sessionMmCommitted, sampleState]
  norm_num [redraw, setActiveAnnotations, getActiveImage, getActiveImageData, jsIndex,
    getActiveAnnotations, redrawForEach]

theorem listInputChange_tiny :
    (listInputChange (sampleState [tinyMeasure] (-1)) 0 "-0.0 cm").state =
      sampleState [ Annotation.measure ⟨0, 0⟩ ⟨100, 0⟩ "c" 3 0 .cm] (-1) := by
  have ha : getActiveAnnotations (sampleState [tinyMeasure] (-1)) = [tinyMeasure] := rfl
  unfold listInputChange
  rw [ha]
  simp only [tinyMeasure, List.getElem?_cons_zero, parseFloat_negative_zero,
    List.set_cons_zero, Outcome.state, sampleState]
  norm_num [redraw, setActiveAnnotations, getActiveImage, getActiveImageData, jsIndex,
    getActiveAnnotations, redrawForEach]

theorem renderAnnotationList_measure (st : State) (start endPos : Point) (color : String)
    (width value : ℚ) (unit : LengthUnit)
    (h : getActiveAnnotations st = [ Annotation.measure start endPos color width value unit]) :
    (renderAnnotationList st).map ListItem.textContent =
      [toFixed1 (displayValue value unit st.displayUnit) ++ " " ++ st.displayUnit.str] := by
  simp only [renderAnnotationList, h, List.enum_singleton, List.map_cons, List.map_nil,
    getAnnotationText]

/-- C28, the code on two failing inputs.  A measure stored as 5 cm and displayed in
millimetres shows `50.0 mm` in the list; committing that text unchanged stores 50
as the value, still in centimetres, and the list then shows `500.0 mm`.  A measure
stored as -0.04 cm and displayed in centimetres shows `-0.0 cm`; committing that
text unchanged stores 0 and the list then shows `0.0 cm`. -/
theorem recommit_changes_label :
    (renderAnnotationList sessionMm).map ListItem.textContent = ["50.0 mm"] ∧
      (renderAnnotationList (listInputChange sessionMm 0 "50.0 mm").state).map
        ListItem.textContent = ["500.0 mm"] ∧
      (renderAnnotationList (sampleState [tinyMeasure] (-1))).map ListItem.textContent =
        ["-0.0 cm"] ∧
      (renderAnnotationList
        (listInputChange (sampleState [tinyMeasure] (-1)) 0 "-0.0 cm").state).map
        ListItem.textContent = ["0.0 cm"] := by
  obtain ⟨t1, t2, t3, t4⟩ := toFixed1_values
  rw [listInputChange_sessionMm, listInputChange_tiny]
  have d1 : displayValue 5 .cm .mm = 5 * 10 := by simp [displayValue]
  have d2 : displayValue 50 .cm .mm = 50 * 10 := by simp [displayValue]
  have d3 : displayValue (-(1 / 25)) .cm .cm = -(1 / 25) := by simp [displayValue]
  have d4 : displayValue 0 .cm .cm = 0 := by simp [displayValue]
  refine ⟨?_, ?_, ?_, ?_⟩
  · rw [renderAnnotationList_measure sessionMm ⟨0, 0⟩ ⟨100, 0⟩ "c" 3 5 .cm rfl]
    show [toFixed1 (displayValue 5 .cm .mm) ++ " " ++ LengthUnit.mm.str] = _
    rw [d1, t1]
    decide
  · rw [renderAnnotationList_measure sessionMmCommitted ⟨0, 0⟩ ⟨100, 0⟩ "c" 3 50 .cm rfl]
    show [toFixed1 (displayValue 50 .cm .mm) ++ " " ++ LengthUnit.mm.str] = _
    rw [d2, t2]
    decide
  · rw [renderAnnotationList_measure (sampleState [tinyMeasure] (-1)) ⟨0, 0⟩ ⟨100, 0⟩ "c" 3
      (-(1 / 25)) .cm rfl]
    show [toFixed1 (displayValue (-(1 / 25)) .cm .cm) ++ " " ++ LengthUnit.cm.str] = _
    rw [d3, t3]
    decide
  · rw [renderAnnotationList_measure
      (sampleState [ Annotation.measure ⟨0, 0⟩ ⟨100, 0⟩ "c" 3 0 .cm] (-1)) ⟨0, 0⟩ ⟨100, 0⟩ "c" 3
      0 .cm rfl]
    show [toFixed1 (displayValue 0 .cm .cm) ++ " " ++ LengthUnit.cm.str] = _
    rw [d4, t4]
    decide

/-! ## Lengths of the interactive path and of the export path (C26) -/

/-- C26, the code.  On the sample arrow (width 3) drawn at ratio 1/2, `redraw`
strokes with width 3/2 and passes it to `drawArrowhead`, whose arrowhead length is
`10 + 3/2 = 23/2`; the export path uses `10 + 3 = 13`, and half of that is 13/2.
In general the arrowhead length of `redraw` at ratio `r` is `10 + width * r`, that
of the export path is `10 + width`, and the first is `r` times the second only
for `r = 1`; the same holds for the two arrowheads of a measure.  The stroke
width, the badge radius and the badge font size are `r` times those of the
export path. -/
theorem arrowhead_length_not_scaled :
    redrawBody refMath (sampleState [sampleArrow] (-1)) (1 / 2) sampleArrow 0 =
        [DrawOp.segment ⟨0, 0⟩ ⟨50, 0⟩ "c" (3 / 2),
         DrawOp.arrowhead ⟨0, 0⟩ ⟨50, 0⟩ "c" (3 / 2) (23 / 2)] ∧
      sheetBody (sampleState [sampleArrow] (-1)) sampleArrow =
        [DrawOp.segment ⟨0, 0⟩ ⟨100, 0⟩ "c" 3, DrawOp.arrowhead ⟨0, 0⟩ ⟨100, 0⟩ "c" 3 13] ∧
      (23 / 2 : ℚ) ≠ 1 / 2 * 13 ∧
      (∀ (M : JsMath) (st : State) (r : ℚ) (start endPos : Point) (color text : String)
          (width : ℚ) (index : ℕ),
        redrawBody M st r ( Annotation.arrow start endPos color width text) index =
            [DrawOp.segment ⟨start.x * r, start.y * r⟩ ⟨endPos.x * r, endPos.y * r⟩ color
               (width * r),
             DrawOp.arrowhead ⟨start.x * r, start.y * r⟩ ⟨endPos.x * r, endPos.y * r⟩ color
               (width * r) (10 + width * r)] ∧
          sheetBody st ( Annotation.arrow start endPos color width text) =
            [DrawOp.segment start endPos color width,
             DrawOp.arrowhead start endPos color width (10 + width)] ∧
          (10 + width * r = r * (10 + width) ↔ r = 1)) ∧
      (∀ (start endPos : Point) (color : String) (width r : ℚ),
        drawArrowhead start endPos color (width * r) =
            [DrawOp.arrowhead start endPos color (width * r) (10 + width * r)] ∧
          drawArrowheadOnCtx start endPos color width =
            [DrawOp.arrowhead start endPos color width (10 + width)]) ∧
      (∀ (number : ℕ) (pos : Point) (color : String) (r : ℚ),
        drawAnnotationNumber number pos color r =
            [DrawOp.number number pos (12 * r) (16 * r) color] ∧
          drawAnnotationNumberOnCtx number pos color = [DrawOp.number number pos 12 16 color]) := by
  refine ⟨?_, ?_, by norm_num, ?_, fun _ _ _ _ _ => ⟨rfl, rfl⟩, fun _ _ _ _ => ⟨rfl, rfl⟩⟩
  · simp only [redrawBody, sampleArrow, drawArrowhead]
    norm_num
  · simp only [sheetBody, sampleArrow, drawArrowheadOnCtx]
    norm_num
  · intro M st r start endPos color text width index
    refine ⟨rfl, rfl, ?_⟩
    constructor
    · intro h
      have h2 : 10 * (r - 1) = 0 := by linarith
      have h3 : r - 1 = 0 := by
        rcases mul_eq_zero.mp h2 with h4 | h4
        · norm_num at h4
        · exact h4
      linarith
    · rintro rfl
      ring

/-! ## Stored source rects at export (C21) -/

theorem inSync_iff (ann : Annotation) : InSync ann ↔ redrawForEach ann = ann := by
  cases ann with
  | pinned_zoom text pos size zoom color source =>
      simp only [InSync, redrawForEach, sourceOf, Annotation.pinned_zoom.injEq, true_and]
      exact eq_comm
  | measure start endPos color width value unit => simp [InSync, redrawForEach]
  | arrow start endPos color width text => simp [InSync, redrawForEach]
  | text text pos color width => simp [InSync, redrawForEach]

theorem inSync_redrawForEach (ann : Annotation) : InSync (redrawForEach ann) :=
  (inSync_iff _).mpr (redrawForEach_idem ann)

theorem synced_of_imagesData_eq {s t : State} (h : t.imagesData = s.imagesData)
    (hs : Synced s) : Synced t := by
  unfold Synced
  rw [h]
  exact hs

theorem drawable_of_renderable_iff {st : State} {data : ImageData}
    (hd : getActiveImageData st = some data) : Renderable st ↔ Drawable data.image := by
  unfold Renderable Drawable getActiveImage
  rw [hd]
  constructor
  · rintro ⟨img, himg, hc, hw⟩
    simp only [Option.some.injEq] at himg
    rw [himg]
    exact ⟨hc, hw⟩
  · rintro ⟨hc, hw⟩
    exact ⟨data.image, rfl, hc, hw⟩

theorem synced_set_redraw {st : State} (hs : Synced st) (l : List Annotation) :
    Synced (redraw (setActiveAnnotations st l)) := by
  cases hd : getActiveImageData st with
  | none =>
      rw [setActiveAnnotations_of_none hd]
      have hnr : ¬ Renderable st := fun hr => getActiveImageData_ne_none_of_renderable hr hd
      rw [redraw_of_not_renderable hnr]
      exact hs
  | some data =>
      have hkey : ∀ l2 : List Annotation, (∀ a ∈ l2, Drawable data.image → InSync a) →
          Synced (setActiveAnnotations st l2) := by
        intro l2 hl2
        rw [setActiveAnnotations_of_some hd]
        intro d hdmem hdraw a ha
        rcases List.mem_or_eq_of_mem_set hdmem with hmem | heq
        · exact hs d hmem hdraw a ha
        · rw [heq] at hdraw ha
          exact hl2 a ha hdraw
      by_cases hr : Renderable st
      · have hr2 : Renderable (setActiveAnnotations st l) :=
          (renderable_setActiveAnnotations st l).mpr hr
        rw [redraw_of_renderable hr2, setActiveAnnotations_twice,
          getActiveAnnotations_setActiveAnnotations, if_neg (by rw [hd]; simp)]
        apply hkey
        intro a ha _
        obtain ⟨b, _, rfl⟩ := List.mem_map.mp ha
        exact inSync_redrawForEach b
      · have hr2 : ¬ Renderable (setActiveAnnotations st l) :=
          fun h => hr ((renderable_setActiveAnnotations st l).mp h)
        rw [redraw_of_not_renderable hr2]
        apply hkey
        intro a _ hdraw
        exact absurd ((drawable_of_renderable_iff hd).mpr hdraw) hr

theorem synced_redraw {st : State} (hs : Synced st) : Synced (redraw st) := by
  have h := synced_set_redraw hs (getActiveAnnotations st)
  rw [setActiveAnnotations_self] at h
  exact h

theorem synced_resizeCanvas {st : State} (hs : Synced st) : Synced (resizeCanvas st) := by
  unfold resizeCanvas
  cases getActiveImage st with
  | none => exact synced_redraw (synced_of_imagesData_eq rfl hs)
  | some img =>
      simp only
      split_ifs <;> exact synced_redraw (synced_of_imagesData_eq rfl hs)

theorem synced_setActiveImage {st : State} (hs : Synced st) (index : ℤ) :
    Synced (setActiveImage st index) := by
  unfold setActiveImage
  split_ifs
  · exact hs
  · exact synced_resizeCanvas (synced_of_imagesData_eq rfl hs)

theorem synced_setActiveTool {st : State} (hs : Synced st) (tool : Tool) :
    Synced (setActiveTool st tool) :=
  synced_redraw (synced_of_imagesData_eq rfl hs)

theorem synced_eraseIdx {st : State} (hs : Synced st) (index : ℕ) (a : ℤ) :
    Synced { st with imagesData := st.imagesData.eraseIdx index, activeImageIndex := a } :=
  fun d hdmem hdraw ann ha => hs d (List.mem_of_mem_eraseIdx hdmem) hdraw ann ha

theorem synced_deleteImageConfirmed {st : State} (hs : Synced st) (index : ℕ) :
    Synced (deleteImageConfirmed st index) := by
  unfold deleteImageConfirmed
  apply synced_resizeCanvas
  apply synced_setActiveImage
  simp only
  split_ifs <;> exact synced_eraseIdx hs index _

theorem synced_imageLoaded {st : State} (hs : Synced st) (id : ℚ) (img : Image) :
    Synced (imageLoaded st id img) := by
  unfold imageLoaded
  apply synced_setActiveImage
  intro d hdmem hdraw ann ha
  rcases List.mem_append.mp hdmem with hmem | hmem
  · exact hs d hmem hdraw ann ha
  · rw [List.mem_singleton] at hmem
    rw [hmem] at ha
    cases ha

theorem synced_runModalCallback {st : State} (hs : Synced st) (value : String)
    (cb : ModalCallback) : Synced (runModalCallback st value cb) := by
  cases cb with
  | zoomText pos =>
      simp only [runModalCallback]
      exact synced_setActiveTool (synced_set_redraw hs _) _
  | textTool pos =>
      simp only [runModalCallback]
      split_ifs
      · exact synced_set_redraw hs _
      · exact hs
  | measureValue start endPos color width =>
      simp only [runModalCallback]
      cases parseFloat value with
      | none => exact synced_redraw hs
      | some v =>
          simp only
          split_ifs
          · exact synced_set_redraw hs _
          · exact synced_redraw hs
  | arrowText start endPos color width =>
      simp only [runModalCallback]
      split_ifs
      · exact synced_set_redraw hs _
      · exact synced_redraw hs

theorem synced_modalOk {st : State} (hs : Synced st) (value : String) :
    Synced (modalOk st value) := by
  unfold modalOk
  cases st.currentModalCallback with
  | none => exact hs
  | some cb => exact synced_runModalCallback hs value cb

theorem synced_runConfirmCallback {st : State} (hs : Synced st) (cb : ConfirmCallback) :
    Synced (runConfirmCallback st cb).state := by
  cases cb with
  | deleteImage index => exact synced_deleteImageConfirmed hs index
  | clearCanvas =>
      simp only [runConfirmCallback]
      cases hj : jsIndex st.imagesData st.activeImageIndex with
      | none => exact hs
      | some data =>
          apply synced_redraw
          intro d hdmem hdraw ann ha
          rcases List.mem_or_eq_of_mem_set hdmem with hmem | heq
          · exact hs d hmem hdraw ann ha
          · rw [heq] at ha
            cases ha
  | restart =>
      show Synced (resizeCanvas { st with imagesData := [], activeImageIndex := -1 })
      apply synced_resizeCanvas
      intro d hdmem
      cases hdmem
  | noop => exact hs

theorem synced_confirmOk {st : State} (hs : Synced st) : Synced (confirmOk st).state := by
  unfold confirmOk
  cases st.currentConfirmCallback with
  | none => exact hs
  | some cb =>
      have h := synced_runConfirmCallback hs cb
      simp only
      cases hrun : runConfirmCallback st cb with
      | done s => rw [hrun] at h; exact h
      | typeError s => rw [hrun] at h; exact h

theorem synced_listInputChange {st : State} (hs : Synced st) (index : ℕ) (value : String) :
    Synced (listInputChange st index value).state := by
  unfold listInputChange
  cases (getActiveAnnotations st)[index]? with
  | none => exact hs
  | some ann =>
      cases ann with
      | measure start endPos color width v originalUnit =>
          simp only
          cases parseFloat value <;> exact synced_set_redraw hs _
      | arrow start endPos color width text => exact synced_set_redraw hs _
      | text text pos color width => exact synced_set_redraw hs _
      | pinned_zoom text pos size zoom color source => exact synced_set_redraw hs _

theorem synced_mousedownSelect (M : JsMath) {st : State} (hs : Synced st) (pos : Point)
    (ratio : ℚ) : Synced (mousedownSelect M st pos ratio) := by
  unfold mousedownSelect
  cases hitLoop M (getActiveAnnotations st) ratio pos (getActiveAnnotations st).length with
  | some i => exact synced_redraw (synced_of_imagesData_eq rfl hs)
  | none =>
      simp only
      split_ifs
      · exact synced_redraw (synced_of_imagesData_eq rfl hs)
      · exact hs

theorem synced_mousedown (M : JsMath) {st : State} (hs : Synced st) (pos : Point) :
    Synced (mousedown M st pos).state := by
  unfold mousedown
  split_ifs
  · exact synced_resizeCanvas (synced_of_imagesData_eq rfl hs)
  · exact hs
  · unfold createZoomAnnotation
    cases getActiveImage st <;> exact hs
  · exact hs
  · cases jsIndex (getActiveAnnotations st) st.selectedAnnotationIndex with
    | none => exact hs
    | some ann =>
        cases ann with
        | pinned_zoom text annPos size zoom color source =>
            simp only
            split_ifs
            · exact hs
            · exact synced_mousedownSelect M hs pos _
        | measure start endPos color width v originalUnit =>
            exact synced_mousedownSelect M hs pos _
        | arrow start endPos color width text => exact synced_mousedownSelect M hs pos _
        | text text p color width => exact synced_mousedownSelect M hs pos _
  · exact synced_mousedownSelect M hs pos _

theorem synced_mousemove (M : JsMath) {st : State} (hs : Synced st) (pos : Point) :
    Synced (mousemove M st pos).state := by
  have hs2 : Synced { st with lastMousePos := pos } := hs
  unfold mousemove
  simp only
  split_ifs
  · cases jsIndex (getActiveAnnotations { st with lastMousePos := pos })
        st.selectedAnnotationIndex with
    | none => exact hs
    | some ann =>
        cases getActiveImage { st with lastMousePos := pos } with
        | none => cases ann <;> exact hs
        | some img =>
            cases ann with
            | measure start endPos color width v originalUnit => exact hs
            | arrow start endPos color width text => exact hs
            | text text p color width => exact synced_redraw hs2
            | pinned_zoom text annPos size zoom color source =>
                exact synced_set_redraw hs2 _
  · exact hs
  · exact synced_redraw hs2

theorem synced_mouseup {st : State} (hs : Synced st) (pos : Point) :
    Synced (mouseup st pos) := by
  unfold mouseup
  split_ifs
  · exact hs
  · exact hs
  · simp only
    split
    · exact hs
    · exact hs
    · exact synced_redraw (synced_of_imagesData_eq rfl hs)

theorem synced_mouseleave {st : State} (hs : Synced st) : Synced (mouseleave st) := by
  unfold mouseleave
  simp only
  split_ifs
  · exact synced_redraw (synced_of_imagesData_eq rfl
      (synced_redraw (synced_of_imagesData_eq rfl hs)))
  · exact synced_redraw (synced_of_imagesData_eq rfl hs)
  · exact synced_redraw (synced_of_imagesData_eq rfl hs)
  · exact hs

theorem synced_wheel {st : State} (hs : Synced st) (deltaY : ℚ) :
    Synced (wheel st deltaY).state := by
  unfold wheel
  split_ifs
  · cases jsIndex (getActiveAnnotations st) st.selectedAnnotationIndex with
    | none => exact hs
    | some ann =>
        cases ann with
        | pinned_zoom text annPos size zoom color source => exact synced_set_redraw hs _
        | _ => exact hs
  · exact hs

theorem synced_step (M : JsMath) {st : State} (hs : Synced st) (e : Event) :
    Synced (step M st e) := by
  cases e with
  | toolClick tool => exact synced_setActiveTool hs tool
  | unitClick unit => exact synced_redraw (synced_of_imagesData_eq rfl hs)
  | windowResize cw ch ow oh => exact synced_resizeCanvas (synced_of_imagesData_eq rfl hs)
  | previewToggle => exact synced_resizeCanvas (synced_of_imagesData_eq rfl hs)
  | colorInput color => exact hs
  | lineWidthInput width => exact hs
  | imageLoaded id naturalWidth naturalHeight => exact synced_imageLoaded hs _ _
  | thumbClick index => exact synced_setActiveImage hs _
  | deleteImageClick index => exact hs
  | restartClick => exact hs
  | clearClick =>
      simp only [step, clearClick]
      split_ifs <;> exact hs
  | alert => exact hs
  | confirmOk => exact synced_confirmOk hs
  | confirmCancel => exact hs
  | modalOk value => exact synced_modalOk hs value
  | modalCancel => exact hs
  | listInputChange index value => exact synced_listInputChange hs index value
  | listDelete index => exact synced_set_redraw hs _
  | undo =>
      simp only [step, undo]
      split_ifs
      · exact synced_set_redraw hs _
      · exact hs
  | mousedown pos => exact synced_mousedown M hs pos
  | mousemove pos => exact synced_mousemove M hs pos
  | mouseup pos => exact synced_mouseup hs pos
  | mouseleave => exact synced_mouseleave hs
  | wheel deltaY => exact synced_wheel hs deltaY

theorem synced_reachable (M : JsMath) {st : State} (h : Reachable M st) : Synced st := by
  induction h with
  | init cw ch kw kh ow oh color lineWidth =>
      unfold initState
      apply synced_redraw
      apply synced_of_imagesData_eq rfl
      apply synced_setActiveTool
      intro d hdmem
      cases hdmem
  | step e _ ih => exact synced_step M ih e

theorem mem_imagesData_of_active {st : State} {data : ImageData}
    (hd : getActiveImageData st = some data) : data ∈ st.imagesData :=
  List.mem_iff_getElem?.mpr ⟨_, (getActiveImageData_eq_some hd).2⟩

theorem inSync_of_active {st t : State} (hs : Synced st) (ht : t.imagesData = st.imagesData)
    {img : Image} (himg : getActiveImage t = some img) (hdraw : Drawable img)
    {ann : Annotation} (hann : ann ∈ getActiveAnnotations t) : InSync ann := by
  unfold getActiveImage at himg
  unfold getActiveAnnotations at hann
  cases hd : getActiveImageData t with
  | none => rw [hd] at himg; cases himg
  | some data =>
      rw [hd] at himg hann
      simp only [Option.some.injEq] at himg
      have hmem : data ∈ st.imagesData := ht ▸ mem_imagesData_of_active hd
      exact hs data hmem (himg ▸ hdraw) ann hann

theorem sheetBody_mem_ops (M : JsMath) (measureText : String → ℚ) (t : State) (isExport : Bool)
    {img : Image} (himg : getActiveImage t = some img) {ann : Annotation}
    (hann : ann ∈ getActiveAnnotations t) {op : DrawOp} (hop : op ∈ sheetBody t ann) :
    ∃ sheet, generateProductSheet M measureText t isExport = some sheet ∧ op ∈ sheet.ops := by
  obtain ⟨n, hn⟩ := List.mem_iff_getElem?.mp hann
  unfold generateProductSheet
  rw [himg]
  refine ⟨_, rfl, ?_⟩
  simp only
  apply List.mem_append_left
  apply List.mem_append_right
  rw [List.mem_flatten]
  refine ⟨sheetBody t ann ++ sheetDecoration M ann n, ?_, List.mem_append_left _ hop⟩
  rw [List.mem_map]
  exact ⟨(n, ann), List.mk_mem_enum_iff_getElem?.mpr hn, rfl⟩

/-- C21: in every reachable state, every pinned zoom of every image that `redraw`
draws (complete, natural width not 0) stores the source rect computed from its
current `pos`, `size` and `zoom`, the square of side `size / zoom` centred at
`pos`.  Hence for the state itself (copy and image export) and for the state with
`activeImageIndex` set to any index (the pages of the PDF export), when the active
image is one that `redraw` draws, the magnifier `generateProductSheet` draws for a
pinned zoom of the active list reads exactly that rect.  The pages of
`exportAllToPdf` are the export sheets of the states with `activeImageIndex` set to
each index in turn. -/
theorem export_source_in_sync (M : JsMath) (measureText : String → ℚ) (st t : State)
    (isExport : Bool) (img : Image) (text : String) (pos : Point) (size zoom : ℚ)
    (color : String) (source : Option Rect)
    (hreach : Reachable M st) (ht : t.imagesData = st.imagesData)
    (himg : getActiveImage t = some img) (hdraw : Drawable img)
    (hann : Annotation.pinned_zoom text pos size zoom color source ∈ getActiveAnnotations t) :
    Synced st ∧
      source = some (sourceOf pos size zoom) ∧
      (∃ sheet, generateProductSheet M measureText t isExport = some sheet ∧
        DrawOp.magnifier pos (size / 2) "#3b82f6" 4 (some (sourceOf pos size zoom))
          (pos.x - size / 2) (pos.y - size / 2) (size * zoom) (size * zoom) ∈ sheet.ops) ∧
      (∀ n : ℕ, n < st.imagesData.length →
        ∃ pages, exportAllToPdf M measureText st = some pages ∧
          pages[n]? = some (generateProductSheet M measureText
            { st with activeImageIndex := (n : ℤ) } true)) := by
  have hs := synced_reachable M hreach
  have hsync : source = some (sourceOf pos size zoom) := inSync_of_active hs ht himg hdraw hann
  refine ⟨hs, hsync, ?_, ?_⟩
  · apply sheetBody_mem_ops M measureText t isExport himg hann
    rw [hsync]
    simp [sheetBody]
  · intro n hn
    unfold exportAllToPdf
    rw [if_neg (by omega)]
    refine ⟨_, rfl, ?_⟩
    rw [List.getElem?_map, List.getElem?_range hn]
    rfl

/-- C21 on the state of the sample session, which holds the created pinned zoom. -/
theorem export_source_in_sync_witness :
    Reachable refMath (sampleState [createdZoom] 0) ∧
      getActiveImage (sampleState [createdZoom] 0) = some sampleImage ∧
      Drawable sampleImage ∧
      ∃ sheet, generateProductSheet refMath (fun _ => 0) (sampleState [createdZoom] 0) true =
          some sheet ∧
        DrawOp.magnifier ⟨40, 60⟩ (150 / 2) "#3b82f6" 4 (some (sourceOf ⟨40, 60⟩ 150 3))
          ((40 : ℚ) - 150 / 2) ((60 : ℚ) - 150 / 2) (150 * 3) (150 * 3) ∈ sheet.ops :=
  have hreach : Reachable refMath (sampleState [createdZoom] 0) :=
    run_selectSession ▸ reachable_run refMath selectSession sessionStart reachable_sessionStart
  have hdraw : Drawable sampleImage := ⟨rfl, by norm_num [sampleImage]⟩
  ⟨hreach, rfl, hdraw,
    (export_source_in_sync refMath (fun _ => 0) (sampleState [createdZoom] 0)
      (sampleState [createdZoom] 0) true sampleImage "z" ⟨40, 60⟩ 150 3 "#ff0000"
      (some ⟨15, 35, 50, 50⟩) hreach rfl rfl hdraw (List.mem_singleton.mpr rfl)).2.2.1⟩

/-! ## Wheel zoom (C24) -/

/-- C24, the code on a failing input: at zoom level 1 without pan, with the cursor
at (10, 10) of a canvas whose bounding rect starts at (0, 0), the image point
under the cursor is (10, 10); after a wheel step in (`deltaY < 0`) the zoom level
is 11/10 and the pan is (10/11, 10/11), and the image point under the same cursor
is (1000/121, 1000/121), not (10, 10). -/
theorem wheel_moves_point_under_cursor :
    getCanvasCoords (sampleCanvas 1) ⟨0, 0⟩ ⟨10, 10⟩ = ⟨some 10, some 10⟩ ∧
      handleWheel (sampleCanvas 1) ⟨0, 0⟩ ⟨⟨10, 10⟩, -1⟩ =
        { annotations := [scriptMeasure], zoomLevel := 11 / 10, panX := 10 / 11,
          panY := 10 / 11 } ∧
      getCanvasCoords (handleWheel (sampleCanvas 1) ⟨0, 0⟩ ⟨⟨10, 10⟩, -1⟩) ⟨0, 0⟩ ⟨10, 10⟩ =
        ⟨some (1000 / 121), some (1000 / 121)⟩ := by
  have hw : handleWheel (sampleCanvas 1) ⟨0, 0⟩ ⟨⟨10, 10⟩, -1⟩ =
      { annotations := [scriptMeasure], zoomLevel := 11 / 10, panX := 10 / 11,
        panY := 10 / 11 } := by
    simp only [handleWheel, sampleCanvas]
    norm_num
  refine ⟨?_, hw, ?_⟩
  · simp only [getCanvasCoords, clientCoord, sampleCanvas]
    norm_num
  · rw [hw]
    simp only [getCanvasCoords, clientCoord]
    norm_num

/-! ## Hit test of a zoom annotation (C29) -/

theorem annotationHit_zoom (M : JsMath) (z x y : ℚ) (hz : 0 < z) (id : ℚ) (color : String)
    (lineWidth ax ay radius zoomX zoomY zoomRadius : ℚ) :
    annotationHit M z x y
        ( ScriptAnn.zoom_annotation id color lineWidth ax ay radius zoomX zoomY zoomRadius) =
        true ↔
      pointDistance M x y ⟨ax, ay⟩ * z < radius ∨
        pointDistance M x y ⟨zoomX, zoomY⟩ * z < zoomRadius := by
  have h1 := isPointNear_iff M x y ⟨ax, ay⟩ radius z hz
  have h2 := isPointNear_iff M x y ⟨zoomX, zoomY⟩ zoomRadius z hz
  simp only [annotationHit, Bool.or_eq_true]
  exact or_congr h1 h2

theorem insideCircles_zoom (M : JsMath) (x y : ℚ) (id : ℚ) (color : String)
    (lineWidth ax ay radius zoomX zoomY zoomRadius : ℚ) :
    InsideCircles M x y
        ( ScriptAnn.zoom_annotation id color lineWidth ax ay radius zoomX zoomY zoomRadius) ↔
      pointDistance M x y ⟨ax, ay⟩ < radius ∨
        pointDistance M x y ⟨zoomX, zoomY⟩ < zoomRadius := by
  simp [InsideCircles, zoomCircles]

theorem pointDistance_of_sq (x y : ℚ) (p : Point) (d : ℚ) (hd : 0 ≤ d)
    (h : (x - p.x) ^ 2 + (y - p.y) ^ 2 = d ^ 2) : pointDistance refMath x y p = d := by
  unfold pointDistance
  rw [h]
  exact refMath_sqrt_sq d hd

/-- C29, the code on two failing inputs, for the zoom annotation at (100, 100)
with radius 50 and its zoom circle of radius 40 at (200, 200).  At zoom level 2 the
point (100, 125) is at distance 25 from the centre, strictly inside the circle of
radius 50, and `getAnnotationAt` returns `null`: the test compares 25 with
`50 / 2`.  At zoom level 1/4 the point (100, 275) is at distance 175 from the
centre and 125 from the centre of the zoom circle, outside both circles, and
`getAnnotationAt` returns the annotation: the test compares 175 with `50 / (1/4)`.
In general, for `zoomLevel > 0`, the test passes exactly when the distance times
`zoomLevel` is below the radius for one of the two circles. -/
theorem zoom_hit_differs_from_circles :
    InsideCircles refMath 100 125 scriptZoom ∧
      getAnnotationAt refMath (zoomCanvas 2) 100 125 = none ∧
      ¬ InsideCircles refMath 100 275 scriptZoom ∧
      getAnnotationAt refMath (zoomCanvas (1 / 4)) 100 275 = some scriptZoom ∧
      (∀ (M : JsMath) (z x y : ℚ), 0 < z →
        (annotationHit M z x y scriptZoom = true ↔
          pointDistance M x y ⟨100, 100⟩ * z < 50 ∨
            pointDistance M x y ⟨200, 200⟩ * z < 40)) := by
  have d1 : pointDistance refMath 100 125 ⟨100, 100⟩ = 25 :=
    pointDistance_of_sq _ _ _ 25 (by norm_num) (by norm_num)
  have d2 : pointDistance refMath 100 125 ⟨200, 200⟩ = 125 :=
    pointDistance_of_sq _ _ _ 125 (by norm_num) (by norm_num)
  have d3 : pointDistance refMath 100 275 ⟨100, 100⟩ = 175 :=
    pointDistance_of_sq _ _ _ 175 (by norm_num) (by norm_num)
  have d4 : pointDistance refMath 100 275 ⟨200, 200⟩ = 125 :=
    pointDistance_of_sq _ _ _ 125 (by norm_num) (by norm_num)
  have hgen : ∀ (M : JsMath) (z x y : ℚ), 0 < z →
      (annotationHit M z x y scriptZoom = true ↔
        pointDistance M x y ⟨100, 100⟩ * z < 50 ∨
          pointDistance M x y ⟨200, 200⟩ * z < 40) :=
    fun M z x y hz => annotationHit_zoom M z x y hz 2 "#FF0000" 3 100 100 50 200 200 40
  refine ⟨?_, ?_, ?_, ?_, hgen⟩
  · rw [scriptZoom, insideCircles_zoom, d1]
    exact Or.inl (by norm_num)
  · rw [getAnnotationAt_singleton refMath (zoomCanvas 2) scriptZoom rfl, if_neg]
    intro h
    have h2 := (hgen refMath 2 100 125 (by norm_num)).mp h
    rw [d1, d2] at h2
    rcases h2 with h3 | h3
    · norm_num at h3
    · norm_num at h3
  · rw [scriptZoom, insideCircles_zoom, d3, d4]
    intro h
    rcases h with h3 | h3
    · norm_num at h3
    · norm_num at h3
  · rw [getAnnotationAt_singleton refMath (zoomCanvas (1 / 4)) scriptZoom rfl, if_pos]
    apply (hgen refMath (1 / 4) 100 275 (by norm_num)).mpr
    rw [d3]
    exact Or.inl (by norm_num)

/-! ## Dragging a selected annotation (C30) -/

theorem annotationIndexLoop_some (M : JsMath) (annotations : List ScriptAnn)
    (zoomLevel x y : ℚ) (i : ℕ) :
    ∀ n, annotationIndexLoop M annotations zoomLevel x y n = some i →
      ∃ ann, annotations[i]? = some ann ∧ annotationHit M zoomLevel x y ann = true := by
  intro n
  induction n with
  | zero => intro h; cases h
  | succ n ih =>
      intro h
      unfold annotationIndexLoop at h
      cases hget : annotations[n]? with
      | none =>
          rw [hget] at h
          exact ih h
      | some ann =>
          rw [hget] at h
          simp only at h
          by_cases hhit : annotationHit M zoomLevel x y ann = true
          · rw [if_pos hhit] at h
            simp only [Option.some.injEq] at h
            exact ⟨ann, h ▸ hget, hhit⟩
          · rw [if_neg hhit] at h
            exact ih h

theorem getAnnotationAt_eq_index (M : JsMath) (cm : CanvasManager) (x y : ℚ) :
    getAnnotationAt M cm x y =
      (getAnnotationIndexAt M cm x y).bind fun i => cm.annotations[i]? := by
  have key : ∀ n, n ≤ cm.annotations.length →
      (cm.annotations.take n).reverse.find? (annotationHit M cm.zoomLevel x y) =
        (annotationIndexLoop M cm.annotations cm.zoomLevel x y n).bind
          fun i => cm.annotations[i]? := by
    intro n
    induction n with
    | zero => intro _; rfl
    | succ n ih =>
        intro hn
        have hlt : n < cm.annotations.length := hn
        have htake : cm.annotations.take (n + 1) =
            cm.annotations.take n ++ [cm.annotations[n]] := by
          rw [List.take_succ, List.getElem?_eq_getElem hlt]
          rfl
        rw [htake, List.reverse_append, List.reverse_singleton, List.singleton_append,
          List.find?_cons]
        unfold annotationIndexLoop
        rw [List.getElem?_eq_getElem hlt]
        simp only
        by_cases hhit : annotationHit M cm.zoomLevel x y cm.annotations[n] = true
        · rw [hhit, if_pos rfl]
          simp only [Option.some_bind]
          exact (List.getElem?_eq_getElem hlt).symm
        · rw [Bool.not_eq_true] at hhit
          rw [hhit, if_neg (by simp)]
          exact ih (Nat.le_of_lt hlt)
  have h := key cm.annotations.length (le_refl _)
  rw [List.take_length] at h
  exact h

theorem moveBy_zero (ann : ScriptAnn) : ScriptAnn.moveBy 0 0 ann = ann := by
  cases ann <;> simp [ScriptAnn.moveBy]

theorem moveBy_moveBy (ann : ScriptAnn) (a b dx dy : ℚ) :
    ScriptAnn.moveBy dx dy (ScriptAnn.moveBy a b ann) = ScriptAnn.moveBy (a + dx) (b + dy) ann := by
  cases ann <;> simp [ScriptAnn.moveBy, add_assoc]

theorem set_of_getElem? {α : Type} (l : List α) (i : ℕ) (a : α) (h : l[i]? = some a) :
    l.set i a = l := by
  apply List.ext_getElem?
  intro j
  rw [List.getElem?_set]
  by_cases hij : i = j
  · subst hij
    rw [if_pos rfl, h]
    have hlt : i < l.length := by
      by_contra hge
      rw [List.getElem?_eq_none (not_lt.mp hge)] at h
      cases h
    rw [if_pos hlt]
  · rw [if_neg hij]

/-- The state of a drag of the annotation at `index`, started at `p0`, when the
pointer is at `q`. -/
theorem drag_invariant (orig : List ScriptAnn) (index : ℕ) (ann : ScriptAnn)
    (hann : orig[index]? = some ann) (p0 : Point) (points : List Point) :
    ∀ (s : ScriptState) (q : Point),
      s.selectedAnnotation = some index → s.isDragging = true → s.dragStart = q →
      s.manager.annotations = orig.set index (ScriptAnn.moveBy (q.x - p0.x) (q.y - p0.y) ann) →
      (dragThrough s points).manager.annotations =
          orig.set index (ScriptAnn.moveBy ((points.getLast?.getD q).x - p0.x)
            ((points.getLast?.getD q).y - p0.y) ann) ∧
        (dragThrough s points).manager.zoomLevel = s.manager.zoomLevel ∧
        (dragThrough s points).manager.panX = s.manager.panX ∧
        (dragThrough s points).manager.panY = s.manager.panY := by
  have hlt : index < orig.length := by
    by_contra hge
    rw [List.getElem?_eq_none (not_lt.mp hge)] at hann
    cases hann
  induction points with
  | nil =>
      intro s q _ _ _ hl
      exact ⟨hl, rfl, rfl, rfl⟩
  | cons p rest ih =>
      intro s q hsel hdrag hstart hl
      have hget : s.manager.annotations[index]? =
          some (ScriptAnn.moveBy (q.x - p0.x) (q.y - p0.y) ann) := by
        rw [hl, List.getElem?_set, if_pos rfl, if_pos hlt]
      have hstep : moveSelectedAnnotation s p.x p.y =
          { s with
            manager := { s.manager with
              annotations := s.manager.annotations.set index
                (ScriptAnn.moveBy (p.x - s.dragStart.x) (p.y - s.dragStart.y)
                  (ScriptAnn.moveBy (q.x - p0.x) (q.y - p0.y) ann)) },
            dragStart := ⟨p.x, p.y⟩ } := by
        unfold moveSelectedAnnotation
        rw [hsel]
        simp only [hdrag, hget]
        rfl
      have hres := ih ( moveSelectedAnnotation s p.x p.y) p
        (by rw [hstep]; exact hsel) (by rw [hstep]; exact hdrag) (by rw [hstep])
        (by
          rw [hstep]
          simp only
          rw [hl, List.set_set, moveBy_moveBy, hstart]
          congr 2 <;> ring)
      have hlast : ((p :: rest).getLast?.getD q) = (rest.getLast?.getD p) := by
        cases rest with
        | nil => rfl
        | cons r rest2 =>
            rw [List.getLast?_cons_cons]
            simp [List.getLast?_eq_getLast, Option.getD]
      rw [hlast]
      have hz : ( moveSelectedAnnotation s p.x p.y).manager.zoomLevel = s.manager.zoomLevel ∧
          ( moveSelectedAnnotation s p.x p.y).manager.panX = s.manager.panX ∧
          ( moveSelectedAnnotation s p.x p.y).manager.panY = s.manager.panY := by
        rw [hstep]
        exact ⟨rfl, rfl, rfl⟩
      show (dragThrough ( moveSelectedAnnotation s p.x p.y) rest).manager.annotations = _ ∧ _
      exact ⟨hres.1, hres.2.1.trans hz.1, hres.2.2.1.trans hz.2.1, hres.2.2.2.trans hz.2.2⟩

/-- C30: a mousedown with the select tool at an image point `p0` where
`getAnnotationAt` finds the annotation at `index` selects it and starts a drag;
after `moveSelectedAnnotation` has been called for the points of `points` in order,
the list is the original one with that annotation moved by `pn - p0`, where `pn` is
the last point (`p0` itself when there is none), whatever the points in between:
every other annotation and the zoom and pan are as before.  A move adds the same
offset to `start` and `end` of a measure or an arrow, to `(x, y)` of a text and to
`(x, y)` and `(zoomX, zoomY)` of a zoom annotation, so `end - start` and
`(zoomX - x, zoomY - y)` keep their values, as do `radius`, `zoomRadius` and the
other fields. -/
theorem drag_translates (M : JsMath) (s0 : ScriptState) (e : MouseEvent) (p0 : Point)
    (points : List Point) (index : ℕ) (htool : s0.currentTool = "select-tool")
    (hhit : getAnnotationIndexAt M s0.manager p0.x p0.y = some index) :
    (∃ ann s1,
      s0.manager.annotations[index]? = some ann ∧
      getAnnotationAt M s0.manager p0.x p0.y = some ann ∧
      handleMouseDown M s0 e p0.x p0.y = some s1 ∧
      (dragThrough s1 points).manager.annotations =
        s0.manager.annotations.set index
          (ScriptAnn.moveBy ((points.getLast?.getD p0).x - p0.x)
            ((points.getLast?.getD p0).y - p0.y) ann) ∧
      (∀ j, j ≠ index →
        (dragThrough s1 points).manager.annotations[j]? = s0.manager.annotations[j]?) ∧
      (dragThrough s1 points).manager.zoomLevel = s0.manager.zoomLevel ∧
      (dragThrough s1 points).manager.panX = s0.manager.panX ∧
      (dragThrough s1 points).manager.panY = s0.manager.panY) ∧
    (∀ (dx dy id : ℚ) (color : String) (lineWidth : ℚ) (start endPos : Point),
      ScriptAnn.moveBy dx dy (.measure id color lineWidth start endPos) =
          .measure id color lineWidth ⟨start.x + dx, start.y + dy⟩
            ⟨endPos.x + dx, endPos.y + dy⟩ ∧
        ScriptAnn.moveBy dx dy (.arrow id color lineWidth start endPos) =
          .arrow id color lineWidth ⟨start.x + dx, start.y + dy⟩
            ⟨endPos.x + dx, endPos.y + dy⟩ ∧
        (endPos.x + dx) - (start.x + dx) = endPos.x - start.x ∧
        (endPos.y + dy) - (start.y + dy) = endPos.y - start.y) ∧
    (∀ (dx dy id : ℚ) (color : String) (lineWidth x y radius zoomX zoomY zoomRadius : ℚ)
        (content : String),
      ScriptAnn.moveBy dx dy (.text id color lineWidth x y content) =
          .text id color lineWidth (x + dx) (y + dy) content ∧
        ScriptAnn.moveBy dx dy
            ( ScriptAnn.zoom_annotation id color lineWidth x y radius zoomX zoomY zoomRadius) =
          ScriptAnn.zoom_annotation id color lineWidth (x + dx) (y + dy) radius (zoomX + dx)
            (zoomY + dy) zoomRadius ∧
        (zoomX + dx) - (x + dx) = zoomX - x ∧ (zoomY + dy) - (y + dy) = zoomY - y) := by
  refine ⟨?_, fun dx dy id color lineWidth start endPos => ⟨rfl, rfl, by ring, by ring⟩,
    fun dx dy id color lineWidth x y radius zoomX zoomY zoomRadius content =>
      ⟨rfl, rfl, by ring, by ring⟩⟩
  obtain ⟨ann, hann, _⟩ := annotationIndexLoop_some M s0.manager.annotations
    s0.manager.zoomLevel p0.x p0.y index _ hhit
  have hdown : handleMouseDown M s0 e p0.x p0.y =
      some { s0 with drawing := false, selectedAnnotation := some index, isDragging := true,
                     dragStart := ⟨p0.x, p0.y⟩ } := by
    unfold handleMouseDown
    rw [if_pos htool, hhit]
  have hinv := drag_invariant s0.manager.annotations index ann hann p0 points
    { s0 with drawing := false, selectedAnnotation := some index, isDragging := true,
              dragStart := ⟨p0.x, p0.y⟩ } p0 rfl rfl rfl
    (by
      simp only [sub_self, moveBy_zero]
      exact (set_of_getElem? _ _ _ hann).symm)
  refine ⟨ann, _, hann, ?_, hdown, hinv.1, ?_, hinv.2.1, hinv.2.2.1, hinv.2.2.2⟩
  · rw [getAnnotationAt_eq_index, hhit]
    exact hann
  · intro j hj
    rw [hinv.1, List.getElem?_set_ne (Ne.symm hj)]

theorem getAnnotationIndexAt_sample :
    getAnnotationIndexAt refMath sampleScriptState.manager 0 5 = some 0 := by
  have hd : pointDistance refMath 0 5 ⟨0, 5⟩ = 0 :=
    pointDistance_of_sq _ _ _ 0 (le_refl _) (by norm_num)
  have hhit : annotationHit refMath 1 0 5 scriptMeasure = true := by
    apply (annotationHit_of_endpoints refMath 1 0 5 (by norm_num)
      (rfl : scriptMeasure.endpoints? = some (⟨0, 5⟩, ⟨100, 5⟩))).mpr
    rw [hd]
    exact Or.inl (by norm_num)
  show annotationIndexLoop refMath [scriptMeasure] 1 0 5 1 = some 0
  unfold annotationIndexLoop
  simp only [List.getElem?_cons_zero]
  rw [if_pos hhit]

/-- C30 on the sample canvas: the measure from (0, 5) to (100, 5) is grabbed at its
start point and dragged through (3, 9) to (10, 25). -/
theorem drag_translates_witness :
    sampleScriptState.currentTool = "select-tool" ∧
      getAnnotationIndexAt refMath sampleScriptState.manager 0 5 = some 0 ∧
      ∃ ann s1,
        sampleScriptState.manager.annotations[0]? = some ann ∧
        getAnnotationAt refMath sampleScriptState.manager 0 5 = some ann ∧
        handleMouseDown refMath sampleScriptState ⟨1, 6⟩ 0 5 = some s1 ∧
        (dragThrough s1 [⟨3, 9⟩, ⟨10, 25⟩]).manager.annotations =
          sampleScriptState.manager.annotations.set 0
            (ScriptAnn.moveBy (10 - 0) (25 - 5) ann) := by
  obtain ⟨ann, s1, h1, h2, h3, h4, _⟩ :=
    (drag_translates refMath sampleScriptState ⟨1, 6⟩ ⟨0, 5⟩ [⟨3, 9⟩, ⟨10, 25⟩] 0 rfl
      getAnnotationIndexAt_sample).1
  exact ⟨rfl, getAnnotationIndexAt_sample, ann, s1, h1, h2, h3, h4⟩

/-! ## Upload of a batch of files in `script.js` (C25) -/

/-- C25, the code on two failing inputs.  Into the empty list, a batch of two image
files of which the first fails and the second loads (id 7) leaves one image in the
list, reads `state.images[1 - 2]`, which is `undefined`, and `setCanvasImage`
throws: no image is activated (`currentImageIndex` stays `-1`).  Into a list
holding one image (id 1), a batch of two image files of which the first loads
(id 7) and the second fails reads `state.images[2 - 2]` and activates the image of
id 1, which was there before, not the image of id 7 that the batch added. -/
theorem upload_activates_wrong_image :
    handleFiles uploadStart [.failed, .decoded 7 10 10] =
        .typeError { uploadStart with
          images := [{ id := 7, width := 10, height := 10, annotations := [] }] } ∧
      handleFiles uploadOne [.decoded 7 10 10, .failed] =
        .done { uploadOne with
          images := [{ id := 1, width := 200, height := 100, annotations := [] },
            { id := 7, width := 10, height := 10, annotations := [] }] } ∧
      jsIndex ([{ id := 1, width := 200, height := 100, annotations := [] },
        { id := 7, width := 10, height := 10, annotations := [] }] : List ScriptImage)
        uploadOne.currentImageIndex =
        some { id := 1, width := 200, height := 100, annotations := [] } := by
  refine ⟨?_, ?_, ?_⟩
  · simp [handleFiles, uploadStart, setCanvasImage, jsIndex]
  · simp [handleFiles, uploadOne, setCanvasImage, jsIndex, findIndex, List.findIdx?]
  · simp [jsIndex, uploadOne]

end VibeAnnotation
